import Mathlib

/-!
Scene compositor and animation engine of `wayland_window.c`.

Shallow embedding of the colour math, the pseudo-random generator, the entity
state, the drawing primitives, the painters and the animation updater.

Conventions of the embedding
* C `int` is `Int`; where an operand is not bounded by the surrounding code the
  result is reduced with `wrap32` (two's-complement wraparound, the behaviour of
  the usual lowering of `int` arithmetic).  `uint32_t` is `Nat` reduced mod `2^32`.
* C `float` and `double` are IEEE-754 binary32 and binary64 with round to nearest,
  ties to even, every operation rounded once to the format of its C type
  (`FLT_EVAL_METHOD == 0`, no contraction).  A value is an `FVal`; the two signed
  zeros are identified.
* `sinf`, `cosf`, `powf` and the `rand` stream after `srand(42)` come from the C
  library and are parameters (`Libc`).
* The global variables of the C file are the fields of `Engine`.
-/

namespace XmasTree

/-! ## Machine integers -/

/-- Reduction of an integer to the range of a 32-bit two's-complement `int`. -/
def wrap32 (n : Int) : Int := (n + 2147483648) % 4294967296 - 2147483648

/-- Reduction of an integer to the range of `uint32_t`. -/
def wrapU32 (n : Int) : Nat := (n % 4294967296).toNat

/-! ## IEEE-754 values -/

/-- A floating-point datum: a finite rational, an infinity with its sign, or NaN. -/
inductive FVal where
  | fin (q : ℚ)
  | inf (neg : Bool)
  | nan
  deriving DecidableEq

/-- Power of two with an integer exponent, as a rational. -/
def pow2 (e : Int) : ℚ :=
  if 0 ≤ e then ((2 ^ e.toNat : Nat) : ℚ) else 1 / ((2 ^ (-e).toNat : Nat) : ℚ)

/-- Auxiliary of `nlog2`, with a recursion budget. -/
def nlog2Aux : Nat → Nat → Nat
  | 0, _ => 0
  | fuel + 1, n => if 2 ≤ n then nlog2Aux fuel (n / 2) + 1 else 0

/-- Floor of the binary logarithm of a positive natural number. -/
def nlog2 (n : Nat) : Nat := nlog2Aux n n

/-- Floor of the binary logarithm of `|x|` for `x ≠ 0`. -/
def ilog2 (x : ℚ) : Int :=
  let k : Int := (nlog2 x.num.natAbs : Int) - (nlog2 x.den : Int)
  if pow2 k ≤ |x| then k else k - 1

/-- Rounding of a rational to the nearest integer, ties to the even one. -/
def roundHalfEven (x : ℚ) : Int :=
  let f := ⌊x⌋
  if x - f < 1 / 2 then f
  else if 1 / 2 < x - f then f + 1
  else if f % 2 = 0 then f else f + 1

/-- A binary interchange format: precision in bits and exponent range. -/
structure Fmt where
  prec : Nat
  emin : Int
  emax : Int

/-- The format of C `float`. -/
def binary32 : Fmt := ⟨24, -126, 127⟩

/-- The format of C `double`. -/
def binary64 : Fmt := ⟨53, -1022, 1023⟩

/-- Spacing of the format's grid around `x ≠ 0`. -/
def Fmt.quantum (f : Fmt) (x : ℚ) : ℚ :=
  pow2 (max (ilog2 x) f.emin - ((f.prec : Int) - 1))

/-- The grid point of the format nearest to `x`, ties to the even mantissa,
with gradual underflow and no overflow threshold. -/
def Fmt.rq (f : Fmt) (x : ℚ) : ℚ :=
  if x = 0 then 0 else (roundHalfEven (x / f.quantum x) : ℚ) * f.quantum x

/-- Rounding of an exact result to the format (round to nearest, ties to even,
gradual underflow, overflow to infinity). -/
def Fmt.round (f : Fmt) (x : ℚ) : FVal :=
  if pow2 (f.emax + 1) ≤ |f.rq x| then .inf (decide (x < 0)) else .fin (f.rq x)

/-- Negation. -/
def FVal.neg : FVal → FVal
  | .fin q => .fin (-q)
  | .inf s => .inf (!s)
  | .nan => .nan

/-- Addition rounded to the format. -/
def Fmt.add (f : Fmt) : FVal → FVal → FVal
  | .fin a, .fin b => f.round (a + b)
  | .fin _, .inf s => .inf s
  | .inf s, .fin _ => .inf s
  | .inf s, .inf t => if s = t then .inf s else .nan
  | _, _ => .nan

/-- Subtraction rounded to the format. -/
def Fmt.sub (f : Fmt) (a b : FVal) : FVal := f.add a b.neg

/-- Multiplication rounded to the format. -/
def Fmt.mul (f : Fmt) : FVal → FVal → FVal
  | .fin a, .fin b => f.round (a * b)
  | .fin a, .inf s => if a = 0 then .nan else .inf (xor s (decide (a < 0)))
  | .inf s, .fin b => if b = 0 then .nan else .inf (xor s (decide (b < 0)))
  | .inf s, .inf t => .inf (xor s t)
  | _, _ => .nan

/-- Division rounded to the format; a zero divisor counts as `+0`. -/
def Fmt.div (f : Fmt) : FVal → FVal → FVal
  | .fin a, .fin b =>
      if b = 0 then (if a = 0 then .nan else .inf (decide (a < 0))) else f.round (a / b)
  | .fin _, .inf _ => .fin 0
  | .inf s, .fin b => .inf (xor s (decide (b < 0)))
  | _, _ => .nan

/-- Comparison `a < b`; false as soon as an operand is NaN. -/
def FVal.lt : FVal → FVal → Bool
  | .fin a, .fin b => decide (a < b)
  | .fin _, .inf s => !s
  | .inf s, .fin _ => s
  | .inf s, .inf t => s && !t
  | _, _ => false

/-- Comparison `a <= b`; false as soon as an operand is NaN. -/
def FVal.le : FVal → FVal → Bool
  | .fin a, .fin b => decide (a ≤ b)
  | .fin _, .inf s => !s
  | .inf s, .fin _ => s
  | .inf s, .inf t => s || !t
  | _, _ => false

/-- Conversion of an integer to the format. -/
def Fmt.ofInt (f : Fmt) (n : Int) : FVal := f.round n

/-- Truncation toward zero of a rational. -/
def truncQ (q : ℚ) : Int := if 0 ≤ q then ⌊q⌋ else ⌈q⌉

/-- C conversion to `int`: truncation; outside the range of `int` (and for NaN)
the x86-64 conversion instruction delivers `INT_MIN`. -/
def FVal.toInt32 : FVal → Int
  | .fin q => if -2147483648 ≤ truncQ q ∧ truncQ q < 2147483648 then truncQ q else -2147483648
  | _ => -2147483648

/-- C conversion to `uint8_t`: conversion to `int`, low byte kept. -/
def FVal.toU8 (v : FVal) : Nat := (v.toInt32 % 256).toNat

/-- C conversion to `uint32_t`: 64-bit truncating conversion, low 32 bits kept. -/
def FVal.toU32 : FVal → Nat
  | .fin q =>
      if -9223372036854775808 ≤ truncQ q ∧ truncQ q < 9223372036854775808
      then wrapU32 (truncQ q) else 0
  | _ => 0

/-- Conversion of a `double` to `float`. -/
def FVal.toFloat : FVal → FVal
  | .fin q => binary32.round q
  | v => v

/-- C `fmax`: the other operand when one is NaN. -/
def fmax : FVal → FVal → FVal
  | .nan, b => b
  | a, .nan => a
  | a, b => if a.lt b then b else a

/-- C `fmin`: the other operand when one is NaN. -/
def fmin : FVal → FVal → FVal
  | .nan, b => b
  | a, .nan => a
  | a, b => if b.lt a then b else a

/-- C `fabsf`. -/
def fabsf : FVal → FVal
  | .fin q => .fin |q|
  | .inf _ => .inf false
  | .nan => .nan

/-- C `fmod` of doubles: `x - trunc(x / y) * y`, exact. -/
def fmod : FVal → FVal → FVal
  | .fin x, .fin y => if y = 0 then .nan else .fin (x - (truncQ (x / y) : ℚ) * y)
  | .fin x, .inf _ => .fin x
  | _, _ => .nan

/-- Auxiliary of `isqrt`: the root is built bit by bit from bit `k - 1` down. -/
def isqrtAux (n : Nat) : Nat → Nat → Nat
  | 0, r => r
  | k + 1, r => isqrtAux n k (if (r + 2 ^ k) * (r + 2 ^ k) ≤ n then r + 2 ^ k else r)

/-- Integer square root. -/
def isqrt (n : Nat) : Nat := isqrtAux n (nlog2 n / 2 + 1) 0

/-- Correctly rounded binary32 square root of a positive rational. -/
def sqrtPos (x : ℚ) : ℚ :=
  let e : Int := max (ilog2 x / 2) binary32.emin
  let q : ℚ := pow2 (e - 23)
  let y : ℚ := x / (q * q)
  let m : Int := isqrt ⌊y⌋.toNat
  let h : ℚ := (m : ℚ) + 1 / 2
  let m' : Int := if y < h * h then m else if h * h < y then m + 1
                  else if m % 2 = 0 then m else m + 1
  (m' : ℚ) * q

/-- C `sqrtf`. -/
def sqrtf : FVal → FVal
  | .fin x => if x < 0 then .nan else if x = 0 then .fin 0 else .fin (sqrtPos x)
  | .inf s => if s then .nan else .inf false
  | .nan => .nan

/-- Library functions of the C runtime that the embedding takes as given. -/
structure Libc where
  sinf : FVal → FVal
  cosf : FVal → FVal
  powf : FVal → FVal → FVal
  /-- The `k`-th value delivered by `rand()` after `srand(42)`. -/
  rand : Nat → Nat

namespace F32

/-- Float literal or constant. -/
def lit (q : ℚ) : FVal := binary32.round q
def add := binary32.add
def sub := binary32.sub
def mul := binary32.mul
def div := binary32.div
def ofInt := binary32.ofInt

end F32

namespace F64

/-- Double literal or constant. -/
def lit (q : ℚ) : FVal := binary64.round q
def add := binary64.add
def sub := binary64.sub
def mul := binary64.mul
def div := binary64.div
def ofInt := binary64.ofInt

end F64

/-! ## Engine state -/

def WIDTH : Int := 800
def HEIGHT : Int := 600
def MAX_SNOWFLAKES : Nat := 80
def MAX_LIGHTS : Nat := 50
def MAX_ORNAMENTS : Nat := 15

/-- The pixel store `shm_data`: cell index to packed ARGB colour.  Only the cells
`0 .. WIDTH * HEIGHT - 1` belong to the mapping. -/
abbrev Buffer := Nat → Nat

structure Snowflake where
  x : FVal
  y : FVal
  speed : FVal
  drift : FVal
  size : Int

structure TreeLight where
  x : Int
  y : Int
  radius : Int
  color : Nat
  phase : Int

structure Ornament where
  x : Int
  y : Int
  radius : Int
  color : Nat
  shine_angle : FVal

/-- The global variables of the compositor.  The three entity arrays are indexed
from zero; entries from `MAX_SNOWFLAKES`, `MAX_LIGHTS`, `MAX_ORNAMENTS` on are
not part of the state. -/
structure Engine where
  shm_data : Buffer
  frame_count : Nat
  random_seed : FVal
  snowflakes : Nat → Snowflake
  lights : Nat → TreeLight
  ornaments : Nat → Ornament

def ORNAMENT_COLORS : List Nat :=
  [0xFFFF1744, 0xFFFFD700, 0xFF2979FF, 0xFFE040FB, 0xFF00E5FF,
   0xFFFF9100, 0xFFFFFFFF, 0xFF69F0AE, 0xFFFF4081, 0xFF7C4DFF]

def NUM_ORNAMENT_COLORS : Nat := 10

/-! ## Loops -/

/-- Run `n` consecutive iterations of a loop body, the counter starting at `i`;
an iteration that fails ends the run. -/
def iterate {σ : Type} (body : Int → σ → Option σ) : Nat → Int → σ → Option σ
  | 0, _, s => some s
  | n + 1, i, s => (body i s).bind (iterate body n (i + 1))

/-- The loop `for (i = lo; i <= hi; i++)`.  With `hi = INT_MAX` the counter
cannot leave the range and the loop does not end. -/
def forIncl {σ : Type} (lo hi : Int) (body : Int → σ → Option σ) (s : σ) : Option σ :=
  if hi ≥ 2147483647 then none else iterate body (hi + 1 - lo).toNat lo s

/-- The loop `for (i = lo; i < hi; i++)`. -/
def forExcl {σ : Type} (lo hi : Int) (body : Int → σ → Option σ) (s : σ) : Option σ :=
  iterate body (hi - lo).toNat lo s

/-! ## Pseudo-random generator -/

/-- One step of the generator: the value returned and the new `random_seed`. -/
def fast_random (seed : FVal) : FVal × FVal :=
  let s1 := F64.add (F64.mul seed (.fin 1103515245)) (.fin 12345)
  let s2 := fmod s1 (.fin 2147483648)
  (F64.div s2 (.fin 2147483648), s2)

/-- Integer draw: the value returned and the new `random_seed`. -/
def random_int (seed : FVal) (min max : Int) : Int × FVal :=
  let r := fast_random seed
  (wrap32 (min + (F64.mul r.1 (F64.ofInt (wrap32 (wrap32 (max - min) + 1)))).toInt32), r.2)

/-! ## Colour math -/

/-- Linear interpolation of one channel, as done in `blend_colors`. -/
def blend_channel (a b : Nat) (ratio : FVal) : Nat :=
  (F32.add (F32.mul (F32.ofInt a) (F32.sub (.fin 1) ratio)) (F32.mul (F32.ofInt b) ratio)).toU8

def blend_colors (c1 c2 : Nat) (ratio : FVal) : Nat :=
  let r1 := (c1 >>> 16) &&& 0xFF
  let g1 := (c1 >>> 8) &&& 0xFF
  let b1 := c1 &&& 0xFF
  let r2 := (c2 >>> 16) &&& 0xFF
  let g2 := (c2 >>> 8) &&& 0xFF
  let b2 := c2 &&& 0xFF
  let r := blend_channel r1 r2 ratio
  let g := blend_channel g1 g2 ratio
  let b := blend_channel b1 b2 ratio
  0xFF000000 ||| (r <<< 16) ||| (g <<< 8) ||| b

/-- Scaling of one channel with the clamp of `brighten_color`. -/
def brighten_channel (a : Nat) (factor : FVal) : Nat :=
  (fmin (.fin 255) (F32.mul (F32.ofInt a) factor)).toU8

def brighten_color (color : Nat) (factor : FVal) : Nat :=
  let r := brighten_channel ((color >>> 16) &&& 0xFF) factor
  let g := brighten_channel ((color >>> 8) &&& 0xFF) factor
  let b := brighten_channel (color &&& 0xFF) factor
  0xFF000000 ||| (r <<< 16) ||| (g <<< 8) ||| b

/-- Scaling of one channel as done in `darken_color`. -/
def darken_channel (a : Nat) (factor : FVal) : Nat :=
  (F32.mul (F32.ofInt a) factor).toU8

def darken_color (color : Nat) (factor : FVal) : Nat :=
  let r := darken_channel ((color >>> 16) &&& 0xFF) factor
  let g := darken_channel ((color >>> 8) &&& 0xFF) factor
  let b := darken_channel (color &&& 0xFF) factor
  0xFF000000 ||| (r <<< 16) ||| (g <<< 8) ||| b

/-! ## Entity initializers -/

/-- Body of the loop of `init_snowflakes`. -/
def init_snowflake (i : Int) (e : Engine) : Option Engine :=
  let r1 := fast_random e.random_seed
  let r2 := fast_random r1.2
  let r3 := fast_random r2.2
  let r4 := fast_random r3.2
  let r5 := fast_random r4.2
  let fl : Snowflake :=
    { x := (F64.mul r1.1 (F64.ofInt WIDTH)).toFloat
      y := (F64.mul r2.1 (F64.ofInt HEIGHT)).toFloat
      speed := (F64.add (.fin 1) (F64.mul r3.1 (.fin 2))).toFloat
      drift := (F64.mul (F64.sub r4.1 (.fin (1 / 2))) (.fin (1 / 2))).toFloat
      size := wrap32 (1 + (F64.mul r5.1 (.fin 3)).toInt32) }
  some { e with random_seed := r5.2, snowflakes := Function.update e.snowflakes i.toNat fl }

def init_snowflakes (e : Engine) : Option Engine :=
  forExcl 0 MAX_SNOWFLAKES init_snowflake e

/-- Body of the loop of `init_lights`. -/
def init_light (i : Int) (e : Engine) : Option Engine :=
  let r1 := fast_random e.random_seed
  let t := r1.1.toFloat
  let y_pos := wrap32 (130 + (F32.mul t (.fin 350)).toInt32)
  let max_width := (F32.mul t (.fin 180)).toInt32
  let r2 := random_int r1.2 (wrap32 (-max_width)) max_width
  let x_offset := r2.1
  let r3 := fast_random r2.2
  let r4 := random_int r3.2 0 100
  let l : TreeLight :=
    { x := wrap32 (400 + x_offset)
      y := y_pos
      radius := wrap32 (3 + (F64.mul r3.1 (.fin 4)).toInt32)
      color := ORNAMENT_COLORS.getD (i.toNat % NUM_ORNAMENT_COLORS) 0
      phase := r4.1 }
  some { e with random_seed := r4.2, lights := Function.update e.lights i.toNat l }

def init_lights (e : Engine) : Option Engine :=
  forExcl 0 MAX_LIGHTS init_light e

/-- The table `positions` of `init_ornaments`. -/
def positions : List (Int × Int) :=
  [(400, 180), (360, 230), (440, 230),
   (330, 290), (400, 280), (470, 290),
   (310, 360), (370, 350), (430, 350), (490, 360),
   (290, 430), (350, 420), (400, 430), (450, 420), (510, 430)]

/-- The constant `M_PI` of `math.h`. -/
def M_PI : FVal := F64.lit (314159265358979323846 / 100000000000000000000)

/-- Body of the loop of `init_ornaments`. -/
def init_ornament (i : Int) (e : Engine) : Option Engine :=
  let r1 := random_int e.random_seed 0 4
  let r2 := fast_random r1.2
  let o : Ornament :=
    { x := (positions.getD i.toNat (0, 0)).1
      y := (positions.getD i.toNat (0, 0)).2
      radius := wrap32 (8 + r1.1)
      color := ORNAMENT_COLORS.getD (i.toNat % NUM_ORNAMENT_COLORS) 0
      shine_angle := (F64.mul (F64.mul r2.1 M_PI) (.fin 2)).toFloat }
  some { e with random_seed := r2.2, ornaments := Function.update e.ornaments i.toNat o }

def init_ornaments (e : Engine) : Option Engine :=
  forExcl 0 MAX_ORNAMENTS init_ornament e

/-! ## Primitive drawing -/

/-- Read of `shm_data[i]`; `none` when `i` is not a cell of the buffer. -/
def Buffer.load (b : Buffer) (i : Int) : Option Nat :=
  if 0 ≤ i ∧ i < WIDTH * HEIGHT then some (b i.toNat) else none

/-- Write `shm_data[i] = c`; `none` when `i` is not a cell of the buffer. -/
def Buffer.store (b : Buffer) (i : Int) (c : Nat) : Option Buffer :=
  if 0 ≤ i ∧ i < WIDTH * HEIGHT then some (Function.update b i.toNat c) else none

def put_pixel (b : Buffer) (x y : Int) (color : Nat) : Option Buffer :=
  if x ≥ 0 ∧ x < WIDTH ∧ y ≥ 0 ∧ y < HEIGHT then b.store (y * WIDTH + x) color else some b

def draw_hline_gradient (b : Buffer) (y x1 x2 : Int) (c1 c2 : Nat) : Option Buffer :=
  if y < 0 ∨ y ≥ HEIGHT then some b else
  let a1 := if x1 > x2 then x2 else x1
  let a2 := if x1 > x2 then x1 else x2
  let lo := if a1 < 0 then 0 else a1
  let hi := if a2 ≥ WIDTH then WIDTH - 1 else a2
  let width := hi - lo
  if width ≤ 0 then some b else
  forIncl lo hi (fun x s =>
    let ratio := F32.div (F32.ofInt (x - lo)) (F32.ofInt width)
    s.store (y * WIDTH + x) (blend_colors c1 c2 ratio)) b

/-- The value `sqrtf(dx * dx + dy * dy)` of the disc tests. -/
def dist_of (dx dy : Int) : FVal :=
  sqrtf (F32.ofInt (wrap32 (wrap32 (dx * dx) + wrap32 (dy * dy))))

/-- Colour that `draw_3d_sphere` computes for the offset `(dx, dy)`. -/
def sphere_color (L : Libc) (radius : Int) (base_color : Nat) (dx dy : Int) : Nat :=
  let dist := dist_of dx dy
  let nx := F32.div (F32.ofInt dx) (F32.ofInt radius)
  let ny := F32.div (F32.ofInt dy) (F32.ofInt radius)
  let nz := sqrtf (fmax (.fin 0)
    (F32.sub (F32.sub (.fin 1) (F32.mul nx nx)) (F32.mul ny ny))).toFloat
  let lx0 : FVal := .fin (-1 / 2)
  let ly0 : FVal := .fin (-1 / 2)
  let lz0 : FVal := F32.lit (7 / 10)
  let len := sqrtf (F32.add (F32.add (F32.mul lx0 lx0) (F32.mul ly0 ly0)) (F32.mul lz0 lz0))
  let lx := F32.div lx0 len
  let ly := F32.div ly0 len
  let lz := F32.div lz0 len
  let diffuse := (fmax (.fin 0)
    (F32.add (F32.add (F32.mul nx lx) (F32.mul ny ly)) (F32.mul nz lz))).toFloat
  let specular := F32.mul (L.powf (fmax (.fin 0) nz).toFloat (.fin 20)) (.fin (1 / 2))
  let edge0 := F32.sub (.fin 1) (F32.div dist (F32.ofInt radius))
  let edge := L.powf edge0 (F32.lit (3 / 10))
  let brightness0 := F32.add (F32.add (F32.lit (3 / 10)) (F32.mul diffuse (.fin (1 / 2)))) specular
  let brightness := F32.mul brightness0 edge
  if (F32.lit (3 / 10)).lt specular then blend_colors base_color 0xFFFFFFFF specular
  else brighten_color base_color (F32.add brightness (.fin (1 / 2)))

def draw_3d_sphere (L : Libc) (b : Buffer) (cx cy radius : Int) (base_color : Nat) :
    Option Buffer :=
  forIncl (wrap32 (-radius)) radius (fun dy s =>
    forIncl (wrap32 (-radius)) radius (fun dx s =>
      if (dist_of dx dy).le (F32.ofInt radius) then
        put_pixel s (wrap32 (cx + dx)) (wrap32 (cy + dy)) (sphere_color L radius base_color dx dy)
      else some s) s) b

def draw_glow (L : Libc) (b : Buffer) (cx cy radius : Int) (color : Nat) (intensity : FVal) :
    Option Buffer :=
  let glow_radius := wrap32 (radius * 3)
  forIncl (wrap32 (-glow_radius)) glow_radius (fun dy s =>
    forIncl (wrap32 (-glow_radius)) glow_radius (fun dx s =>
      let dist := dist_of dx dy
      if dist.le (F32.ofInt glow_radius) then
        let x := wrap32 (cx + dx)
        let y := wrap32 (cy + dy)
        if x ≥ 0 ∧ x < WIDTH ∧ y ≥ 0 ∧ y < HEIGHT then
          let glow0 := F32.sub (.fin 1) (F32.div dist (F32.ofInt glow_radius))
          let glow := F32.mul (L.powf glow0 (.fin 2)) intensity
          if (F32.lit (5 / 100)).lt glow then
            (s.load (y * WIDTH + x)).bind (fun existing =>
              s.store (y * WIDTH + x) (blend_colors existing color glow))
          else some s
        else some s
      else some s) s) b

/-! ## Painters -/

/-- One row of the sky gradient. -/
def sky_row (y : Int) (b : Buffer) : Option Buffer :=
  let ratio := F32.div (F32.ofInt y) (F32.ofInt HEIGHT)
  let color := blend_colors 0xFF0a0a2e 0xFF1a1a4e ratio
  forExcl 0 WIDTH (fun x s => s.store (y * WIDTH + x) color) b

/-- The value `twinkle` of star `i`. -/
def star_twinkle (L : Libc) (frame_count : Nat) (i : Int) : FVal :=
  F32.add (F32.mul (L.sinf (F32.add (F32.mul (F32.ofInt frame_count) (F32.lit (1 / 10)))
    (F32.mul (F32.ofInt i) (.fin (1 / 2))))) (.fin (1 / 2))) (.fin (1 / 2))

/-- The value `brightness` of a star. -/
def star_brightness (twinkle : FVal) : Nat :=
  (F32.add (.fin 200) (F32.mul (.fin 55) twinkle)).toU32

/-- The grey `color` packed from `brightness`, in `uint32_t` arithmetic. -/
def star_color (brightness : Nat) : Nat :=
  0xFF000000 ||| ((brightness <<< 16) % 4294967296) ||| ((brightness <<< 8) % 4294967296)
    ||| brightness

/-- One star of the star field. -/
def sky_star (L : Libc) (frame_count : Nat) (i : Int) (b : Buffer) : Option Buffer :=
  let x : Int := (L.rand (2 * i.toNat) : Int) % WIDTH
  let y : Int := (L.rand (2 * i.toNat + 1) : Int) % (HEIGHT / 2)
  let twinkle := star_twinkle L frame_count i
  let color := star_color (star_brightness twinkle)
  (put_pixel b x y color).bind (fun b1 =>
    if (F32.lit (7 / 10)).lt twinkle then
      (put_pixel b1 (x - 1) y (darken_color color (.fin (1 / 2)))).bind (fun b2 =>
      (put_pixel b2 (x + 1) y (darken_color color (.fin (1 / 2)))).bind (fun b3 =>
      (put_pixel b3 x (y - 1) (darken_color color (.fin (1 / 2)))).bind (fun b4 =>
      put_pixel b4 x (y + 1) (darken_color color (.fin (1 / 2))))))
    else some b1)

def render_sky (L : Libc) (frame_count : Nat) (b : Buffer) : Option Buffer :=
  (forExcl 0 HEIGHT sky_row b).bind (forExcl 0 100 (sky_star L frame_count))

/-- One pixel of the ground; the state is the buffer and `random_seed`. -/
def ground_pixel (y x : Int) (s : Buffer × FVal) : Option (Buffer × FVal) :=
  let r := fast_random s.2
  let noise := (F64.mul r.1 (F32.lit (1 / 10))).toFloat
  let height_factor := F32.div (F32.ofInt (y - 520)) (F32.ofInt (HEIGHT - 520))
  let color := blend_colors 0xFFF0F8FF 0xFFD0E0F0
    (F32.add (F32.mul height_factor (F32.lit (3 / 10))) noise)
  (s.1.store (y * WIDTH + x) color).map (fun b => (b, r.2))

def render_ground (s : Buffer × FVal) : Option (Buffer × FVal) :=
  forExcl 520 HEIGHT (fun y s => forExcl 0 WIDTH (ground_pixel y) s) s

/-- The table `layers` of `render_tree`: `top_y`, `bottom_y`, `width`. -/
def layers : List (Int × Int × Int) :=
  [(120, 250, 70), (180, 330, 110), (260, 410, 150), (340, 500, 190)]

/-- The value `t` of a row of a layer. -/
def layer_t (top_y height y : Int) : FVal := F32.div (F32.ofInt (y - top_y)) (F32.ofInt height)

/-- The value `width_at_y` of a row of a layer. -/
def width_at (top_y height half_width y : Int) : Int :=
  (F32.mul (layer_t top_y height y) (F32.ofInt half_width)).toInt32

/-- The value `shade` of a pixel of the tree body. -/
def tree_shade (dx width_at_y : Int) : FVal :=
  F32.div (F32.add (F32.div (F32.ofInt dx) (F32.ofInt width_at_y)) (.fin 1)) (.fin 2)

/-- One pixel of the body of a layer. -/
def tree_pixel (y : Int) (t : FVal) (width_at_y : Int) (dx : Int) (s : Buffer × FVal) :
    Option (Buffer × FVal) :=
  let x := 400 + dx
  if x < 0 ∨ x ≥ WIDTH then some s else
  let shade := tree_shade dx width_at_y
  let v_shade := F32.sub (.fin 1) (F32.mul t (F32.lit (3 / 10)))
  let color0 :=
    if shade.lt (F32.lit (3 / 10)) then darken_color 0xFF0d5016 (F32.add (F32.lit (7 / 10)) shade)
    else if (F32.lit (7 / 10)).lt shade then
      blend_colors 0xFF1a8a2e 0xFF2ecc40 (F32.mul (F32.sub shade (F32.lit (7 / 10))) (.fin 2))
    else blend_colors 0xFF0d5016 0xFF1a8a2e shade
  let color1 := brighten_color color0 v_shade
  let r := fast_random s.2
  let color := if (F32.lit (95 / 100)).lt r.1 then darken_color color1 (F32.lit (8 / 10))
    else color1
  (s.1.store (y * WIDTH + x) color).map (fun b => (b, r.2))

/-- One row of the body of a layer. -/
def tree_row (top_y height half_width y : Int) (s : Buffer × FVal) : Option (Buffer × FVal) :=
  if y < 0 ∨ y ≥ HEIGHT then some s else
  let t := layer_t top_y height y
  let width_at_y := width_at top_y height half_width y
  forIncl (-width_at_y) width_at_y (tree_pixel y t width_at_y) s

/-- One pixel of the snow cap of a layer. -/
def snow_cap_pixel (snow_y dx dy : Int) (b : Buffer) : Option Buffer :=
  let x := 400 + dx
  let y := snow_y + dy
  let dist := dist_of dx dy
  if dist.lt (.fin 10) then
    (b.load (y * WIDTH + x)).bind (fun old =>
      put_pixel b x y (blend_colors old 0xFFFFFFFF
        (F32.sub (F32.lit (6 / 10)) (F32.mul dist (F32.lit (5 / 100))))))
  else some b

/-- The value `snow_width` of a layer. -/
def snow_width (half_width : Int) : Int :=
  (F32.mul (F32.lit (8 / 100)) (F32.ofInt half_width)).toInt32

/-- One layer of the tree: the body, then the snow cap. -/
def tree_layer (l : Int × Int × Int) (s : Buffer × FVal) : Option (Buffer × FVal) :=
  let top_y := l.1
  let bottom_y := l.2.1
  let half_width := l.2.2
  let height := bottom_y - top_y
  (forExcl top_y bottom_y (tree_row top_y height half_width) s).bind (fun s1 =>
    (forIncl (-(snow_width half_width)) (snow_width half_width) (fun dx b =>
      forExcl 0 8 (snow_cap_pixel (top_y + 10) dx) b) s1.1).map (fun b => (b, s1.2)))

/-- One pixel of the trunk. -/
def trunk_pixel (L : Libc) (y dx : Int) (s : Buffer × FVal) : Option (Buffer × FVal) :=
  let x := 400 + dx
  let shade0 := F32.sub (.fin 1) (fabsf (F32.div (F32.ofInt dx) (.fin 25)))
  let shade := L.powf shade0 (.fin (1 / 2))
  let color0 := blend_colors 0xFF3d2817 0xFF5d4027 shade
  let r := fast_random s.2
  let color :=
    if (wrap32 (y + (F64.mul r.1 (.fin 3)).toInt32)).tmod 5 = 0
    then darken_color color0 (F32.lit (9 / 10)) else color0
  (put_pixel s.1 x y color).map (fun b => (b, r.2))

def render_tree (L : Libc) (s : Buffer × FVal) : Option (Buffer × FVal) :=
  (layers.foldlM (fun s l => tree_layer l s) s).bind (fun s1 =>
    forExcl 480 530 (fun y s => forIncl (-25) 25 (trunk_pixel L y) s) s1)

/-- The value `pulse` of the star topper. -/
def star_pulse (L : Libc) (frame_count : Nat) : FVal :=
  F32.add (F32.mul (L.sinf (F32.mul (F32.ofInt frame_count) (F32.lit (15 / 100))))
    (F32.lit (3 / 10))) (F32.lit (7 / 10))

/-- The angle `k * M_PI / 180.0f` stored in a `float`. -/
def star_angle (k : Int) : FVal := (F64.div (F64.mul (F64.ofInt k) M_PI) (.fin 180)).toFloat

/-- The five-pixel stamp of a point of a star segment. -/
def star_stamp (b : Buffer) (x y : Int) (color : Nat) : Option Buffer :=
  (put_pixel b x y color).bind (fun b1 =>
  (put_pixel b1 (wrap32 (x - 1)) y color).bind (fun b2 =>
  (put_pixel b2 (wrap32 (x + 1)) y color).bind (fun b3 =>
  (put_pixel b3 x (wrap32 (y - 1)) color).bind (fun b4 =>
  put_pixel b4 x (wrap32 (y + 1)) color))))

/-- The loop `for (float t = 0; t <= 1; t += 0.02f)` of a segment from the centre
to `(ox, oy)`, started at `t` with a budget of iterations; `none` when the budget
runs out. -/
def star_segment (pulse : FVal) (ox oy : Int) : Nat → FVal → Buffer → Option Buffer
  | 0, _, _ => none
  | fuel + 1, t, b =>
    if t.le (.fin 1) then
      let x := wrap32 (400 + (F32.mul (F32.ofInt (wrap32 (ox - 400))) t).toInt32)
      let y := wrap32 (95 + (F32.mul (F32.ofInt (wrap32 (oy - 95))) t).toInt32)
      let brightness := F32.sub (.fin 1) (F32.mul t (F32.lit (3 / 10)))
      let color := blend_colors 0xFFFFD700 0xFFFFFF00 (F32.mul brightness pulse)
      (star_stamp b x y color).bind
        (star_segment pulse ox oy fuel (F32.add t (F32.lit (2 / 100))))
    else some b

/-- One of the five points of the star.  The inner vertex `(ix, iy)` that the C
code also computes is never used and is left out. -/
def star_point (L : Libc) (pulse : FVal) (angle : Int) (b : Buffer) : Option Buffer :=
  let a := star_angle (angle * 72 - 90)
  let ox := wrap32 (400 + (F32.mul (L.cosf a) (.fin 25)).toInt32)
  let oy := wrap32 (95 + (F32.mul (L.sinf a) (.fin 25)).toInt32)
  star_segment pulse ox oy 64 (.fin 0) b

/-- One pixel of the centre disc of the star. -/
def star_center_pixel (L : Libc) (pulse : FVal) (dy dx : Int) (b : Buffer) : Option Buffer :=
  let dist := dist_of dx dy
  if dist.le (.fin 8) then
    let brightness0 := F32.sub (.fin 1) (F32.div dist (.fin 8))
    let brightness := F32.mul (L.powf brightness0 (.fin (1 / 2))) pulse
    put_pixel b (400 + dx) (95 + dy) (blend_colors 0xFFFFD700 0xFFFFFFFF brightness)
  else some b

def render_star (L : Libc) (frame_count : Nat) (b : Buffer) : Option Buffer :=
  let pulse := star_pulse L frame_count
  (draw_glow L b 400 95 20 0xFFFFD700 (F32.mul pulse (F32.lit (8 / 10)))).bind (fun b1 =>
  (forExcl 0 5 (star_point L pulse) b1).bind (fun b2 =>
  forIncl (-8) 8 (fun dy s => forIncl (-8) 8 (star_center_pixel L pulse dy) s) b2))

/-- One pixel of the hanging string of an ornament. -/
def string_pixel (L : Libc) (o : Ornament) (dy : Int) (b : Buffer) : Option Buffer :=
  let wave := F32.mul (L.sinf (F32.add (F32.mul (F32.ofInt dy) (F32.lit (3 / 10)))
    (F32.mul (F32.ofInt o.x) (F32.lit (1 / 10))))) (.fin 2)
  put_pixel b (wrap32 (o.x + wave.toInt32)) (wrap32 (wrap32 (o.y + dy) - o.radius)) 0xFF444444

def render_ornaments (L : Libc) (ornaments : Nat → Ornament) (b : Buffer) : Option Buffer :=
  forExcl 0 MAX_ORNAMENTS (fun i s =>
    (draw_3d_sphere L s (ornaments i.toNat).x (ornaments i.toNat).y (ornaments i.toNat).radius
      (ornaments i.toNat).color).bind
      (forExcl (-15) 0 (string_pixel L (ornaments i.toNat)))) b

/-- One pixel of the bright centre of a light. -/
def light_center_pixel (l : TreeLight) (bright_color : Nat) (dy dx : Int) (b : Buffer) :
    Option Buffer :=
  if (dist_of dx dy).le (.fin 2) then
    put_pixel b (wrap32 (l.x + dx)) (wrap32 (l.y + dy)) bright_color
  else some b

/-- One light of the string of lights. -/
def render_light (L : Libc) (frame_count : Nat) (l : TreeLight) (b : Buffer) : Option Buffer :=
  let phase := L.sinf (F32.add (F32.mul (F32.ofInt frame_count) (F32.lit (2 / 10)))
    (F32.mul (F32.ofInt l.phase) (F32.lit (1 / 10))))
  if (F32.lit (3 / 10)).neg.lt phase then
    let intensity0 := F32.div (F32.add phase (F32.lit (3 / 10))) (F32.lit (13 / 10))
    let intensity := L.powf intensity0 (.fin (1 / 2))
    (draw_glow L b l.x l.y l.radius l.color (F32.mul intensity (F32.lit (7 / 10)))).bind
      (fun b1 =>
        let bright_color := blend_colors l.color 0xFFFFFFFF (F32.mul intensity (.fin (1 / 2)))
        forIncl (-2) 2 (fun dy s =>
          forIncl (-2) 2 (light_center_pixel l bright_color dy) s) b1)
  else some b

def render_lights (L : Libc) (frame_count : Nat) (lights : Nat → TreeLight) (b : Buffer) :
    Option Buffer :=
  forExcl 0 MAX_LIGHTS (fun i s => render_light L frame_count (lights i.toNat) s) b

/-- One flake of the snow layer. -/
def render_flake (fl : Snowflake) (b : Buffer) : Option Buffer :=
  let x := fl.x.toInt32
  let y := fl.y.toInt32
  let snow_color := 0xFFFFFFFF
  let snow_dim := 0xFFCCCCCC
  if fl.size = 1 then put_pixel b x y snow_color
  else if fl.size = 2 then
    (put_pixel b x y snow_color).bind (fun b1 =>
    (put_pixel b1 (wrap32 (x - 1)) y snow_dim).bind (fun b2 =>
    put_pixel b2 (wrap32 (x + 1)) y snow_dim))
  else
    (put_pixel b x y snow_color).bind (fun b1 =>
    (put_pixel b1 (wrap32 (x - 1)) y snow_color).bind (fun b2 =>
    (put_pixel b2 (wrap32 (x + 1)) y snow_color).bind (fun b3 =>
    (put_pixel b3 x (wrap32 (y - 1)) snow_color).bind (fun b4 =>
    (put_pixel b4 x (wrap32 (y + 1)) snow_color).bind (fun b5 =>
    (put_pixel b5 (wrap32 (x - 1)) (wrap32 (y - 1)) snow_dim).bind (fun b6 =>
    (put_pixel b6 (wrap32 (x + 1)) (wrap32 (y - 1)) snow_dim).bind (fun b7 =>
    (put_pixel b7 (wrap32 (x - 1)) (wrap32 (y + 1)) snow_dim).bind (fun b8 =>
    put_pixel b8 (wrap32 (x + 1)) (wrap32 (y + 1)) snow_dim))))))))

def render_snow (snowflakes : Nat → Snowflake) (b : Buffer) : Option Buffer :=
  forExcl 0 MAX_SNOWFLAKES (fun i s => render_flake (snowflakes i.toNat) s) b

/-! ## Animation updater and frame -/

/-- Body of the loop of `update_animation`. -/
def update_snowflake (L : Libc) (i : Int) (e : Engine) : Option Engine :=
  let fl := e.snowflakes i.toNat
  let y1 := F32.add fl.y fl.speed
  let x1 := F32.add fl.x
    (F32.add fl.drift (F32.mul (L.sinf (F32.mul y1 (F32.lit (2 / 100)))) (.fin (1 / 2))))
  let past := (F32.ofInt HEIGHT).lt y1
  let r := fast_random e.random_seed
  let y2 := if past then .fin (-10) else y1
  let x2 := if past then (F64.mul r.1 (F64.ofInt WIDTH)).toFloat else x1
  let x3 := if x2.lt (.fin 0) then F32.add x2 (F32.ofInt WIDTH) else x2
  let x4 := if (F32.ofInt WIDTH).le x3 then F32.sub x3 (F32.ofInt WIDTH) else x3
  some { e with
    random_seed := if past then r.2 else e.random_seed
    snowflakes := Function.update e.snowflakes i.toNat { fl with x := x4, y := y2 } }

def update_animation (L : Libc) (e : Engine) : Option Engine :=
  forExcl 0 MAX_SNOWFLAKES (update_snowflake L)
    { e with frame_count := (e.frame_count + 1) % 4294967296 }

def render_frame (L : Libc) (e : Engine) : Option Engine :=
  (render_sky L e.frame_count e.shm_data).bind (fun b1 =>
  (render_ground (b1, e.random_seed)).bind (fun s2 =>
  (render_tree L s2).bind (fun s3 =>
  (render_ornaments L e.ornaments s3.1).bind (fun b4 =>
  (render_lights L e.frame_count e.lights b4).bind (fun b5 =>
  (render_star L e.frame_count b5).bind (fun b6 =>
  (render_snow e.snowflakes b6).map (fun b7 =>
    { e with shm_data := b7, random_seed := s3.2 })))))))

/-! ## Predicates of the statements -/

/-- The value of the loop variable `t` of a star segment after `k` increments. -/
def star_t (k : Nat) : FVal := (fun t => F32.add t (F32.lit (2 / 100)))^[k] (.fin 0)


/-- The alpha byte of the colour is `0xFF`. -/
def Opaque (c : Nat) : Prop := (c >>> 24) &&& 0xFF = 0xFF

/-- Every cell of the buffer holds an opaque colour. -/
def AllOpaque (b : Buffer) : Prop := ∀ i : Nat, i < 480000 → Opaque (b i)

/-- The radii let the loops of `draw_3d_sphere` and `draw_glow` end: the loop
bounds stay below `INT_MAX`. -/
def Tame (e : Engine) : Prop :=
  (∀ i : Nat, i < 15 → (e.ornaments i).radius < 2147483647) ∧
  (∀ i : Nat, i < 50 → wrap32 ((e.lights i).radius * 3) < 2147483647)


/-- What `draw_3d_sphere` stores at cell `i` while it visits the offset `(dx, dy)`. -/
def sphere_write (L : Libc) (cx cy radius : Int) (base_color : Nat) (dy dx : Int) (i : Nat) :
    Option Nat :=
  if (dist_of dx dy).le (F32.ofInt radius) = true ∧
      (0 ≤ wrap32 (cx + dx) ∧ wrap32 (cx + dx) < 800 ∧
        0 ≤ wrap32 (cy + dy) ∧ wrap32 (cy + dy) < 600) ∧
      i = (wrap32 (cy + dy) * 800 + wrap32 (cx + dx)).toNat
  then some (sphere_color L radius base_color dx dy) else none


/-- The seed is a finite value in `[0, 2^31)`. -/
def SeedOK (v : FVal) : Prop := ∃ s : ℚ, v = .fin s ∧ 0 ≤ s ∧ s < 2147483648

/-! ## Predicates of the statements on the tree -/

/-- The pixel `(x, y)` is one that the body loop of a layer of `render_tree`
stores: a row of the layer and an offset within `width_at_y` of the centre. -/
def on_tree_body (x y : Int) : Bool :=
  layers.any (fun l => decide (l.1 ≤ y ∧ y < l.2.1 ∧
    |x - 400| ≤ width_at l.1 (l.2.1 - l.1) l.2.2 y))

/-- The half-width of a layer at a row in exact arithmetic,
`floor((y - top_y) / (bottom_y - top_y) * width)`. -/
def exact_width (l : Int × Int × Int) (y : Int) : Int :=
  ⌊((y - l.1 : Int) : ℚ) / ((l.2.1 - l.1 : Int) : ℚ) * (l.2.2 : ℚ)⌋

/-- The pixel `(x, y)` lies within the silhouette of the tree in exact arithmetic:
`130 <= y < 480` and a layer holds the row with `|x - 400|` within its half-width. -/
def in_silhouette (x y : Int) : Bool :=
  decide (130 ≤ y ∧ y < 480) &&
    layers.any (fun l => decide (l.1 ≤ y ∧ y < l.2.1 ∧ |x - 400| ≤ exact_width l y))

/-- An engine state with the given seed and cleared arrays. -/
def blank_engine (seed : FVal) : Engine :=
  ⟨fun _ => 0, 0, seed, fun _ => ⟨.fin 0, .fin 0, .fin 0, .fin 0, 0⟩,
    fun _ => ⟨0, 0, 0, 0, 0⟩, fun _ => ⟨0, 0, 0, 0, .fin 0⟩⟩

/-! ## Predicates of the statements on two renders -/

/-- The value of `random_seed` after one call of `fast_random`. -/
def next_seed (s : FVal) : FVal := (fast_random s).2

/-- The two buffers hold the same colour in every cell of `S`. -/
def Agree (S : Nat → Prop) (b1 b2 : Buffer) : Prop := ∀ i, S i → b1 i = b2 i

/-- A painter whose stores into a cell depend on the previous content of that
cell only: two runs that succeed keep whatever agreement their buffers had. -/
def Cellwise (p : Buffer → Option Buffer) : Prop :=
  ∀ (S : Nat → Prop) (b1 b2 b1' b2' : Buffer),
    Agree S b1 b2 → p b1 = some b1' → p b2 = some b2' → Agree S b1' b2'

/-- A step on a state that holds the buffer leaves the cells of `K` as they were. -/
def Keeps {σ : Type} (K : Nat → Prop) (buf : σ → Buffer) (p : σ → Option σ) : Prop :=
  ∀ s s', p s = some s' → ∀ i, K i → buf s' i = buf s i

/-- A step on the buffer and the seed calls `fast_random` exactly `n` times. -/
def Advances (n : Nat) (p : Buffer × FVal → Option (Buffer × FVal)) : Prop :=
  ∀ s s', p s = some s' → s'.2 = next_seed^[n] s.2

/-- The cell is one that `render_ground` or `render_tree` stores into: a cell of
the rows from 520 on, a pixel of the body of a layer, or a pixel of the trunk
(rows from 480 on, columns `375 .. 425`). -/
def textured (i : Nat) : Bool :=
  decide (520 ≤ i / 800) || on_tree_body ((i % 800 : Nat) : Int) ((i / 800 : Nat) : Int) ||
    decide (480 ≤ i / 800 ∧ 375 ≤ i % 800 ∧ i % 800 ≤ 425)

/-- The cell lies in the buffer and neither `render_ground` nor `render_tree`
stores into it. -/
def Stable (i : Nat) : Prop := i < 480000 ∧ textured i = false

/-- Number of calls of `fast_random` in a row of the body of a layer. -/
def row_calls (top_y height half_width y : Int) : Nat :=
  2 * (width_at top_y height half_width y).toNat + 1

/-- Number of calls of `fast_random` in `n` consecutive rows from `lo` on. -/
def rows_calls (top_y height half_width lo : Int) (n : Nat) : Nat :=
  ((List.range n).map (fun (k : Nat) => row_calls top_y height half_width (lo + (k : Int)))).sum

/-- Number of calls of `fast_random` in the body of a layer. -/
def layer_calls (l : Int × Int × Int) : Nat :=
  rows_calls l.1 (l.2.1 - l.1) l.2.2 l.1 (l.2.1 - l.1).toNat

/-- The colour that `tree_pixel` stores for the offset `dx` of a row, given the
seed before its call of `fast_random`. -/
def tree_pixel_color (t : FVal) (width_at_y dx : Int) (seed : FVal) : Nat :=
  let shade := tree_shade dx width_at_y
  let v_shade := F32.sub (.fin 1) (F32.mul t (F32.lit (3 / 10)))
  let color0 :=
    if shade.lt (F32.lit (3 / 10)) then darken_color 0xFF0d5016 (F32.add (F32.lit (7 / 10)) shade)
    else if (F32.lit (7 / 10)).lt shade then
      blend_colors 0xFF1a8a2e 0xFF2ecc40 (F32.mul (F32.sub shade (F32.lit (7 / 10))) (.fin 2))
    else blend_colors 0xFF0d5016 0xFF1a8a2e shade
  let color1 := brighten_color color0 v_shade
  let r := fast_random seed
  if (F32.lit (95 / 100)).lt r.1 then darken_color color1 (F32.lit (8 / 10)) else color1

/-- A stand-in for the C library: `sinf` and `cosf` constantly `0`, `powf(x, y)`
returning `x`, `rand()` returning `0`. -/
def flat_libc : Libc := ⟨fun _ => .fin 0, fun _ => .fin 0, fun x _ => x, fun _ => 0⟩

/-- A stand-in for the C library whose `sinf` behaves like the real one at the
ends of its domain: a finite argument is clamped to `[-1, 1]`, an infinite or NaN
argument gives NaN.  The other functions are those of `flat_libc`. -/
def clamp_libc : Libc :=
  ⟨fun x => match x with
    | .fin q => .fin (max (-1) (min 1 q))
    | _ => .nan,
   fun _ => .fin 0, fun x _ => x, fun _ => 0⟩

/-- An engine state whose flakes, lights and ornaments all lie off the screen. -/
def offscreen_engine (b : Buffer) (seed : FVal) : Engine :=
  ⟨b, 0, seed, fun _ => ⟨.fin (-100), .fin (-100), .fin 1, .fin 0, 1⟩,
    fun _ => ⟨-100, -100, 0, 0xFFFFFFFF, 0⟩, fun _ => ⟨-100, -100, 0, 0xFFFFFFFF, .fin 0⟩⟩

/-! ## Powers of two and binary logarithm -/

theorem pow2_eq (e : Int) : pow2 e = (2 : ℚ) ^ e := by
  unfold pow2
  split_ifs with h
  · obtain ⟨n, rfl⟩ := Int.eq_ofNat_of_zero_le h
    simp
  · push_neg at h
    obtain ⟨n, hn⟩ := Int.eq_ofNat_of_zero_le (by omega : 0 ≤ -e)
    have he : e = -(n : Int) := by omega
    subst he
    simp

theorem pow2_pos (e : Int) : 0 < pow2 e := by
  rw [pow2_eq]; positivity

theorem pow2_add (a b : Int) : pow2 (a + b) = pow2 a * pow2 b := by
  simp only [pow2_eq]; exact zpow_add₀ (by norm_num) a b

theorem pow2_le_pow2 {a b : Int} (h : a ≤ b) : pow2 a ≤ pow2 b := by
  simp only [pow2_eq]; exact zpow_le_zpow_right₀ (by norm_num) h

theorem pow2_lt_pow2 {a b : Int} (h : a < b) : pow2 a < pow2 b := by
  simp only [pow2_eq]; exact zpow_lt_zpow_right₀ (by norm_num) h

theorem pow2_lt_pow2_iff {a b : Int} : pow2 a < pow2 b ↔ a < b := by
  constructor
  · intro h
    by_contra hc
    push_neg at hc
    exact absurd (pow2_le_pow2 hc) (not_le.mpr h)
  · exact pow2_lt_pow2

theorem pow2_succ (a : Int) : pow2 (a + 1) = 2 * pow2 a := by
  rw [pow2_add, mul_comm]; congr 1

theorem pow2_pred (a : Int) : pow2 (a - 1) = pow2 a / 2 := by
  have := pow2_succ (a - 1)
  rw [sub_add_cancel] at this
  rw [this]; ring

theorem nlog2Aux_spec (fuel n : Nat) (hn : 0 < n) (hf : n ≤ fuel) :
    2 ^ nlog2Aux fuel n ≤ n ∧ n < 2 ^ (nlog2Aux fuel n + 1) := by
  induction fuel generalizing n with
  | zero => omega
  | succ k ih =>
    unfold nlog2Aux
    split_ifs with h
    · have h2 := ih (n / 2) (by omega) (by omega)
      constructor
      · rw [pow_succ]; omega
      · rw [pow_succ]; omega
    · simp; omega

theorem nlog2_spec (n : Nat) (hn : 0 < n) :
    2 ^ nlog2 n ≤ n ∧ n < 2 ^ (nlog2 n + 1) :=
  nlog2Aux_spec n n hn le_rfl

theorem pow2_natCast (k : Nat) : pow2 (k : Int) = ((2 ^ k : Nat) : ℚ) := by
  rw [pow2_eq]; simp

theorem ilog2_spec (x : ℚ) (hx : x ≠ 0) :
    pow2 (ilog2 x) ≤ |x| ∧ |x| < pow2 (ilog2 x + 1) := by
  have hnum : 0 < x.num.natAbs := Int.natAbs_pos.mpr (Rat.num_ne_zero.mpr hx)
  have hden : 0 < x.den := x.den_pos
  obtain ⟨ha1, ha2⟩ := nlog2_spec _ hnum
  obtain ⟨hb1, hb2⟩ := nlog2_spec _ hden
  set a := nlog2 x.num.natAbs
  set b := nlog2 x.den
  have habs : |x| = (x.num.natAbs : ℚ) / (x.den : ℚ) := by
    conv_lhs => rw [← Rat.num_div_den x]
    rw [abs_div, Nat.abs_cast]
    congr 1
    rw [Nat.cast_natAbs, Int.cast_abs]
  have hdq : (0 : ℚ) < x.den := by exact_mod_cast hden
  have ha1q : pow2 a ≤ (x.num.natAbs : ℚ) := by rw [pow2_natCast]; exact_mod_cast ha1
  have ha2q : (x.num.natAbs : ℚ) < pow2 (a + 1) := by
    have : pow2 ((a : Int) + 1) = ((2 ^ (a + 1) : Nat) : ℚ) := by
      rw [← pow2_natCast]; norm_cast
    rw [this]; exact_mod_cast ha2
  have hb1q : pow2 b ≤ (x.den : ℚ) := by rw [pow2_natCast]; exact_mod_cast hb1
  have hb2q : (x.den : ℚ) < pow2 (b + 1) := by
    have : pow2 ((b : Int) + 1) = ((2 ^ (b + 1) : Nat) : ℚ) := by
      rw [← pow2_natCast]; norm_cast
    rw [this]; exact_mod_cast hb2
  -- |x| lies strictly between 2^(a-b-1) and 2^(a-b+1)
  have hlow : pow2 ((a : Int) - b - 1) < |x| := by
    rw [habs, lt_div_iff₀ hdq]
    have e : pow2 ((a : Int) - b - 1) * pow2 (b + 1) = pow2 a := by
      rw [← pow2_add]; congr 1; ring
    calc pow2 ((a : Int) - b - 1) * (x.den : ℚ)
        < pow2 ((a : Int) - b - 1) * pow2 (b + 1) :=
          mul_lt_mul_of_pos_left hb2q (pow2_pos _)
      _ = pow2 a := e
      _ ≤ _ := ha1q
  have hhigh : |x| < pow2 ((a : Int) - b + 1) := by
    rw [habs, div_lt_iff₀ hdq]
    have e : pow2 ((a : Int) - b + 1) * pow2 b = pow2 (a + 1) := by
      rw [← pow2_add]; congr 1; ring
    calc (x.num.natAbs : ℚ) < pow2 (a + 1) := ha2q
      _ = pow2 ((a : Int) - b + 1) * pow2 b := e.symm
      _ ≤ pow2 ((a : Int) - b + 1) * (x.den : ℚ) :=
          mul_le_mul_of_nonneg_left hb1q (le_of_lt (pow2_pos _))
  unfold ilog2
  simp only []
  split_ifs with h
  · exact ⟨h, hhigh⟩
  · push_neg at h
    refine ⟨le_of_lt hlow, ?_⟩
    rw [sub_add_cancel]; exact h

theorem ilog2_unique (x : ℚ) (e : Int) (h1 : pow2 e ≤ |x|) (h2 : |x| < pow2 (e + 1)) :
    ilog2 x = e := by
  have hx : x ≠ 0 := by
    intro h; rw [h, abs_zero] at h1
    exact absurd h1 (not_le.mpr (pow2_pos e))
  obtain ⟨s1, s2⟩ := ilog2_spec x hx
  have a1 : e < ilog2 x + 1 := pow2_lt_pow2_iff.mp (lt_of_le_of_lt h1 s2)
  have a2 : ilog2 x < e + 1 := pow2_lt_pow2_iff.mp (lt_of_le_of_lt s1 h2)
  omega

theorem ilog2_lt_of_abs_lt (x : ℚ) (e : Int) (hx : x ≠ 0) (h : |x| < pow2 e) : ilog2 x < e :=
  pow2_lt_pow2_iff.mp (lt_of_le_of_lt (ilog2_spec x hx).1 h)

theorem le_ilog2_of_le_abs (x : ℚ) (e : Int) (hx : x ≠ 0) (h : pow2 e ≤ |x|) : e ≤ ilog2 x := by
  have := pow2_lt_pow2_iff.mp (lt_of_le_of_lt h (ilog2_spec x hx).2)
  omega

/-! ## Rounding to the nearest integer -/

theorem roundHalfEven_cases (y : ℚ) :
    roundHalfEven y = ⌊y⌋ ∨ roundHalfEven y = ⌊y⌋ + 1 := by
  unfold roundHalfEven
  simp only []
  split_ifs <;> simp

theorem roundHalfEven_sub_le (y : ℚ) : |(roundHalfEven y : ℚ) - y| ≤ 1 / 2 := by
  have h1 := Int.floor_le y
  have h2 := Int.lt_floor_add_one y
  unfold roundHalfEven
  simp only []
  split_ifs with a b c
  · rw [abs_le]; constructor <;> linarith
  · rw [abs_le]; push_cast; constructor <;> linarith
  · rw [abs_le]; push_neg at a b; constructor <;> linarith
  · rw [abs_le]; push_neg at a b; push_cast; constructor <;> linarith

theorem roundHalfEven_intCast (n : Int) : roundHalfEven (n : ℚ) = n := by
  unfold roundHalfEven
  simp

theorem roundHalfEven_mono {a b : ℚ} (h : a ≤ b) : roundHalfEven a ≤ roundHalfEven b := by
  have hf : ⌊a⌋ ≤ ⌊b⌋ := Int.floor_mono h
  rcases lt_or_eq_of_le hf with hlt | heq
  · rcases roundHalfEven_cases a with ha | ha <;> rcases roundHalfEven_cases b with hb | hb <;>
      omega
  · unfold roundHalfEven
    simp only []
    rw [heq]
    split_ifs <;> first | omega | (exfalso; linarith)

theorem roundHalfEven_le_of_le_int {y : ℚ} {n : Int} (h : y ≤ n) : roundHalfEven y ≤ n := by
  have := roundHalfEven_mono h
  rwa [roundHalfEven_intCast] at this

theorem roundHalfEven_ge_of_int_le {y : ℚ} {n : Int} (h : (n : ℚ) ≤ y) : n ≤ roundHalfEven y := by
  have := roundHalfEven_mono h
  rwa [roundHalfEven_intCast] at this

/-! ## Rounding to a binary format -/

theorem roundHalfEven_eq_of (y : ℚ) (n : Int)
    (h : |(n : ℚ) - y| < 1 / 2 ∨ (|(n : ℚ) - y| = 1 / 2 ∧ n % 2 = 0)) :
    roundHalfEven y = n := by
  have h1 := Int.floor_le y
  have h2 := Int.lt_floor_add_one y
  have key : ∀ m : Int, (m : ℚ) ≤ y → y < m + 1 → ⌊y⌋ = m := by
    intro m a b
    exact Int.floor_eq_iff.mpr ⟨a, b⟩
  unfold roundHalfEven
  simp only []
  rcases h with h | ⟨h, hev⟩
  · rw [abs_lt] at h
    by_cases hc : (n : ℚ) ≤ y
    · have := key n hc (by linarith)
      rw [this]
      rw [if_pos (by linarith)]
    · push_neg at hc
      have := key (n - 1) (by push_cast; linarith) (by push_cast; linarith)
      rw [this]
      rw [if_neg (by push_cast; linarith), if_pos (by push_cast; linarith)]
      ring
  · by_cases hc : (n : ℚ) ≤ y
    · have hy : y = n + 1 / 2 := by
        rw [abs_of_nonpos (by linarith)] at h; linarith
      have := key n hc (by linarith)
      rw [this, if_neg (by linarith), if_neg (by linarith), if_pos hev]
    · push_neg at hc
      have hy : y = n - 1 / 2 := by
        rw [abs_of_pos (by linarith)] at h; linarith
      have := key (n - 1) (by push_cast; linarith) (by push_cast; linarith)
      rw [this, if_neg (by push_cast; linarith), if_neg (by push_cast; linarith),
        if_neg (by omega)]
      ring

theorem roundHalfEven_spec (y : ℚ) :
    |(roundHalfEven y : ℚ) - y| < 1 / 2 ∨
      (|(roundHalfEven y : ℚ) - y| = 1 / 2 ∧ roundHalfEven y % 2 = 0) := by
  have h1 := Int.floor_le y
  have h2 := Int.lt_floor_add_one y
  unfold roundHalfEven
  simp only []
  split_ifs with a b c
  · left; rw [abs_lt]; constructor <;> linarith
  · left; rw [abs_lt]; push_cast; constructor <;> linarith
  · right; push_neg at a b
    refine ⟨?_, c⟩
    rw [abs_of_nonpos (by linarith)]; linarith
  · right; push_neg at a b
    refine ⟨?_, by omega⟩
    push_cast
    rw [abs_of_nonneg (by linarith)]; linarith

theorem roundHalfEven_neg (y : ℚ) : roundHalfEven (-y) = -roundHalfEven y := by
  apply roundHalfEven_eq_of
  rcases roundHalfEven_spec y with h | ⟨h, hev⟩
  · left
    have : ((-roundHalfEven y : Int) : ℚ) - -y = -((roundHalfEven y : ℚ) - y) := by
      push_cast; ring
    rw [this, abs_neg]; exact h
  · right
    have : ((-roundHalfEven y : Int) : ℚ) - -y = -((roundHalfEven y : ℚ) - y) := by
      push_cast; ring
    rw [this, abs_neg]
    exact ⟨h, by omega⟩

theorem Fmt.quantum_pos (f : Fmt) (x : ℚ) : 0 < f.quantum x := pow2_pos _

theorem ilog2_neg (x : ℚ) : ilog2 (-x) = ilog2 x := by
  by_cases hx : x = 0
  · subst hx; simp
  · obtain ⟨a, b⟩ := ilog2_spec x hx
    exact ilog2_unique (-x) _ (by rwa [abs_neg]) (by rwa [abs_neg])

theorem Fmt.quantum_neg (f : Fmt) (x : ℚ) : f.quantum (-x) = f.quantum x := by
  unfold Fmt.quantum; rw [ilog2_neg]

theorem Fmt.rq_zero (f : Fmt) : f.rq 0 = 0 := by
  unfold Fmt.rq; simp

theorem Fmt.rq_neg (f : Fmt) (x : ℚ) : f.rq (-x) = -f.rq x := by
  unfold Fmt.rq
  by_cases hx : x = 0
  · subst hx; simp
  · rw [if_neg hx, if_neg (neg_ne_zero.mpr hx), Fmt.quantum_neg, neg_div, roundHalfEven_neg]
    push_cast; ring

theorem Fmt.rq_err (f : Fmt) (x : ℚ) (hx : x ≠ 0) : |f.rq x - x| ≤ f.quantum x / 2 := by
  unfold Fmt.rq
  rw [if_neg hx]
  have hq := f.quantum_pos x
  have h := roundHalfEven_sub_le (x / f.quantum x)
  have e : (roundHalfEven (x / f.quantum x) : ℚ) * f.quantum x - x =
      ((roundHalfEven (x / f.quantum x) : ℚ) - x / f.quantum x) * f.quantum x := by
    field_simp
  rw [e, abs_mul, abs_of_pos hq]
  calc _ ≤ 1 / 2 * f.quantum x := mul_le_mul_of_nonneg_right h (le_of_lt hq)
    _ = _ := by ring

theorem Fmt.rq_nonneg (f : Fmt) {x : ℚ} (hx : 0 ≤ x) : 0 ≤ f.rq x := by
  unfold Fmt.rq
  split_ifs with h
  · exact le_refl _
  · have hq := f.quantum_pos x
    have : (0 : Int) ≤ roundHalfEven (x / f.quantum x) :=
      roundHalfEven_ge_of_int_le (by simpa using div_nonneg hx (le_of_lt hq))
    have : (0 : ℚ) ≤ roundHalfEven (x / f.quantum x) := by exact_mod_cast this
    exact mul_nonneg this (le_of_lt hq)

theorem Fmt.rq_nonpos (f : Fmt) {x : ℚ} (hx : x ≤ 0) : f.rq x ≤ 0 := by
  have := f.rq_nonneg (neg_nonneg.mpr hx)
  rw [Fmt.rq_neg] at this
  linarith

/-- Exactness on the grid: `m * 2^k` with a mantissa of at most `prec` bits is kept. -/
theorem Fmt.rq_exact (f : Fmt) (m k : Int) (hm : |(m : ℚ)| < pow2 f.prec)
    (hk : f.emin - ((f.prec : Int) - 1) ≤ k) : f.rq (m * pow2 k) = m * pow2 k := by
  by_cases hx : (m : ℚ) * pow2 k = 0
  · rw [hx, Fmt.rq_zero]
  · unfold Fmt.rq
    rw [if_neg hx]
    have hlt : |(m : ℚ) * pow2 k| < pow2 (k + f.prec) := by
      rw [abs_mul, abs_of_pos (pow2_pos k), pow2_add, mul_comm]
      exact mul_lt_mul_of_pos_left hm (pow2_pos k)
    have he : ilog2 (m * pow2 k) < k + f.prec := ilog2_lt_of_abs_lt _ _ hx hlt
    have hE : max (ilog2 (m * pow2 k)) f.emin - ((f.prec : Int) - 1) ≤ k := by
      rcases max_cases (ilog2 ((m : ℚ) * pow2 k)) f.emin with ⟨h, _⟩ | ⟨h, _⟩ <;> rw [h] <;> omega
    unfold Fmt.quantum
    set j := max (ilog2 (m * pow2 k)) f.emin - ((f.prec : Int) - 1) with hj
    obtain ⟨d, hd⟩ := Int.eq_ofNat_of_zero_le (by omega : 0 ≤ k - j)
    have hk' : pow2 k = pow2 (d : Int) * pow2 j := by
      rw [← pow2_add, ← hd]; congr 1; ring
    have hdiv : (m : ℚ) * pow2 k / pow2 j = ((m * (2 ^ d : Nat) : Int) : ℚ) := by
      rw [hk', pow2_natCast]
      have := pow2_pos j
      field_simp
      ring
    rw [hdiv, roundHalfEven_intCast, hk', pow2_natCast]
    push_cast; ring

theorem Fmt.rq_intCast (f : Fmt) (n : Int) (hn : |(n : ℚ)| < pow2 f.prec)
    (h : f.emin - ((f.prec : Int) - 1) ≤ 0) : f.rq (n : ℚ) = n := by
  have := f.rq_exact n 0 hn h
  have e : pow2 0 = 1 := by rw [pow2_eq]; simp
  rwa [e, mul_one] at this

/-- The rounded value is an integer multiple of the quantum. -/
theorem Fmt.rq_grid (f : Fmt) (x : ℚ) (hx : x ≠ 0) :
    f.rq x = (roundHalfEven (x / f.quantum x) : ℚ) * f.quantum x := by
  unfold Fmt.rq; rw [if_neg hx]

theorem Fmt.quantum_mul_pow2 (f : Fmt) (x : ℚ) :
    pow2 ((f.prec : Int) - 1) * f.quantum x = pow2 (max (ilog2 x) f.emin) := by
  unfold Fmt.quantum
  rw [← pow2_add]; congr 1; ring

/-- A positive value is rounded into the closed binade of its (clamped) exponent. -/
theorem Fmt.rq_le_pow2 (f : Fmt) (x : ℚ) (hx : 0 < x) :
    f.rq x ≤ pow2 (max (ilog2 x) f.emin + 1) := by
  rw [f.rq_grid x (ne_of_gt hx)]
  have hq := f.quantum_pos x
  have h1 : x < pow2 (max (ilog2 x) f.emin + 1) := by
    have := (ilog2_spec x (ne_of_gt hx)).2
    rw [abs_of_pos hx] at this
    exact lt_of_lt_of_le this (pow2_le_pow2 (by omega))
  have e : pow2 (max (ilog2 x) f.emin + 1) = ((2 ^ f.prec : Nat) : ℚ) * f.quantum x := by
    rw [← pow2_natCast]
    unfold Fmt.quantum
    rw [← pow2_add]; congr 1; ring
  rw [e]
  apply mul_le_mul_of_nonneg_right _ (le_of_lt hq)
  have : x / f.quantum x ≤ (((2 ^ f.prec : Nat) : Int) : ℚ) := by
    rw [div_le_iff₀ hq]
    push_cast
    have := e ▸ h1
    push_cast at this
    linarith
  have := roundHalfEven_le_of_le_int this
  exact_mod_cast this

theorem Fmt.pow2_le_rq (f : Fmt) (x : ℚ) (e : Int) (he : f.emin ≤ e) (hp : 1 ≤ f.prec)
    (hx : pow2 e ≤ x) : pow2 e ≤ f.rq x := by
  have hx0 : 0 < x := lt_of_lt_of_le (pow2_pos e) hx
  rw [f.rq_grid x (ne_of_gt hx0)]
  have hq := f.quantum_pos x
  have hle : e ≤ ilog2 x := le_ilog2_of_le_abs x e (ne_of_gt hx0) (by rwa [abs_of_pos hx0])
  -- 2^e is a multiple of the quantum
  obtain ⟨d, hd⟩ := Int.eq_ofNat_of_zero_le
    (by omega : 0 ≤ (f.prec : Int) - 1)
  have hmax : max (ilog2 x) f.emin = ilog2 x := max_eq_left (by omega)
  have hq' : f.quantum x = pow2 (ilog2 x - ((f.prec : Int) - 1)) := by
    unfold Fmt.quantum; rw [hmax]
  have h2 : pow2 (ilog2 x) = ((2 ^ d : Nat) : ℚ) * f.quantum x := by
    rw [hq', ← pow2_natCast, ← pow2_add, ← hd]; congr 1; ring
  have h3 : pow2 (ilog2 x) ≤ x := by
    have := (ilog2_spec x (ne_of_gt hx0)).1
    rwa [abs_of_pos hx0] at this
  have h4 : (((2 ^ d : Nat) : Int) : ℚ) ≤ x / f.quantum x := by
    rw [le_div_iff₀ hq]
    push_cast
    rw [h2] at h3
    push_cast at h3
    exact h3
  have h5 := roundHalfEven_ge_of_int_le h4
  have h6 : ((2 ^ d : Nat) : ℚ) ≤ (roundHalfEven (x / f.quantum x) : ℚ) := by exact_mod_cast h5
  calc pow2 e ≤ pow2 (ilog2 x) := pow2_le_pow2 hle
    _ = ((2 ^ d : Nat) : ℚ) * f.quantum x := h2
    _ ≤ _ := mul_le_mul_of_nonneg_right h6 (le_of_lt hq)

/-- Rounding to nearest is monotone. -/
theorem Fmt.rq_mono_pos (f : Fmt) (hp : 1 ≤ f.prec) {x y : ℚ} (hx : 0 < x) (h : x ≤ y) :
    f.rq x ≤ f.rq y := by
  have hy : 0 < y := lt_of_lt_of_le hx h
  have hex : ilog2 x ≤ ilog2 y := by
    apply le_ilog2_of_le_abs y _ (ne_of_gt hy)
    rw [abs_of_pos hy]
    have := (ilog2_spec x (ne_of_gt hx)).1
    rw [abs_of_pos hx] at this
    linarith
  have hE : max (ilog2 x) f.emin ≤ max (ilog2 y) f.emin := max_le_max hex le_rfl
  rcases lt_or_eq_of_le hE with hlt | heq
  · have a := f.rq_le_pow2 x hx
    have hmy : max (ilog2 y) f.emin = ilog2 y := by
      rcases max_cases (ilog2 y) f.emin with ⟨h1, _⟩ | ⟨h1, h2⟩
      · exact h1
      · exfalso
        have := le_max_right (ilog2 x) f.emin
        omega
    have hy2 : pow2 (ilog2 y) ≤ y := by
      have := (ilog2_spec y (ne_of_gt hy)).1
      rwa [abs_of_pos hy] at this
    have b := f.pow2_le_rq y (ilog2 y) (by rw [← hmy]; exact le_max_right _ _) hp hy2
    calc f.rq x ≤ pow2 (max (ilog2 x) f.emin + 1) := a
      _ ≤ pow2 (ilog2 y) := pow2_le_pow2 (by omega)
      _ ≤ f.rq y := b
  · rw [f.rq_grid x (ne_of_gt hx), f.rq_grid y (ne_of_gt hy)]
    have hq : f.quantum x = f.quantum y := by unfold Fmt.quantum; rw [heq]
    rw [hq]
    have hqp := f.quantum_pos y
    apply mul_le_mul_of_nonneg_right _ (le_of_lt hqp)
    have : x / f.quantum y ≤ y / f.quantum y := div_le_div_of_nonneg_right h (le_of_lt hqp)
    exact_mod_cast roundHalfEven_mono this

theorem Fmt.rq_mono (f : Fmt) (hp : 1 ≤ f.prec) {x y : ℚ} (h : x ≤ y) : f.rq x ≤ f.rq y := by
  rcases lt_trichotomy 0 x with hx | hx | hx
  · exact f.rq_mono_pos hp hx h
  · subst hx
    rw [Fmt.rq_zero]; exact f.rq_nonneg h
  · rcases lt_or_le y 0 with hy | hy
    · have := f.rq_mono_pos hp (neg_pos.mpr hy) (neg_le_neg h)
      rw [Fmt.rq_neg, Fmt.rq_neg] at this
      linarith
    · exact le_trans (f.rq_nonpos (le_of_lt hx)) (f.rq_nonneg hy)

/-- Absolute error of rounding a value below `2^k`. -/
theorem Fmt.rq_err_le (f : Fmt) (x : ℚ) (k : Int) (hk : f.emin < k) (h : |x| < pow2 k) :
    |f.rq x - x| ≤ pow2 (k - f.prec) / 2 := by
  by_cases hx : x = 0
  · subst hx; rw [Fmt.rq_zero]; simp; exact le_of_lt (half_pos (pow2_pos _))
  · have := f.rq_err x hx
    have he := ilog2_lt_of_abs_lt x k hx h
    have hq : f.quantum x ≤ pow2 (k - f.prec) := by
      unfold Fmt.quantum
      apply pow2_le_pow2
      rcases max_cases (ilog2 x) f.emin with ⟨h1, _⟩ | ⟨h1, _⟩ <;> rw [h1] <;> omega
    linarith

/-- Relative error of rounding in the normal range. -/
theorem Fmt.rq_err_rel (f : Fmt) (x : ℚ) (h : pow2 f.emin ≤ |x|) :
    |f.rq x - x| ≤ |x| * pow2 (-(f.prec : Int)) := by
  have hx : x ≠ 0 := by
    intro h0; rw [h0, abs_zero] at h
    exact absurd h (not_le.mpr (pow2_pos _))
  have := f.rq_err x hx
  have he := le_ilog2_of_le_abs x _ hx h
  have hq : f.quantum x = pow2 (ilog2 x) * pow2 (-(f.prec : Int)) * 2 := by
    unfold Fmt.quantum
    rw [max_eq_left he]
    have : (2 : ℚ) = pow2 1 := by rw [pow2_eq]; simp
    rw [this, ← pow2_add, ← pow2_add]; congr 1; ring
  have h1 := (ilog2_spec x hx).1
  have h2 := pow2_pos (-(f.prec : Int))
  calc |f.rq x - x| ≤ f.quantum x / 2 := this
    _ = pow2 (ilog2 x) * pow2 (-(f.prec : Int)) := by rw [hq]; ring
    _ ≤ |x| * pow2 (-(f.prec : Int)) := mul_le_mul_of_nonneg_right h1 (le_of_lt h2)

/-! ## Loops -/

theorem iterate_succ_last {σ : Type} (body : Int → σ → Option σ) (n : Nat) (i : Int) (s : σ) :
    iterate body (n + 1) i s = (iterate body n i s).bind (body (i + n)) := by
  induction n generalizing i s with
  | zero => simp [iterate]
  | succ k ih =>
    rw [iterate]
    cases h : body i s with
    | none => simp [iterate, h]
    | some s1 =>
      simp only [Option.some_bind]
      rw [ih (i + 1) s1]
      conv_rhs => rw [iterate, h]
      simp only [Option.some_bind]
      have : i + 1 + (k : Int) = i + ((k + 1 : Nat) : Int) := by push_cast; ring
      rw [this]

/-- Invariant rule: a body that succeeds and keeps `P` on every counter of the run
makes the run succeed and keep `P`. -/
theorem iterate_inv {σ : Type} (P : σ → Prop) (body : Int → σ → Option σ) (n : Nat) (i : Int)
    (s : σ) (hs : P s)
    (hb : ∀ j s, i ≤ j → j < i + n → P s → ∃ s', body j s = some s' ∧ P s') :
    ∃ s', iterate body n i s = some s' ∧ P s' := by
  induction n generalizing i s with
  | zero => exact ⟨s, rfl, hs⟩
  | succ k ih =>
    obtain ⟨s1, h1, p1⟩ := hb i s le_rfl (by push_cast; omega) hs
    obtain ⟨s2, h2, p2⟩ := ih (i + 1) s1 p1 (fun j s hj1 hj2 hp =>
      hb j s (by omega) (by push_cast; omega) hp)
    exact ⟨s2, by rw [iterate, h1]; exact h2, p2⟩

/-- Invariant rule with a counter-indexed invariant. -/
theorem iterate_inv_idx {σ : Type} (P : Int → σ → Prop) (body : Int → σ → Option σ) (n : Nat)
    (i : Int) (s : σ) (hs : P i s)
    (hb : ∀ j s, i ≤ j → j < i + n → P j s → ∃ s', body j s = some s' ∧ P (j + 1) s') :
    ∃ s', iterate body n i s = some s' ∧ P (i + n) s' := by
  induction n generalizing i s with
  | zero => exact ⟨s, rfl, by simpa using hs⟩
  | succ k ih =>
    obtain ⟨s1, h1, p1⟩ := hb i s le_rfl (by push_cast; omega) hs
    obtain ⟨s2, h2, p2⟩ := ih (i + 1) s1 p1 (fun j s hj1 hj2 hp =>
      hb j s (by omega) (by push_cast; omega) hp)
    refine ⟨s2, by rw [iterate, h1]; exact h2, ?_⟩
    have : i + ((k + 1 : Nat) : Int) = i + 1 + (k : Int) := by push_cast; ring
    rw [this]; exact p2

theorem forExcl_inv {σ : Type} (P : σ → Prop) (body : Int → σ → Option σ) (lo hi : Int)
    (s : σ) (hs : P s)
    (hb : ∀ j s, lo ≤ j → j < hi → P s → ∃ s', body j s = some s' ∧ P s') :
    ∃ s', forExcl lo hi body s = some s' ∧ P s' := by
  unfold forExcl
  exact iterate_inv P body _ lo s hs (fun j s h1 h2 hp => hb j s h1 (by omega) hp)

theorem forIncl_inv {σ : Type} (P : σ → Prop) (body : Int → σ → Option σ) (lo hi : Int)
    (hhi : hi < 2147483647) (s : σ) (hs : P s)
    (hb : ∀ j s, lo ≤ j → j ≤ hi → P s → ∃ s', body j s = some s' ∧ P s') :
    ∃ s', forIncl lo hi body s = some s' ∧ P s' := by
  unfold forIncl
  rw [if_neg (by omega)]
  exact iterate_inv P body _ lo s hs (fun j s h1 h2 hp => hb j s h1 (by omega) hp)

theorem forExcl_inv_idx {σ : Type} (P : Int → σ → Prop) (body : Int → σ → Option σ)
    (lo hi : Int) (hle : lo ≤ hi) (s : σ) (hs : P lo s)
    (hb : ∀ j s, lo ≤ j → j < hi → P j s → ∃ s', body j s = some s' ∧ P (j + 1) s') :
    ∃ s', forExcl lo hi body s = some s' ∧ P hi s' := by
  unfold forExcl
  obtain ⟨s', h1, h2⟩ := iterate_inv_idx P body (hi - lo).toNat lo s hs
    (fun j s h1 h2 hp => hb j s h1 (by omega) hp)
  refine ⟨s', h1, ?_⟩
  have : lo + ((hi - lo).toNat : Int) = hi := by omega
  rwa [this] at h2

/-! ## Pixel store -/

theorem store_some (b : Buffer) (i : Int) (c : Nat) (h0 : 0 ≤ i) (h1 : i < 480000) :
    b.store i c = some (Function.update b i.toNat c) := by
  unfold Buffer.store WIDTH HEIGHT
  rw [if_pos ⟨h0, by omega⟩]

theorem load_some (b : Buffer) (i : Int) (h0 : 0 ≤ i) (h1 : i < 480000) :
    b.load i = some (b i.toNat) := by
  unfold Buffer.load WIDTH HEIGHT
  rw [if_pos ⟨h0, by omega⟩]

/-- Effect of `put_pixel` on every cell. -/
theorem put_pixel_eq (b : Buffer) (x y : Int) (color : Nat) :
    put_pixel b x y color =
      some (if 0 ≤ x ∧ x < 800 ∧ 0 ≤ y ∧ y < 600
        then Function.update b (y * 800 + x).toNat color else b) := by
  unfold put_pixel WIDTH HEIGHT
  by_cases h : x ≥ 0 ∧ x < 800 ∧ y ≥ 0 ∧ y < 600
  · rw [if_pos h, if_pos h]
    exact store_some b _ color (by omega) (by omega)
  · rw [if_neg h, if_neg h]

/-- C1. `put_pixel(x, y, color)` returns, and afterwards every cell holds what it
held before, except that for `0 <= x < 800` and `0 <= y < 600` the cell
`y * 800 + x` holds `color`. -/
theorem put_pixel_frame (b : Buffer) (x y : Int) (color : Nat) :
    ∃ b', put_pixel b x y color = some b' ∧
      ∀ i : Nat, b' i =
        if (0 ≤ x ∧ x < 800 ∧ 0 ≤ y ∧ y < 600) ∧ (i : Int) = y * 800 + x then color
        else b i := by
  refine ⟨_, put_pixel_eq b x y color, ?_⟩
  intro i
  by_cases h : 0 ≤ x ∧ x < 800 ∧ 0 ≤ y ∧ y < 600
  · rw [if_pos h]
    by_cases hi : (i : Int) = y * 800 + x
    · rw [if_pos ⟨h, hi⟩]
      have : i = (y * 800 + x).toNat := by omega
      rw [this]; simp
    · rw [if_neg (fun hc => hi hc.2)]
      have : i ≠ (y * 800 + x).toNat := by omega
      simp [Function.update, this]
  · rw [if_neg h, if_neg (fun hc => h hc.1)]

/-! ## The two formats -/

theorem Fmt.round_eq_fin (f : Fmt) (hp : 1 ≤ f.prec) (he : f.emin ≤ f.emax) (x : ℚ)
    (h : |x| ≤ pow2 f.emax) : f.round x = .fin (f.rq x) := by
  have hone : |((1 : Int) : ℚ)| < pow2 f.prec := by
    have : pow2 0 < pow2 (f.prec : Int) := pow2_lt_pow2 (by omega)
    have e : pow2 0 = 1 := by rw [pow2_eq]; simp
    rw [e] at this
    simpa using this
  have hB : f.rq (pow2 f.emax) = pow2 f.emax := by
    have := f.rq_exact 1 f.emax hone (by omega)
    simpa using this
  have h1 : f.rq x ≤ pow2 f.emax := by
    have := f.rq_mono hp (le_trans (le_abs_self x) h)
    rwa [hB] at this
  have h2 : -pow2 f.emax ≤ f.rq x := by
    have := f.rq_mono hp (le_trans (neg_abs_le x |>.trans_eq' rfl) (le_refl x) |>.trans' (neg_le_neg h))
    rwa [Fmt.rq_neg, hB] at this
  have h3 : |f.rq x| < pow2 (f.emax + 1) :=
    lt_of_le_of_lt (abs_le.mpr ⟨h2, h1⟩) (pow2_lt_pow2 (by omega))
  unfold Fmt.round
  rw [if_neg (not_le.mpr h3)]

theorem round32_fin (x : ℚ) (h : |x| ≤ pow2 127) : binary32.round x = .fin (binary32.rq x) :=
  binary32.round_eq_fin (by decide) (by decide) x h

theorem round64_fin (x : ℚ) (h : |x| ≤ pow2 1023) : binary64.round x = .fin (binary64.rq x) :=
  binary64.round_eq_fin (by decide) (by decide) x h

theorem rq32_mono {x y : ℚ} (h : x ≤ y) : binary32.rq x ≤ binary32.rq y :=
  binary32.rq_mono (by decide) h

theorem rq64_mono {x y : ℚ} (h : x ≤ y) : binary64.rq x ≤ binary64.rq y :=
  binary64.rq_mono (by decide) h

theorem pow2_24 : pow2 24 = 16777216 := by rw [pow2_eq]; norm_num

theorem pow2_53 : pow2 53 = 9007199254740992 := by rw [pow2_eq]; norm_num

theorem pow2_127_ge : (16777216 : ℚ) ≤ pow2 127 := by
  rw [← pow2_24]; exact pow2_le_pow2 (by norm_num)

theorem pow2_1023_ge : (9007199254740992 : ℚ) ≤ pow2 1023 := by
  rw [← pow2_53]; exact pow2_le_pow2 (by norm_num)

/-- Integers of at most 24 bits are binary32 values. -/
theorem rq32_int (n : Int) (h : |(n : ℚ)| < 16777216) : binary32.rq (n : ℚ) = n :=
  binary32.rq_intCast n (by rw [show ((binary32.prec : Nat) : Int) = 24 from rfl, pow2_24]; exact h)
    (by decide)

/-- Integers of at most 53 bits are binary64 values. -/
theorem rq64_int (n : Int) (h : |(n : ℚ)| < 9007199254740992) : binary64.rq (n : ℚ) = n :=
  binary64.rq_intCast n (by rw [show ((binary64.prec : Nat) : Int) = 53 from rfl, pow2_53]; exact h)
    (by decide)

theorem round32_int (n : Int) (h : |(n : ℚ)| < 16777216) : binary32.round (n : ℚ) = .fin n := by
  rw [round32_fin _ (le_trans (le_of_lt h) pow2_127_ge), rq32_int n h]

theorem round64_int (n : Int) (h : |(n : ℚ)| < 9007199254740992) :
    binary64.round (n : ℚ) = .fin n := by
  rw [round64_fin _ (le_trans (le_of_lt h) pow2_1023_ge), rq64_int n h]

theorem round32_nat (n : Nat) (h : n < 16777216) : binary32.round (n : ℚ) = .fin n := by
  have := round32_int (n : Int) (by
    rw [abs_of_nonneg (by positivity)]; exact_mod_cast h)
  simpa using this

theorem F32_ofInt_nat (n : Nat) (h : n < 16777216) : F32.ofInt (n : Int) = .fin n := by
  unfold F32.ofInt Fmt.ofInt
  have := round32_nat n h
  simpa using this

/-- A value between `0` and a bound that is itself a small integer rounds into
the same range. -/
theorem rq32_range {x : ℚ} (n : Nat) (hn : n < 16777216) (h0 : 0 ≤ x) (h1 : x ≤ n) :
    0 ≤ binary32.rq x ∧ binary32.rq x ≤ n := by
  refine ⟨binary32.rq_nonneg h0, ?_⟩
  have := rq32_mono h1
  have e := rq32_int (n : Int) (by rw [abs_of_nonneg (by positivity)]; exact_mod_cast hn)
  simp only [Int.cast_natCast] at e
  rwa [e] at this

/-! ## Packed colours -/

theorem pack_eq_add (r g b : Nat) (hr : r < 256) (hg : g < 256) (hb : b < 256) :
    0xFF000000 ||| (r <<< 16) ||| (g <<< 8) ||| b = 4278190080 + r * 65536 + g * 256 + b := by
  rw [Nat.shiftLeft_eq, Nat.shiftLeft_eq]
  have e1 : (0xFF000000 : Nat) ||| r * 2 ^ 16 = 2 ^ 16 * (65280 + r) := by
    have h := Nat.mul_add_lt_is_or (i := 24) (b := r * 2 ^ 16) (by omega) 255
    have e : (0xFF000000 : Nat) = 2 ^ 24 * 255 := by norm_num
    rw [e, ← h]; ring
  have e2 : 2 ^ 16 * (65280 + r) ||| g * 2 ^ 8 = 2 ^ 8 * (16711680 + r * 256 + g) := by
    have h := Nat.mul_add_lt_is_or (i := 16) (b := g * 2 ^ 8) (by omega) (65280 + r)
    rw [← h]; ring
  have e3 : 2 ^ 8 * (16711680 + r * 256 + g) ||| b
      = 2 ^ 8 * (16711680 + r * 256 + g) + b :=
    (Nat.mul_add_lt_is_or (i := 8) (by omega) _).symm
  rw [e1, e2, e3]; ring

theorem and_255 (x : Nat) : x &&& 0xFF = x % 256 := by
  have := Nat.and_pow_two_sub_one_eq_mod x 8
  simpa using this

theorem and_255_lt (x : Nat) : x &&& 0xFF < 256 := by
  rw [and_255]; omega

theorem pack_red (r g b : Nat) (hr : r < 256) (hg : g < 256) (hb : b < 256) :
    ((0xFF000000 ||| (r <<< 16) ||| (g <<< 8) ||| b) >>> 16) &&& 0xFF = r := by
  rw [pack_eq_add r g b hr hg hb, and_255, Nat.shiftRight_eq_div_pow]
  omega

theorem pack_green (r g b : Nat) (hr : r < 256) (hg : g < 256) (hb : b < 256) :
    ((0xFF000000 ||| (r <<< 16) ||| (g <<< 8) ||| b) >>> 8) &&& 0xFF = g := by
  rw [pack_eq_add r g b hr hg hb, and_255, Nat.shiftRight_eq_div_pow]
  omega

theorem pack_blue (r g b : Nat) (hr : r < 256) (hg : g < 256) (hb : b < 256) :
    (0xFF000000 ||| (r <<< 16) ||| (g <<< 8) ||| b) &&& 0xFF = b := by
  rw [pack_eq_add r g b hr hg hb, and_255]
  omega

theorem pack_alpha (r g b : Nat) (hr : r < 256) (hg : g < 256) (hb : b < 256) :
    ((0xFF000000 ||| (r <<< 16) ||| (g <<< 8) ||| b) >>> 24) &&& 0xFF = 0xFF := by
  rw [pack_eq_add r g b hr hg hb, and_255, Nat.shiftRight_eq_div_pow]
  omega

/-- Repacking the three channels of a colour forces its alpha byte to `0xFF`. -/
theorem pack_unpack (c : Nat) :
    0xFF000000 ||| (((c >>> 16) &&& 0xFF) <<< 16) ||| (((c >>> 8) &&& 0xFF) <<< 8)
      ||| (c &&& 0xFF) = 0xFF000000 ||| (c &&& 0x00FFFFFF) := by
  apply Nat.eq_of_testBit_eq
  intro i
  have h255 : (255 : Nat) = 2 ^ 8 - 1 := by norm_num
  have h24 : (16777215 : Nat) = 2 ^ 24 - 1 := by norm_num
  simp only [Nat.testBit_lor, Nat.testBit_land, Nat.testBit_shiftLeft, Nat.testBit_shiftRight,
    h255, h24, Nat.testBit_two_pow_sub_one]
  by_cases h1 : i < 8
  · simp [h1, show i < 24 by omega, show ¬ (16 ≤ i) by omega, show ¬ (8 ≤ i) by omega]
  · by_cases h2 : i < 16
    · simp [h1, h2, show i < 24 by omega, show ¬ (16 ≤ i) by omega, show (8 ≤ i) by omega,
        show i - 8 < 8 by omega]
    · by_cases h3 : i < 24
      · simp [h1, h2, h3, show (16 ≤ i) by omega, show (8 ≤ i) by omega,
          show i - 16 < 8 by omega, show ¬ (i - 8 < 8) by omega]
      · simp [h1, h2, h3, show (16 ≤ i) by omega, show (8 ≤ i) by omega,
          show ¬ (i - 16 < 8) by omega, show ¬ (i - 8 < 8) by omega]

theorem toU8_lt (v : FVal) : v.toU8 < 256 := by
  unfold FVal.toU8
  omega

theorem toU8_fin_of_range (s : ℚ) (a : Int) (h0 : 0 ≤ a) (h1 : a < 256) (hs0 : (a : ℚ) ≤ s)
    (hs1 : s < a + 1) : (FVal.fin s).toU8 = a.toNat := by
  have hs : 0 ≤ s := le_trans (by exact_mod_cast h0) hs0
  have hf : ⌊s⌋ = a := Int.floor_eq_iff.mpr ⟨hs0, hs1⟩
  unfold FVal.toU8 FVal.toInt32 truncQ
  simp only [if_pos hs, hf]
  rw [if_pos (by omega)]
  congr 1
  omega

/-! ## `blend_colors` -/

theorem rq32_err (x : ℚ) (k : Int) (hk : -126 < k) (h : |x| < pow2 k) :
    |binary32.rq x - x| ≤ pow2 (k - 25) := by
  have := binary32.rq_err_le x k hk h
  have e : pow2 (k - ((binary32.prec : Nat) : Int)) / 2 = pow2 (k - 25) := by
    rw [show ((binary32.prec : Nat) : Int) = 24 from rfl, ← pow2_pred]; congr 1; ring
  rwa [e] at this

theorem round32_zero : binary32.round 0 = .fin 0 := by
  simpa using round32_nat 0 (by norm_num)

theorem round32_one : binary32.round 1 = .fin 1 := by
  simpa using round32_nat 1 (by norm_num)

theorem toU8_fin_nat (a : Nat) (ha : a < 256) : (FVal.fin (a : ℚ)).toU8 = a := by
  have := toU8_fin_of_range (a : ℚ) (a : Int) (by omega) (by omega) (by simp) (by simp)
  simpa using this

theorem blend_channel_zero (a b : Nat) (ha : a < 256) (hb : b < 256) :
    blend_channel a b (.fin 0) = a := by
  unfold blend_channel
  rw [F32_ofInt_nat a (by omega), F32_ofInt_nat b (by omega)]
  simp only [F32.sub, Fmt.sub, FVal.neg, F32.add, Fmt.add, F32.mul, Fmt.mul, neg_zero, add_zero,
    mul_zero, mul_one, round32_one, round32_zero, round32_nat a (by omega)]
  exact toU8_fin_nat a ha

theorem blend_channel_one (a b : Nat) (ha : a < 256) (hb : b < 256) :
    blend_channel a b (.fin 1) = b := by
  unfold blend_channel
  rw [F32_ofInt_nat a (by omega), F32_ofInt_nat b (by omega)]
  simp only [F32.sub, Fmt.sub, FVal.neg, F32.add, Fmt.add, F32.mul, Fmt.mul, add_neg_cancel,
    zero_add, mul_zero, mul_one, round32_zero, round32_nat b (by omega)]
  exact toU8_fin_nat b hb

theorem blend_colors_at_zero (c1 c2 : Nat) :
    blend_colors c1 c2 (.fin 0) = 0xFF000000 ||| (c1 &&& 0x00FFFFFF) := by
  unfold blend_colors
  simp only [blend_channel_zero _ _ (and_255_lt _) (and_255_lt _)]
  exact pack_unpack c1

theorem blend_colors_at_one (c1 c2 : Nat) :
    blend_colors c1 c2 (.fin 1) = 0xFF000000 ||| (c2 &&& 0x00FFFFFF) := by
  unfold blend_colors
  simp only [blend_channel_one _ _ (and_255_lt _) (and_255_lt _)]
  exact pack_unpack c2

/-- C4. For all colours `c1`, `c2`: `blend_colors(c1, c2, 0)` is `c1` and
`blend_colors(c1, c2, 1)` is `c2`, each with the alpha byte forced to `0xFF`. -/
theorem blend_colors_endpoints (c1 c2 : Nat) :
    blend_colors c1 c2 (.fin 0) = 0xFF000000 ||| (c1 &&& 0x00FFFFFF) ∧
    blend_colors c1 c2 (.fin 1) = 0xFF000000 ||| (c2 &&& 0x00FFFFFF) :=
  ⟨blend_colors_at_zero c1 c2, blend_colors_at_one c1 c2⟩

theorem blend_channel_same (a : Nat) (ha : a < 256) (r : ℚ) (h0 : 0 ≤ r) (h1 : r ≤ 1) :
    blend_channel a a (.fin r) = a ∨ blend_channel a a (.fin r) + 1 = a := by
  have hB : (16777216 : ℚ) ≤ pow2 127 := pow2_127_ge
  have haq : (a : ℚ) ≤ 255 := by exact_mod_cast (by omega : a ≤ 255)
  have ha0 : (0 : ℚ) ≤ a := by positivity
  -- 1 - ratio
  have hx0 : (0 : ℚ) ≤ 1 + -r := by linarith
  have hx1 : 1 + -r ≤ ((1 : Nat) : ℚ) := by push_cast; linarith
  obtain ⟨o0, o1⟩ := rq32_range 1 (by norm_num) hx0 hx1
  have oe := rq32_err (1 + -r) 1 (by norm_num) (by
    rw [abs_of_nonneg hx0, pow2_eq]; norm_num; linarith)
  set omr := binary32.rq (1 + -r) with homr
  push_cast at o1
  -- a * (1 - ratio)
  have hp0 : (0 : ℚ) ≤ a * omr := mul_nonneg ha0 o0
  have hp1 : (a : ℚ) * omr ≤ ((255 : Nat) : ℚ) := by
    push_cast
    calc (a : ℚ) * omr ≤ 255 * 1 := mul_le_mul haq o1 o0 (by norm_num)
      _ = 255 := by ring
  obtain ⟨p0, p1⟩ := rq32_range 255 (by norm_num) hp0 hp1
  have pe := rq32_err (a * omr) 8 (by norm_num) (by
    rw [abs_of_nonneg hp0, pow2_eq]; push_cast at hp1; norm_num; linarith)
  set p := binary32.rq (a * omr) with hp
  -- a * ratio
  have hq0 : (0 : ℚ) ≤ a * r := mul_nonneg ha0 h0
  have hq1 : (a : ℚ) * r ≤ ((255 : Nat) : ℚ) := by
    push_cast
    calc (a : ℚ) * r ≤ 255 * 1 := mul_le_mul haq h1 h0 (by norm_num)
      _ = 255 := by ring
  obtain ⟨q0, q1⟩ := rq32_range 255 (by norm_num) hq0 hq1
  have qe := rq32_err (a * r) 8 (by norm_num) (by
    rw [abs_of_nonneg hq0, pow2_eq]; push_cast at hq1; norm_num; linarith)
  set q := binary32.rq (a * r) with hq
  push_cast at p1 q1
  -- the sum
  have hs0 : (0 : ℚ) ≤ p + q := by linarith
  have se := rq32_err (p + q) 9 (by norm_num) (by
    rw [abs_of_nonneg hs0, pow2_eq]; norm_num; linarith)
  have s0 := binary32.rq_nonneg hs0
  set s := binary32.rq (p + q) with hs
  -- the value computed
  have hval : blend_channel a a (.fin r) = (FVal.fin s).toU8 := by
    unfold blend_channel
    rw [F32_ofInt_nat a (by omega)]
    simp only [F32.sub, Fmt.sub, FVal.neg, F32.add, Fmt.add, F32.mul, Fmt.mul]
    rw [round32_fin (1 + -r) (by rw [abs_of_nonneg hx0]; linarith)]
    simp only []
    rw [round32_fin (a * binary32.rq (1 + -r)) (by rw [abs_of_nonneg hp0]; push_cast at hp1; linarith),
      round32_fin (a * r) (by rw [abs_of_nonneg hq0]; push_cast at hq1; linarith)]
    simp only []
    rw [round32_fin _ (by rw [abs_of_nonneg hs0]; linarith)]
  -- error budget
  have e1 : pow2 (1 - 25) = 1 / 16777216 := by rw [pow2_eq]; norm_num
  have e2 : pow2 (8 - 25) = 1 / 131072 := by rw [pow2_eq]; norm_num
  have e3 : pow2 (9 - 25) = 1 / 65536 := by rw [pow2_eq]; norm_num
  rw [e1] at oe; rw [e2] at pe qe; rw [e3] at se
  rw [abs_le] at oe pe qe se
  have hd1 : (a : ℚ) * (omr - (1 + -r)) ≤ 255 * (1 / 16777216) := by
    calc (a : ℚ) * (omr - (1 + -r)) ≤ a * (1 / 16777216) :=
          mul_le_mul_of_nonneg_left oe.2 ha0
      _ ≤ 255 * (1 / 16777216) := mul_le_mul_of_nonneg_right haq (by norm_num)
  have hd2 : -(255 * (1 / 16777216)) ≤ (a : ℚ) * (omr - (1 + -r)) := by
    have : (a : ℚ) * (-(1 / 16777216)) ≤ a * (omr - (1 + -r)) :=
      mul_le_mul_of_nonneg_left oe.1 ha0
    have : (a : ℚ) * (1 / 16777216) ≤ 255 * (1 / 16777216) :=
      mul_le_mul_of_nonneg_right haq (by norm_num)
    linarith
  have key : s - a = (s - (p + q)) + (p - a * omr) + (q - a * r) + a * (omr - (1 + -r)) := by
    ring
  have hlow : (a : ℚ) - 1 < s := by linarith [pe.1, qe.1, se.1]
  have hhigh : s < (a : ℚ) + 1 := by linarith [pe.2, qe.2, se.2]
  rw [hval]
  by_cases hc : (a : ℚ) ≤ s
  · left
    have := toU8_fin_of_range s (a : Int) (by omega) (by omega) (by exact_mod_cast hc)
      (by exact_mod_cast hhigh)
    simpa using this
  · right
    push_neg at hc
    have ha1 : 1 ≤ a := by
      rcases Nat.eq_zero_or_pos a with h | h
      · subst h; simp at hc; linarith
      · exact h
    have := toU8_fin_of_range s ((a : Int) - 1) (by omega) (by omega)
      (by push_cast; linarith) (by push_cast; linarith)
    rw [this]; omega

/-- C3, counterexample: with the ratio `0.1f` the colour `0xFF030303` blended with
itself gives `0xFF020202`. -/
theorem blend_colors_same_drift :
    F32.lit (1 / 10) = .fin (13421773 / 134217728) ∧
    (0 : ℚ) ≤ 13421773 / 134217728 ∧ (13421773 / 134217728 : ℚ) ≤ 1 ∧
    blend_colors 0xFF030303 0xFF030303 (.fin (13421773 / 134217728)) = 0xFF020202 ∧
    blend_colors 0xFF030303 0xFF030303 (.fin (13421773 / 134217728))
      ≠ 0xFF000000 ||| (0xFF030303 &&& 0x00FFFFFF) := by
  decide!

/-- C3, amended. For every colour `c` and ratio `0 <= r <= 1` the result of
`blend_colors(c, c, r)` has alpha `0xFF`, and each of its red, green and blue
channels is the channel of `c` or one less. -/
theorem blend_colors_same_near (c : Nat) (r : ℚ) (h0 : 0 ≤ r) (h1 : r ≤ 1) :
    ((blend_colors c c (.fin r)) >>> 24) &&& 0xFF = 0xFF ∧
    ((((blend_colors c c (.fin r)) >>> 16) &&& 0xFF = (c >>> 16) &&& 0xFF) ∨
      (((blend_colors c c (.fin r)) >>> 16) &&& 0xFF) + 1 = (c >>> 16) &&& 0xFF) ∧
    ((((blend_colors c c (.fin r)) >>> 8) &&& 0xFF = (c >>> 8) &&& 0xFF) ∨
      (((blend_colors c c (.fin r)) >>> 8) &&& 0xFF) + 1 = (c >>> 8) &&& 0xFF) ∧
    (((blend_colors c c (.fin r)) &&& 0xFF = c &&& 0xFF) ∨
      ((blend_colors c c (.fin r)) &&& 0xFF) + 1 = c &&& 0xFF) := by
  unfold blend_colors
  simp only []
  have hr := blend_channel_same ((c >>> 16) &&& 0xFF) (and_255_lt _) r h0 h1
  have hg := blend_channel_same ((c >>> 8) &&& 0xFF) (and_255_lt _) r h0 h1
  have hb := blend_channel_same (c &&& 0xFF) (and_255_lt _) r h0 h1
  have lr : blend_channel ((c >>> 16) &&& 0xFF) ((c >>> 16) &&& 0xFF) (.fin r) < 256 := toU8_lt _
  have lg : blend_channel ((c >>> 8) &&& 0xFF) ((c >>> 8) &&& 0xFF) (.fin r) < 256 := toU8_lt _
  have lb : blend_channel (c &&& 0xFF) (c &&& 0xFF) (.fin r) < 256 := toU8_lt _
  rw [pack_alpha _ _ _ lr lg lb, pack_red _ _ _ lr lg lb, pack_green _ _ _ lr lg lb,
    pack_blue _ _ _ lr lg lb]
  exact ⟨rfl, hr, hg, hb⟩

theorem blend_colors_same_near_witness :
    ((0 : ℚ) ≤ 13421773 / 134217728 ∧ (13421773 / 134217728 : ℚ) ≤ 1) ∧
    (((blend_colors 0xFF030303 0xFF030303 (.fin (13421773 / 134217728))) >>> 24) &&& 0xFF = 0xFF ∧
    ((((blend_colors 0xFF030303 0xFF030303 (.fin (13421773 / 134217728))) >>> 16) &&& 0xFF
        = (0xFF030303 >>> 16) &&& 0xFF) ∨
      (((blend_colors 0xFF030303 0xFF030303 (.fin (13421773 / 134217728))) >>> 16) &&& 0xFF) + 1
        = (0xFF030303 >>> 16) &&& 0xFF) ∧
    ((((blend_colors 0xFF030303 0xFF030303 (.fin (13421773 / 134217728))) >>> 8) &&& 0xFF
        = (0xFF030303 >>> 8) &&& 0xFF) ∨
      (((blend_colors 0xFF030303 0xFF030303 (.fin (13421773 / 134217728))) >>> 8) &&& 0xFF) + 1
        = (0xFF030303 >>> 8) &&& 0xFF) ∧
    (((blend_colors 0xFF030303 0xFF030303 (.fin (13421773 / 134217728))) &&& 0xFF
        = 0xFF030303 &&& 0xFF) ∨
      ((blend_colors 0xFF030303 0xFF030303 (.fin (13421773 / 134217728))) &&& 0xFF) + 1
        = 0xFF030303 &&& 0xFF)) :=
  ⟨⟨by norm_num, by norm_num⟩,
    blend_colors_same_near 0xFF030303 (13421773 / 134217728) (by norm_num) (by norm_num)⟩

/-! ## The generator -/

theorem wrap32_of_range (n : Int) (h0 : -2147483648 ≤ n) (h1 : n < 2147483648) :
    wrap32 n = n := by
  unfold wrap32; omega

theorem wrap32_range (n : Int) : -2147483648 ≤ wrap32 n ∧ wrap32 n < 2147483648 := by
  unfold wrap32; omega

theorem pow2_zero : pow2 0 = 1 := by rw [pow2_eq]; simp

theorem Fmt.rq_pow2 (f : Fmt) (hp : 1 ≤ f.prec) (k : Int) (hk : f.emin - ((f.prec : Int) - 1) ≤ k) :
    f.rq (pow2 k) = pow2 k := by
  have hone : |((1 : Int) : ℚ)| < pow2 f.prec := by
    have : pow2 0 < pow2 (f.prec : Int) := pow2_lt_pow2 (by omega)
    rw [pow2_zero] at this
    simpa using this
  simpa using f.rq_exact 1 k hone hk

theorem rq64_le_pow2 {x : ℚ} (k : Int) (hk : -1074 ≤ k) (h : x ≤ pow2 k) :
    binary64.rq x ≤ pow2 k := by
  have := rq64_mono h
  rwa [binary64.rq_pow2 (by decide) k (by
    show (-1022 : Int) - (((53 : Nat) : Int) - 1) ≤ k
    omega)] at this

theorem rq32_le_pow2 {x : ℚ} (k : Int) (hk : -149 ≤ k) (h : x ≤ pow2 k) :
    binary32.rq x ≤ pow2 k := by
  have := rq32_mono h
  rwa [binary32.rq_pow2 (by decide) k (by
    show (-126 : Int) - (((24 : Nat) : Int) - 1) ≤ k
    omega)] at this

theorem truncQ_nonneg {q : ℚ} (h : 0 ≤ q) : truncQ q = ⌊q⌋ := by
  unfold truncQ; rw [if_pos h]

/-- The largest double below one. -/
theorem rq64_below_one {x : ℚ} (h : x ≤ 1 - pow2 (-53)) : binary64.rq x ≤ 1 - pow2 (-53) := by
  have e : (1 : ℚ) - pow2 (-53) = ((9007199254740991 : Int) : ℚ) * pow2 (-53) := by
    rw [pow2_eq]; norm_num
  have := rq64_mono h
  rw [e] at this ⊢
  rwa [binary64.rq_exact 9007199254740991 (-53) (by
    rw [show ((binary64.prec : Nat) : Int) = 53 from rfl, pow2_53]; norm_num) (by decide)] at this

/-- A double in `[0, 2^31)` that the generator can store is at most `2^31 - 2^-22`. -/
theorem seed_gap (x : ℚ) (hx : 0 < x) (K : Int)
    (h : binary64.rq x - (K : ℚ) * 2147483648 < 2147483648) :
    binary64.rq x - (K : ℚ) * 2147483648 ≤ 2147483648 - pow2 (-22) ∨
      binary64.rq x ≤ pow2 30 := by
  by_cases hE : ilog2 x ≤ 29
  · right
    have := binary64.rq_le_pow2 x hx
    refine le_trans this (pow2_le_pow2 ?_)
    have : max (ilog2 x) binary64.emin ≤ 29 := max_le hE (by decide)
    omega
  · left
    push_neg at hE
    have hmax : max (ilog2 x) binary64.emin = ilog2 x :=
      max_eq_left (by have : binary64.emin = -1022 := rfl; omega)
    obtain ⟨d, hd⟩ := Int.eq_ofNat_of_zero_le (by omega : 0 ≤ ilog2 x - 30)
    have hq : binary64.quantum x = ((2 ^ d : Nat) : ℚ) * pow2 (-22) := by
      unfold Fmt.quantum
      rw [hmax, ← pow2_natCast, ← pow2_add, ← hd]
      congr 1
      show ilog2 x - (((53 : Nat) : Int) - 1) = ilog2 x - 30 + -22
      omega
    have e31 : (2147483648 : ℚ) = ((9007199254740992 : Int) : ℚ) * pow2 (-22) := by
      rw [pow2_eq]; norm_num
    rw [binary64.rq_grid x (ne_of_gt hx), hq] at h ⊢
    set M := roundHalfEven (x / (((2 ^ d : Nat) : ℚ) * pow2 (-22)))
    have hp := pow2_pos (-22)
    have hN : ((M * (2 ^ d : Nat) - K * 9007199254740992 : Int) : ℚ) * pow2 (-22)
        = (M : ℚ) * (((2 ^ d : Nat) : ℚ) * pow2 (-22)) - (K : ℚ) * 2147483648 := by
      rw [e31]; push_cast; ring
    rw [← hN] at h ⊢
    have h2 : ((M * (2 ^ d : Nat) - K * 9007199254740992 : Int) : ℚ) < (9007199254740992 : Int) := by
      have : ((M * (2 ^ d : Nat) - K * 9007199254740992 : Int) : ℚ) * pow2 (-22)
          < ((9007199254740992 : Int) : ℚ) * pow2 (-22) := by rw [← e31]; exact h
      exact lt_of_mul_lt_mul_right this (le_of_lt hp)
    have h3 : (M * (2 ^ d : Nat) - K * 9007199254740992 : Int) ≤ 9007199254740991 := by
      have : (M * (2 ^ d : Nat) - K * 9007199254740992 : Int) < 9007199254740992 := by
        exact_mod_cast h2
      omega
    have h4 : ((M * (2 ^ d : Nat) - K * 9007199254740992 : Int) : ℚ) ≤ (9007199254740991 : Int) := by
      exact_mod_cast h3
    calc ((M * (2 ^ d : Nat) - K * 9007199254740992 : Int) : ℚ) * pow2 (-22)
        ≤ ((9007199254740991 : Int) : ℚ) * pow2 (-22) :=
          mul_le_mul_of_nonneg_right h4 (le_of_lt hp)
      _ = 2147483648 - pow2 (-22) := by rw [e31]; push_cast; ring

/-- One step of the generator from a seed in `[0, 2^31)`: the value is a double in
`[0, 1)`, in fact at most `1 - 2^-53`, and the new seed is again in `[0, 2^31)`. -/
theorem fast_random_spec (s : ℚ) (hs0 : 0 ≤ s) (hs1 : s < 2147483648) :
    ∃ v s' : ℚ, fast_random (.fin s) = (.fin v, .fin s') ∧
      0 ≤ v ∧ v ≤ 1 - pow2 (-53) ∧ 0 ≤ s' ∧ s' < 2147483648 := by
  have hB := pow2_1023_ge
  have e62 : pow2 62 = 4611686018427387904 := by rw [pow2_eq]; norm_num
  have e63 : pow2 63 = 9223372036854775808 := by rw [pow2_eq]; norm_num
  have e30 : pow2 30 = 1073741824 := by rw [pow2_eq]; norm_num
  have e22 : pow2 (-22) = 1 / 4194304 := by rw [pow2_eq]; norm_num
  have e53 : pow2 (-53) = 1 / 9007199254740992 := by rw [pow2_eq]; norm_num
  -- seed * 1103515245.0
  have hx0 : (0 : ℚ) ≤ s * 1103515245 := by positivity
  have hx1 : s * 1103515245 ≤ pow2 62 := by rw [e62]; nlinarith
  have z1_0 := binary64.rq_nonneg hx0
  have z1_1 := rq64_le_pow2 62 (by norm_num) hx1
  set z1 := binary64.rq (s * 1103515245) with hz1
  -- ... + 12345.0
  have hy0 : (12345 : ℚ) ≤ z1 + 12345 := by linarith
  have hy1 : z1 + 12345 ≤ pow2 63 := by rw [e63]; rw [e62] at z1_1; linarith
  have z2_0 : (12345 : ℚ) ≤ binary64.rq (z1 + 12345) := by
    have := rq64_mono hy0
    have e := rq64_int 12345 (by norm_num)
    push_cast at e
    rwa [e] at this
  have z2_1 := rq64_le_pow2 63 (by norm_num) hy1
  have hgap := seed_gap (z1 + 12345) (by linarith) ⌊binary64.rq (z1 + 12345) / 2147483648⌋
  set z2 := binary64.rq (z1 + 12345) with hz2
  -- fmod
  have hk0 := Int.floor_le (z2 / 2147483648)
  have hk1 := Int.lt_floor_add_one (z2 / 2147483648)
  set K := ⌊z2 / 2147483648⌋ with hK
  rw [le_div_iff₀ (by norm_num)] at hk0
  rw [div_lt_iff₀ (by norm_num)] at hk1
  have s'0 : 0 ≤ z2 - (K : ℚ) * 2147483648 := by linarith
  have s'1 : z2 - (K : ℚ) * 2147483648 < 2147483648 := by linarith
  have s'2 : z2 - (K : ℚ) * 2147483648 ≤ 2147483648 - pow2 (-22) := by
    rcases hgap s'1 with h | h
    · exact h
    · have hK0 : K = 0 := by
        rw [hK]
        apply Int.floor_eq_iff.mpr
        constructor
        · simp; positivity
        · rw [div_lt_iff₀ (by norm_num)]; rw [e30] at h; push_cast; linarith
      rw [hK0, e22]; rw [e30] at h; push_cast; linarith
  set s' := z2 - (K : ℚ) * 2147483648 with hs'
  -- the quotient
  have hv0 : (0 : ℚ) ≤ s' / 2147483648 := by positivity
  have hv1 : s' / 2147483648 ≤ 1 - pow2 (-53) := by
    rw [div_le_iff₀ (by norm_num), e53]; rw [e22] at s'2; linarith
  refine ⟨binary64.rq (s' / 2147483648), s', ?_, binary64.rq_nonneg hv0, rq64_below_one hv1,
    s'0, s'1⟩
  unfold fast_random
  simp only [F64.mul, Fmt.mul, F64.add, Fmt.add, F64.div, Fmt.div]
  rw [round64_fin (s * 1103515245)
    (by rw [abs_of_nonneg hx0]; exact le_trans hx1 (pow2_le_pow2 (by norm_num)))]
  simp only []
  rw [round64_fin (binary64.rq (s * 1103515245) + 12345)
    (by rw [abs_of_nonneg (by linarith)]; exact le_trans hy1 (pow2_le_pow2 (by norm_num)))]
  simp only [fmod]
  rw [if_neg (by norm_num), truncQ_nonneg (by positivity)]
  simp only []
  rw [if_neg (by norm_num), round64_fin (s' / 2147483648)
    (by rw [abs_of_nonneg hv0]; rw [e53] at hv1; linarith)]

/-- Scaling a generator value by a count `n >= 1`: the rounded product stays
strictly below `n`. -/
theorem scale_lt (v : ℚ) (n : ℚ) (hv0 : 0 ≤ v) (hv1 : v ≤ 1 - pow2 (-53)) (hn : 1 ≤ n) :
    0 ≤ binary64.rq (v * n) ∧ binary64.rq (v * n) < n := by
  have e53 : pow2 (-53) = 1 / 9007199254740992 := by rw [pow2_eq]; norm_num
  have hx0 : 0 ≤ v * n := by positivity
  refine ⟨binary64.rq_nonneg hx0, ?_⟩
  by_cases hsub : v * n ≤ pow2 (-1022)
  · have := rq64_le_pow2 (-1022) (by norm_num) hsub
    have h1 : pow2 (-1022) < pow2 0 := pow2_lt_pow2 (by norm_num)
    rw [pow2_zero] at h1
    linarith
  · push_neg at hsub
    have := binary64.rq_err_rel (v * n) (by
      show pow2 (-1022) ≤ |v * n|
      rw [abs_of_nonneg hx0]; exact le_of_lt hsub)
    rw [abs_of_nonneg hx0, show ((binary64.prec : Nat) : Int) = 53 from rfl, abs_le, e53] at this
    rw [e53] at hv1
    have h2 : v * n ≤ (1 - 1 / 9007199254740992) * n := mul_le_mul_of_nonneg_right hv1 (by linarith)
    nlinarith [this.2]

/-! ## `random_int` -/

theorem round64_ofInt32 (n : Int) (h0 : -2147483648 ≤ n) (h1 : n < 2147483648) :
    F64.ofInt n = .fin n := by
  unfold F64.ofInt Fmt.ofInt
  apply round64_int
  rw [abs_lt]
  constructor
  · have : (-2147483648 : ℚ) ≤ n := by exact_mod_cast h0
    linarith
  · have : (n : ℚ) < 2147483648 := by exact_mod_cast h1
    linarith

theorem toInt32_fin_nonneg (w : ℚ) (h0 : 0 ≤ w) (h1 : w < 2147483648) :
    (FVal.fin w).toInt32 = ⌊w⌋ := by
  have hf0 : 0 ≤ ⌊w⌋ := Int.floor_nonneg.mpr h0
  have hf1 : ⌊w⌋ < 2147483648 := by
    have : (⌊w⌋ : ℚ) < 2147483648 := lt_of_le_of_lt (Int.floor_le w) h1
    exact_mod_cast this
  simp only [FVal.toInt32, truncQ_nonneg h0]
  rw [if_pos ⟨by omega, hf1⟩]

/-- C7, counterexample: from the seed `0` the draw `random_int(-2^30, 2^30 + 5)`,
whose span `max - min + 1` does not fit an `int`, returns a value below `min`. -/
theorem random_int_span_overflow :
    ((0 : ℚ) ≤ 0 ∧ (0 : ℚ) < 2147483648 ∧ (-1073741824 : Int) ≤ 1073741829) ∧
    (random_int (.fin 0) (-1073741824) 1073741829).1 = -1073754168 ∧
    ¬ ((-1073741824 : Int) ≤ (random_int (.fin 0) (-1073741824) 1073741829).1) := by
  decide!

/-- A draw whose span fits an `int` stays between its bounds. -/
theorem random_int_range (s : ℚ) (lo hi : Int) (hs0 : 0 ≤ s) (hs1 : s < 2147483648)
    (hlo : -2147483648 ≤ lo) (hle : lo ≤ hi) (hhi : hi < 2147483648)
    (hspan : hi - lo + 1 ≤ 2147483647) :
    lo ≤ (random_int (.fin s) lo hi).1 ∧ (random_int (.fin s) lo hi).1 ≤ hi := by
  obtain ⟨v, s', hfr, hv0, hv1, hs'0, hs'1⟩ := fast_random_spec s hs0 hs1
  have hp := pow2_pos (-53)
  have hn1 : (1 : ℚ) ≤ ((hi - lo + 1 : Int) : ℚ) := by exact_mod_cast (by omega : 1 ≤ hi - lo + 1)
  have hn2 : ((hi - lo + 1 : Int) : ℚ) ≤ 2147483647 := by exact_mod_cast hspan
  obtain ⟨w0, w1⟩ := scale_lt v ((hi - lo + 1 : Int) : ℚ) hv0 hv1 hn1
  have hf0 : 0 ≤ ⌊binary64.rq (v * ((hi - lo + 1 : Int) : ℚ))⌋ := Int.floor_nonneg.mpr w0
  have hf1 : ⌊binary64.rq (v * ((hi - lo + 1 : Int) : ℚ))⌋ < hi - lo + 1 := by
    have : (⌊binary64.rq (v * ((hi - lo + 1 : Int) : ℚ))⌋ : ℚ) < ((hi - lo + 1 : Int) : ℚ) :=
      lt_of_le_of_lt (Int.floor_le _) w1
    exact_mod_cast this
  have hval : (random_int (.fin s) lo hi).1
      = lo + ⌊binary64.rq (v * ((hi - lo + 1 : Int) : ℚ))⌋ := by
    unfold random_int
    simp only [hfr]
    rw [wrap32_of_range (hi - lo) (by omega) (by omega),
      wrap32_of_range (hi - lo + 1) (by omega) (by omega),
      round64_ofInt32 (hi - lo + 1) (by omega) (by omega)]
    simp only [F64.mul, Fmt.mul]
    rw [round64_fin _ (by
      rw [abs_of_nonneg (by positivity)]
      have : v * ((hi - lo + 1 : Int) : ℚ) ≤ 1 * 2147483647 :=
        mul_le_mul (by linarith) hn2 (by linarith) (by norm_num)
      have := pow2_1023_ge
      linarith)]
    rw [toInt32_fin_nonneg _ w0 (by linarith)]
    exact wrap32_of_range _ (by omega) (by omega)
  rw [hval]
  omega

/-- C7, amended. For every seed `s` in `[0, 2^31)`, `fast_random` returns a value
in `[0, 1)` and leaves the seed in `[0, 2^31)`; and for all `int` bounds
`lo <= hi` whose span `hi - lo + 1` fits an `int`, `random_int(lo, hi)` returns
`n` with `lo <= n <= hi`. -/
theorem rng_ranges (s : ℚ) (lo hi : Int) (hs0 : 0 ≤ s) (hs1 : s < 2147483648)
    (hlo : -2147483648 ≤ lo) (hle : lo ≤ hi) (hhi : hi < 2147483648)
    (hspan : hi - lo + 1 ≤ 2147483647) :
    (∃ v s' : ℚ, fast_random (.fin s) = (.fin v, .fin s') ∧
      0 ≤ v ∧ v < 1 ∧ 0 ≤ s' ∧ s' < 2147483648) ∧
    lo ≤ (random_int (.fin s) lo hi).1 ∧ (random_int (.fin s) lo hi).1 ≤ hi := by
  obtain ⟨v, s', hfr, hv0, hv1, hs'0, hs'1⟩ := fast_random_spec s hs0 hs1
  have hp := pow2_pos (-53)
  exact ⟨⟨v, s', hfr, hv0, by linarith, hs'0, hs'1⟩,
    random_int_range s lo hi hs0 hs1 hlo hle hhi hspan⟩

theorem rng_ranges_witness :
    ((0 : ℚ) ≤ 0 ∧ (0 : ℚ) < 2147483648 ∧ (-2147483648 : Int) ≤ 0 ∧ (0 : Int) ≤ 100 ∧
      (100 : Int) < 2147483648 ∧ (100 : Int) - 0 + 1 ≤ 2147483647) ∧
    ((∃ v s' : ℚ, fast_random (.fin 0) = (.fin v, .fin s') ∧
      0 ≤ v ∧ v < 1 ∧ 0 ≤ s' ∧ s' < 2147483648) ∧
    0 ≤ (random_int (.fin 0) 0 100).1 ∧ (random_int (.fin 0) 0 100).1 ≤ 100) :=
  ⟨⟨by norm_num, by norm_num, by norm_num, by norm_num, by norm_num, by norm_num⟩,
    rng_ranges 0 0 100 (by norm_num) (by norm_num) (by norm_num) (by norm_num) (by norm_num)
      (by norm_num)⟩

/-! ## `update_animation` -/

theorem fast_random_seedOK (v : FVal) (h : SeedOK v) : SeedOK (fast_random v).2 := by
  obtain ⟨s, rfl, h0, h1⟩ := h
  obtain ⟨v', s', hfr, _, _, a, b⟩ := fast_random_spec s h0 h1
  rw [hfr]
  exact ⟨s', rfl, a, b⟩

theorem F32_ofInt_WIDTH : F32.ofInt WIDTH = .fin 800 := by
  have := F32_ofInt_nat 800 (by norm_num)
  simpa [WIDTH] using this

theorem F32_ofInt_HEIGHT : F32.ofInt HEIGHT = .fin 600 := by
  have := F32_ofInt_nat 600 (by norm_num)
  simpa [HEIGHT] using this

theorem F64_ofInt_WIDTH : F64.ofInt WIDTH = .fin 800 := by
  have := round64_ofInt32 800 (by norm_num) (by norm_num)
  simpa [WIDTH] using this

/-- A flake that starts a tick at `y = 601` with a speed in `[1, 3)` ends it at
`y = -10` with `x` in `[0, 800)`. -/
theorem update_snowflake_wrap (L : Libc) (e : Engine) (i : Nat) (sp : ℚ)
    (hseed : SeedOK e.random_seed)
    (hy : (e.snowflakes i).y = .fin 601) (hsp : (e.snowflakes i).speed = .fin sp)
    (h1 : 1 ≤ sp) (h3 : sp < 3) :
    ∃ e', update_snowflake L (i : Int) e = some e' ∧ (e'.snowflakes i).y = .fin (-10) ∧
      ∃ x : ℚ, (e'.snowflakes i).x = .fin x ∧ 0 ≤ x ∧ x < 800 := by
  obtain ⟨s, hs, hs0, hs1⟩ := hseed
  obtain ⟨v, s', hfr, hv0, hv1, _, _⟩ := fast_random_spec s hs0 hs1
  -- the new height
  have hsum : (602 : ℚ) ≤ 601 + sp := by linarith
  have hy1 : (602 : ℚ) ≤ binary32.rq (601 + sp) := by
    have := rq32_mono hsum
    have e := rq32_int 602 (by norm_num)
    push_cast at e
    rwa [e] at this
  have hadd : F32.add (.fin 601) (.fin sp) = .fin (binary32.rq (601 + sp)) := by
    simp only [F32.add, Fmt.add]
    exact round32_fin _ (by
      rw [abs_of_nonneg (by linarith)]
      have := pow2_127_ge
      linarith)
  have hpast : (F32.ofInt HEIGHT).lt (F32.add (.fin 601) (.fin sp)) = true := by
    rw [F32_ofInt_HEIGHT, hadd]
    simp only [FVal.lt, decide_eq_true_eq]
    linarith
  -- the new abscissa
  obtain ⟨w0, w1⟩ := scale_lt v 800 hv0 hv1 (by norm_num)
  have hx2 : (F64.mul (.fin v) (F64.ofInt WIDTH)).toFloat
      = .fin (binary32.rq (binary64.rq (v * 800))) := by
    rw [F64_ofInt_WIDTH]
    simp only [F64.mul, Fmt.mul]
    rw [round64_fin _ (by
      rw [abs_of_nonneg (by positivity)]
      have : v * 800 ≤ 1 * 800 := mul_le_mul_of_nonneg_right (by
        have := pow2_pos (-53); linarith) (by norm_num)
      have := pow2_1023_ge
      linarith)]
    simp only [FVal.toFloat]
    exact round32_fin _ (by
      rw [abs_of_nonneg w0]
      have := pow2_127_ge
      linarith)
  obtain ⟨x0, x1⟩ := rq32_range (x := binary64.rq (v * 800)) 800 (by norm_num) w0
    (by push_cast; linarith)
  push_cast at x1
  set x2 := binary32.rq (binary64.rq (v * 800)) with hx2def
  refine ⟨_, rfl, ?_, ?_⟩
  · simp only [Int.toNat_ofNat, Function.update_same, hy, hsp, hpast, if_true]
  · simp only [Int.toNat_ofNat, Function.update_same, hy, hsp, hpast, if_true, hs, hfr, hx2]
    have hneg : (FVal.fin x2).lt (.fin 0) = false := by
      simp only [FVal.lt, decide_eq_false_iff_not, not_lt]; exact x0
    rw [hneg]
    simp only [Bool.false_eq_true, if_false, F32_ofInt_WIDTH]
    by_cases hc : (800 : ℚ) ≤ x2
    · have hle : (FVal.fin 800).le (.fin x2) = true := by
        simp only [FVal.le, decide_eq_true_eq]; exact hc
      rw [hle]
      have hx800 : x2 = 800 := le_antisymm x1 hc
      refine ⟨0, ?_, le_refl _, by norm_num⟩
      simp only [if_true, F32.sub, Fmt.sub, FVal.neg, Fmt.add, hx800, add_neg_cancel]
      exact round32_zero
    · have hle : (FVal.fin 800).le (.fin x2) = false := by
        simp only [FVal.le, decide_eq_false_iff_not]; exact hc
      rw [hle]
      push_neg at hc
      exact ⟨x2, by simp, x0, hc⟩

theorem update_snowflake_seedOK (L : Libc) (j : Int) (e e' : Engine)
    (h : update_snowflake L j e = some e') (hs : SeedOK e.random_seed) :
    SeedOK e'.random_seed := by
  unfold update_snowflake at h
  simp only [Option.some.injEq] at h
  subst h
  simp only []
  split_ifs
  · exact fast_random_seedOK _ hs
  · exact hs

theorem update_snowflake_other (L : Libc) (j : Int) (e e' : Engine) (i : Nat)
    (h : update_snowflake L j e = some e') (hne : j.toNat ≠ i) :
    e'.snowflakes i = e.snowflakes i := by
  unfold update_snowflake at h
  simp only [Option.some.injEq] at h
  subst h
  simp only []
  exact Function.update_noteq (Ne.symm hne) _ _

theorem update_snowflake_total (L : Libc) (j : Int) (e : Engine) :
    ∃ e', update_snowflake L j e = some e' := ⟨_, rfl⟩

/-- C6. A snowflake with `y = 601` and a speed in `[1, 3)`, whatever its `x` and
drift, has `y = -10` and `0 <= x < 800` after one `update_animation` tick, for
every seed in `[0, 2^31)`. -/
theorem snowflake_wrap (L : Libc) (e : Engine) (i : Nat) (sp : ℚ) (hi : i < 80)
    (hseed : ∃ s : ℚ, e.random_seed = .fin s ∧ 0 ≤ s ∧ s < 2147483648)
    (hy : (e.snowflakes i).y = .fin 601) (hsp : (e.snowflakes i).speed = .fin sp)
    (h1 : 1 ≤ sp) (h3 : sp < 3) :
    ∃ e', update_animation L e = some e' ∧ (e'.snowflakes i).y = .fin (-10) ∧
      ∃ x : ℚ, (e'.snowflakes i).x = .fin x ∧ 0 ≤ x ∧ x < 800 := by
  let Good : Snowflake → Prop := fun fl =>
    fl.y = .fin (-10) ∧ ∃ x : ℚ, fl.x = .fin x ∧ 0 ≤ x ∧ x < 800
  let P : Int → Engine → Prop := fun j st =>
    SeedOK st.random_seed ∧ (j ≤ i → st.snowflakes i = e.snowflakes i) ∧
      ((i : Int) < j → Good (st.snowflakes i))
  have hstep : ∀ j st, (0 : Int) ≤ j → j < (MAX_SNOWFLAKES : Int) → P j st →
      ∃ st', update_snowflake L j st = some st' ∧ P (j + 1) st' := by
    intro j st hj0 _ ⟨hs, hpre, hpost⟩
    by_cases hji : j = (i : Int)
    · subst hji
      have hfl := hpre le_rfl
      obtain ⟨st', h1', h2', h3'⟩ := update_snowflake_wrap L st i sp hs
        (by rw [hfl]; exact hy) (by rw [hfl]; exact hsp) h1 h3
      exact ⟨st', h1', update_snowflake_seedOK L _ st st' h1' hs, fun h => by omega,
        fun _ => ⟨h2', h3'⟩⟩
    · obtain ⟨st', hst'⟩ := update_snowflake_total L j st
      have hother := update_snowflake_other L j st st' i hst' (by omega)
      refine ⟨st', hst', update_snowflake_seedOK L j st st' hst' hs, ?_, ?_⟩
      · intro h; rw [hother]; exact hpre (by omega)
      · intro h; rw [hother]; exact hpost (by omega)
  obtain ⟨e', he', hP⟩ := forExcl_inv_idx P (update_snowflake L) 0 (MAX_SNOWFLAKES : Int)
    (by decide) { e with frame_count := (e.frame_count + 1) % 4294967296 }
    ⟨hseed, fun _ => rfl, fun h => by omega⟩ hstep
  have := hP.2.2 (by show (i : Int) < ((80 : Nat) : Int); omega)
  exact ⟨e', he', this.1, this.2⟩

theorem snowflake_wrap_witness :
    ((3 : Nat) < 80 ∧
      (∃ s : ℚ, (FVal.fin 12345 : FVal) = .fin s ∧ 0 ≤ s ∧ s < 2147483648) ∧
      (1 : ℚ) ≤ 2 ∧ (2 : ℚ) < 3) ∧
    ∃ e', update_animation ⟨fun _ => .nan, fun _ => .nan, fun _ _ => .nan, fun _ => 0⟩
        ⟨fun _ => 0, 7, .fin 12345, fun _ => ⟨.fin 5, .fin 601, .fin 2, .fin 0, 1⟩,
          fun _ => ⟨0, 0, 0, 0, 0⟩, fun _ => ⟨0, 0, 0, 0, .fin 0⟩⟩ = some e' ∧
      (e'.snowflakes 3).y = .fin (-10) ∧
      ∃ x : ℚ, (e'.snowflakes 3).x = .fin x ∧ 0 ≤ x ∧ x < 800 :=
  ⟨⟨by norm_num, ⟨12345, rfl, by norm_num, by norm_num⟩, by norm_num, by norm_num⟩,
    snowflake_wrap _ _ 3 2 (by norm_num) ⟨12345, rfl, by norm_num, by norm_num⟩ rfl rfl
      (by norm_num) (by norm_num)⟩

/-- C8. One `update_animation` tick returns, increases the frame counter by one
modulo `2^32`, and leaves unchanged the pixel buffer, every light, every
ornament, and the speed, drift and size of every snowflake. -/
theorem update_animation_frame (L : Libc) (e : Engine) :
    ∃ e', update_animation L e = some e' ∧
      e'.frame_count = (e.frame_count + 1) % 4294967296 ∧
      e'.lights = e.lights ∧ e'.ornaments = e.ornaments ∧ e'.shm_data = e.shm_data ∧
      ∀ k, (e'.snowflakes k).speed = (e.snowflakes k).speed ∧
        (e'.snowflakes k).drift = (e.snowflakes k).drift ∧
        (e'.snowflakes k).size = (e.snowflakes k).size := by
  let P : Engine → Prop := fun st =>
    st.frame_count = (e.frame_count + 1) % 4294967296 ∧
      st.lights = e.lights ∧ st.ornaments = e.ornaments ∧ st.shm_data = e.shm_data ∧
      ∀ k, (st.snowflakes k).speed = (e.snowflakes k).speed ∧
        (st.snowflakes k).drift = (e.snowflakes k).drift ∧
        (st.snowflakes k).size = (e.snowflakes k).size
  have hstep : ∀ j st, (0 : Int) ≤ j → j < (MAX_SNOWFLAKES : Int) → P st →
      ∃ st', update_snowflake L j st = some st' ∧ P st' := by
    intro j st _ _ ⟨a, b, c, d, f⟩
    refine ⟨_, rfl, a, b, c, d, ?_⟩
    intro k
    by_cases hk : k = j.toNat
    · subst hk
      simp only [Function.update_same]
      exact f _
    · simp only [Function.update_noteq hk]
      exact f k
  exact forExcl_inv P (update_snowflake L) 0 (MAX_SNOWFLAKES : Int)
    { e with frame_count := (e.frame_count + 1) % 4294967296 }
    ⟨rfl, rfl, rfl, rfl, fun _ => ⟨rfl, rfl, rfl⟩⟩ hstep

/-! ## `draw_hline_gradient` -/

/-- A loop that stores `f x` into cell `base + x` for `n` consecutive `x`. -/
theorem iterate_store (f : Int → Nat) (base : Int) (n : Nat) (lo : Int) (b : Buffer)
    (h0 : 0 ≤ base + lo) (h1 : base + lo + n ≤ 480000) :
    ∃ b', iterate (fun x s => Buffer.store s (base + x) (f x)) n lo b = some b' ∧
      ∀ i : Nat, b' i =
        if base + lo ≤ (i : Int) ∧ (i : Int) < base + lo + n then f ((i : Int) - base) else b i := by
  induction n generalizing lo b with
  | zero =>
    refine ⟨b, rfl, fun i => ?_⟩
    rw [if_neg (by push_cast; omega)]
  | succ k ih =>
    push_cast at h1
    obtain ⟨b', hb', hcell⟩ := ih (lo + 1) (Function.update b (base + lo).toNat (f lo))
      (by omega) (by omega)
    refine ⟨b', ?_, fun i => ?_⟩
    · rw [iterate, store_some b _ _ h0 (by omega)]
      exact hb'
    · rw [hcell i]
      by_cases hi : (i : Int) = base + lo
      · rw [if_neg (by omega), if_pos (by push_cast; omega)]
        have e1 : i = (base + lo).toNat := by omega
        have e2 : (i : Int) - base = lo := by omega
        rw [e2, e1]; simp
      · have hne : i ≠ (base + lo).toNat := by omega
        by_cases hr : base + (lo + 1) ≤ (i : Int) ∧ (i : Int) < base + (lo + 1) + k
        · rw [if_pos hr, if_pos (by push_cast; omega)]
        · rw [if_neg hr, if_neg (by push_cast; omega)]
          simp [Function.update, hne]

theorem F32_div_zero_left (w : Nat) (hw : 0 < w) (hw1 : w < 16777216) :
    F32.div (F32.ofInt 0) (F32.ofInt (w : Int)) = .fin 0 := by
  have e0 := F32_ofInt_nat 0 (by norm_num)
  simp only [Nat.cast_zero] at e0
  rw [e0, F32_ofInt_nat w hw1]
  simp only [F32.div, Fmt.div]
  have : (w : ℚ) ≠ 0 := by positivity
  rw [if_neg this]
  simp only [Nat.cast_zero, zero_div]
  exact round32_zero

theorem F32_div_self (w : Nat) (hw : 0 < w) (hw1 : w < 16777216) :
    F32.div (F32.ofInt (w : Int)) (F32.ofInt (w : Int)) = .fin 1 := by
  rw [F32_ofInt_nat w hw1]
  simp only [F32.div, Fmt.div]
  have : (w : ℚ) ≠ 0 := by positivity
  rw [if_neg this, div_self this]
  exact round32_one

/-- C10. `draw_hline_gradient` returns without indexing outside the buffer; with
`lo = max(0, min(x1, x2))` and `hi = min(799, max(x1, x2))` it changes no cell
outside columns `lo..hi` of row `y`; it changes nothing when `y` is outside
`[0, 600)` or `hi <= lo`; and when `0 <= y < 600` and `lo < hi` the cell
`(lo, y)` becomes `c1` and the cell `(hi, y)` becomes `c2`, alpha forced to `0xFF`. -/
theorem draw_hline_gradient_spec (b : Buffer) (y x1 x2 : Int) (c1 c2 : Nat) :
    ∃ b', draw_hline_gradient b y x1 x2 c1 c2 = some b' ∧
      (∀ i : Nat, ¬ (0 ≤ y ∧ y < 600 ∧ y * 800 + max 0 (min x1 x2) ≤ (i : Int) ∧
          (i : Int) ≤ y * 800 + min 799 (max x1 x2)) → b' i = b i) ∧
      ((y < 0 ∨ 600 ≤ y ∨ min 799 (max x1 x2) ≤ max 0 (min x1 x2)) → b' = b) ∧
      ((0 ≤ y ∧ y < 600 ∧ max 0 (min x1 x2) < min 799 (max x1 x2)) →
        b' (y * 800 + max 0 (min x1 x2)).toNat = 0xFF000000 ||| (c1 &&& 0x00FFFFFF) ∧
        b' (y * 800 + min 799 (max x1 x2)).toNat = 0xFF000000 ||| (c2 &&& 0x00FFFFFF)) := by
  have hlo : (if (if x1 > x2 then x2 else x1) < 0 then 0 else (if x1 > x2 then x2 else x1))
      = max 0 (min x1 x2) := by
    simp only [max_def, min_def]; split_ifs <;> omega
  have hhi : (if (if x1 > x2 then x1 else x2) ≥ WIDTH then WIDTH - 1
      else (if x1 > x2 then x1 else x2)) = min 799 (max x1 x2) := by
    simp only [max_def, min_def, WIDTH]; split_ifs <;> omega
  unfold draw_hline_gradient
  simp only [hlo, hhi]
  set lo := max 0 (min x1 x2) with hlodef
  set hi := min 799 (max x1 x2) with hhidef
  have hlo0 : 0 ≤ lo := le_max_left _ _
  have hhi799 : hi ≤ 799 := min_le_left _ _
  by_cases hy : y < 0 ∨ y ≥ HEIGHT
  · rw [if_pos hy]
    refine ⟨b, rfl, fun _ _ => rfl, fun _ => rfl, fun h => ?_⟩
    unfold HEIGHT at hy; omega
  · rw [if_neg hy]
    unfold HEIGHT at hy
    by_cases hw : hi - lo ≤ 0
    · rw [if_pos hw]
      refine ⟨b, rfl, fun _ _ => rfl, fun _ => rfl, fun h => ?_⟩
      omega
    · rw [if_neg hw]
      unfold forIncl
      rw [if_neg (by omega)]
      obtain ⟨w, hwd⟩ := Int.eq_ofNat_of_zero_le (by omega : 0 ≤ hi - lo)
      obtain ⟨b', hb', hcell⟩ := iterate_store
        (fun x => blend_colors c1 c2 (F32.div (F32.ofInt (x - lo)) (F32.ofInt (hi - lo))))
        (y * WIDTH) (hi + 1 - lo).toNat lo b (by unfold WIDTH; omega) (by unfold WIDTH; omega)
      refine ⟨b', hb', fun i hi' => ?_, fun h => ?_, fun _ => ⟨?_, ?_⟩⟩
      · rw [hcell i, if_neg]
        unfold WIDTH
        omega
      · omega
      · rw [hcell, if_pos (by unfold WIDTH; omega)]
        have : (((y * 800 + lo).toNat : Nat) : Int) - y * WIDTH - lo = 0 := by
          unfold WIDTH; omega
        simp only [this, hwd]
        rw [F32_div_zero_left w (by omega) (by omega)]
        exact blend_colors_at_zero c1 c2
      · rw [hcell, if_pos (by unfold WIDTH; omega)]
        have : (((y * 800 + hi).toNat : Nat) : Int) - y * WIDTH - lo = hi - lo := by
          unfold WIDTH; omega
        simp only [this, hwd]
        rw [F32_div_self w (by omega) (by omega)]
        exact blend_colors_at_one c1 c2

theorem draw_hline_gradient_spec_witness :
    ((0 : Int) ≤ 5 ∧ (5 : Int) < 600 ∧ max (0 : Int) (min 30 10) < min 799 (max 30 10)) ∧
    ∃ b', draw_hline_gradient (fun _ => 0) 5 30 10 0x00102030 0x80405060 = some b' ∧
      (∀ i : Nat, ¬ (0 ≤ (5 : Int) ∧ (5 : Int) < 600 ∧
          (5 : Int) * 800 + max 0 (min 30 10) ≤ (i : Int) ∧
          (i : Int) ≤ 5 * 800 + min 799 (max 30 10)) → b' i = (fun _ => 0) i) ∧
      (((5 : Int) < 0 ∨ 600 ≤ (5 : Int) ∨ min 799 (max 30 10) ≤ max (0 : Int) (min 30 10)) →
        b' = fun _ => 0) ∧
      ((0 ≤ (5 : Int) ∧ (5 : Int) < 600 ∧ max (0 : Int) (min 30 10) < min 799 (max 30 10)) →
        b' ((5 : Int) * 800 + max 0 (min 30 10)).toNat = 0xFF000000 ||| (0x00102030 &&& 0x00FFFFFF) ∧
        b' ((5 : Int) * 800 + min 799 (max 30 10)).toNat
          = 0xFF000000 ||| (0x80405060 &&& 0x00FFFFFF)) :=
  ⟨by decide, draw_hline_gradient_spec (fun _ => 0) 5 30 10 0x00102030 0x80405060⟩

/-! ## Loops whose iterations write disjoint cells -/

/-- When iteration `j` overwrites exactly the cells on which `E j` is defined, and
a cell can only be written by the iteration `owner` names, the run writes each
cell at most once. -/
theorem iterate_owner (body : Int → Buffer → Option Buffer) (E : Int → Nat → Option Nat)
    (owner : Nat → Int) (n : Nat) (lo : Int) (b : Buffer)
    (hbody : ∀ j s, lo ≤ j → j < lo + n → body j s = some (fun i => (E j i).getD (s i)))
    (hown : ∀ j i, lo ≤ j → j < lo + n → E j i ≠ none → owner i = j) :
    iterate body n lo b = some (fun i =>
      if lo ≤ owner i ∧ owner i < lo + n then (E (owner i) i).getD (b i) else b i) := by
  induction n generalizing lo b with
  | zero =>
    rw [iterate]
    congr 1
    funext i
    rw [if_neg (by push_cast; omega)]
  | succ k ih =>
    rw [iterate, hbody lo b le_rfl (by push_cast; omega)]
    simp only [Option.some_bind]
    rw [ih (lo + 1) _ (fun j s h1 h2 => hbody j s (by omega) (by push_cast; omega))
      (fun j i h1 h2 => hown j i (by omega) (by push_cast; omega))]
    congr 1
    funext i
    have hnone : owner i ≠ lo → E lo i = none := by
      intro hne
      by_contra hc
      exact hne (hown lo i le_rfl (by push_cast; omega) hc)
    by_cases h0 : owner i = lo
    · rw [if_neg (by omega), if_pos (by push_cast; omega), h0]
    · by_cases h1 : lo + 1 ≤ owner i ∧ owner i < lo + 1 + k
      · rw [if_pos h1, if_pos (by push_cast; omega), hnone h0]
        simp
      · rw [if_neg h1, if_neg (by push_cast; omega), hnone h0]
        simp

theorem forIncl_owner (body : Int → Buffer → Option Buffer) (E : Int → Nat → Option Nat)
    (owner : Nat → Int) (lo hi : Int) (hhi : hi < 2147483647) (b : Buffer)
    (hbody : ∀ j s, lo ≤ j → j ≤ hi → body j s = some (fun i => (E j i).getD (s i)))
    (hown : ∀ j i, lo ≤ j → j ≤ hi → E j i ≠ none → owner i = j) :
    forIncl lo hi body b = some (fun i =>
      if lo ≤ owner i ∧ owner i ≤ hi then (E (owner i) i).getD (b i) else b i) := by
  unfold forIncl
  rw [if_neg (by omega)]
  rw [iterate_owner body E owner _ lo b (fun j s h1 h2 => hbody j s h1 (by omega))
    (fun j i h1 h2 => hown j i h1 (by omega))]
  congr 1
  funext i
  by_cases h : lo ≤ owner i ∧ owner i ≤ hi
  · rw [if_pos h, if_pos (by omega)]
  · rw [if_neg h, if_neg (by omega)]

/-! ## `draw_3d_sphere` -/

theorem sphere_pixel_eq (L : Libc) (cx cy radius : Int) (base_color : Nat) (dy dx : Int)
    (s : Buffer) :
    (if (dist_of dx dy).le (F32.ofInt radius) then
        put_pixel s (wrap32 (cx + dx)) (wrap32 (cy + dy)) (sphere_color L radius base_color dx dy)
      else some s)
    = some (fun i => (sphere_write L cx cy radius base_color dy dx i).getD (s i)) := by
  unfold sphere_write
  by_cases hc : (dist_of dx dy).le (F32.ofInt radius) = true
  · rw [if_pos hc, put_pixel_eq]
    congr 1
    funext i
    by_cases hb : 0 ≤ wrap32 (cx + dx) ∧ wrap32 (cx + dx) < 800 ∧
        0 ≤ wrap32 (cy + dy) ∧ wrap32 (cy + dy) < 600
    · rw [if_pos hb]
      by_cases hi : i = (wrap32 (cy + dy) * 800 + wrap32 (cx + dx)).toNat
      · rw [if_pos ⟨hc, hb, hi⟩, hi]; simp
      · rw [if_neg (fun h => hi h.2.2)]
        simp [Function.update, hi]
    · rw [if_neg hb, if_neg (fun h => hb h.2.1)]
      simp
  · rw [if_neg hc]
    congr 1
    funext i
    rw [if_neg (fun h => hc h.1)]
    simp

/-- The cells after `draw_3d_sphere`, for a radius and a centre in the range of
`int`: the cell `(px, py)` holds the shaded colour when its offset from the
centre passes the disc test of the code, and its old content otherwise. -/
theorem draw_3d_sphere_cells (L : Libc) (b : Buffer) (cx cy radius : Int) (base_color : Nat)
    (hr0 : 0 ≤ radius) (hr1 : radius < 1073741824)
    (hcx0 : -2147483648 ≤ cx) (hcx1 : cx < 2147483648)
    (hcy0 : -2147483648 ≤ cy) (hcy1 : cy < 2147483648) :
    ∃ b', draw_3d_sphere L b cx cy radius base_color = some b' ∧
      ∀ px py : Int, 0 ≤ px → px < 800 → 0 ≤ py → py < 600 →
        b' (py * 800 + px).toNat =
          if (-radius ≤ px - cx ∧ px - cx ≤ radius ∧ -radius ≤ py - cy ∧ py - cy ≤ radius) ∧
              (dist_of (px - cx) (py - cy)).le (F32.ofInt radius) = true
          then sphere_color L radius base_color (px - cx) (py - cy)
          else b (py * 800 + px).toNat := by
  have hneg : wrap32 (-radius) = -radius := wrap32_of_range _ (by omega) (by omega)
  -- one row
  have hrow : ∀ dy s, -radius ≤ dy → dy ≤ radius →
      forIncl (-radius) radius (fun dx s =>
        if (dist_of dx dy).le (F32.ofInt radius) then
          put_pixel s (wrap32 (cx + dx)) (wrap32 (cy + dy))
            (sphere_color L radius base_color dx dy)
        else some s) s
      = some (fun (i : Nat) =>
          (if -radius ≤ (i : Int) - wrap32 (cy + dy) * 800 - cx ∧
              (i : Int) - wrap32 (cy + dy) * 800 - cx ≤ radius
            then sphere_write L cx cy radius base_color dy
              ((i : Int) - wrap32 (cy + dy) * 800 - cx) i else none).getD (s i)) := by
    intro dy s _ _
    rw [forIncl_owner _ (sphere_write L cx cy radius base_color dy)
      (fun (i : Nat) => (i : Int) - wrap32 (cy + dy) * 800 - cx) (-radius) radius (by omega) s
      (fun dx s _ _ => sphere_pixel_eq L cx cy radius base_color dy dx s)]
    · congr 1
      funext i
      by_cases h : -radius ≤ (i : Int) - wrap32 (cy + dy) * 800 - cx ∧
          (i : Int) - wrap32 (cy + dy) * 800 - cx ≤ radius
      · rw [if_pos h, if_pos h]
      · rw [if_neg h, if_neg h]; simp
    · intro dx i h1 h2 hne
      unfold sphere_write at hne
      split_ifs at hne with hcond
      · obtain ⟨_, hb, hi⟩ := hcond
        have hw : wrap32 (cx + dx) = cx + dx := by
          unfold wrap32 at hb ⊢; omega
        rw [hi, hw]
        omega
      · exact absurd rfl hne
  unfold draw_3d_sphere
  rw [hneg]
  rw [forIncl_owner _ (fun dy (i : Nat) =>
      if -radius ≤ (i : Int) - wrap32 (cy + dy) * 800 - cx ∧
          (i : Int) - wrap32 (cy + dy) * 800 - cx ≤ radius
        then sphere_write L cx cy radius base_color dy
          ((i : Int) - wrap32 (cy + dy) * 800 - cx) i else none)
    (fun (i : Nat) => (i : Int) / 800 - cy) (-radius) radius (by omega) b
    (fun dy s h1 h2 => hrow dy s h1 h2)]
  · refine ⟨_, rfl, ?_⟩
    intro px py hpx0 hpx1 hpy0 hpy1
    have hi : (((py * 800 + px).toNat : Nat) : Int) = py * 800 + px := by omega
    have hdiv : (py * 800 + px) / 800 = py := by omega
    simp only [hi, hdiv]
    have hwy : wrap32 (cy + (py - cy)) = py := by
      rw [show cy + (py - cy) = py by ring]
      exact wrap32_of_range _ (by omega) (by omega)
    have hwx : wrap32 (cx + (px - cx)) = px := by
      rw [show cx + (px - cx) = px by ring]
      exact wrap32_of_range _ (by omega) (by omega)
    have hox : py * 800 + px - py * 800 - cx = px - cx := by ring
    by_cases hy : -radius ≤ py - cy ∧ py - cy ≤ radius
    · rw [if_pos hy, hwy, hox]
      by_cases hx : -radius ≤ px - cx ∧ px - cx ≤ radius
      · rw [if_pos hx]
        unfold sphere_write
        rw [hwy, hwx]
        by_cases hd : (dist_of (px - cx) (py - cy)).le (F32.ofInt radius) = true
        · rw [if_pos ⟨hd, ⟨hpx0, hpx1, hpy0, hpy1⟩, rfl⟩, if_pos ⟨⟨hx.1, hx.2, hy.1, hy.2⟩, hd⟩]
          simp
        · rw [if_neg (fun h => hd h.1), if_neg (fun h => hd h.2)]
          simp
      · rw [if_neg hx, if_neg (fun h => hx ⟨h.1.1, h.1.2.1⟩)]
        simp
    · rw [if_neg hy, if_neg (fun h => hy ⟨h.1.2.2.1, h.1.2.2.2⟩)]
  · intro dy i h1 h2 hne
    by_cases hrange : -radius ≤ (i : Int) - wrap32 (cy + dy) * 800 - cx ∧
        (i : Int) - wrap32 (cy + dy) * 800 - cx ≤ radius
    · rw [if_pos hrange] at hne
      unfold sphere_write at hne
      split_ifs at hne with hcond
      · obtain ⟨_, hb, hi⟩ := hcond
        have hw : wrap32 (cy + dy) = cy + dy := by
          unfold wrap32 at hb ⊢; omega
        rw [hw] at hi hb
        show (i : Int) / 800 - cy = dy
        omega
      · exact absurd rfl hne
    · rw [if_neg hrange] at hne
      exact absurd rfl hne

/-! ## Square root -/

theorem isqrtAux_spec (n : Nat) (k r : Nat) (h0 : r * r ≤ n) (h1 : n < (r + 2 ^ k) * (r + 2 ^ k)) :
    isqrtAux n k r * isqrtAux n k r ≤ n ∧
      n < (isqrtAux n k r + 1) * (isqrtAux n k r + 1) := by
  induction k generalizing r with
  | zero => simpa [isqrtAux] using ⟨h0, h1⟩
  | succ j ih =>
    rw [isqrtAux]
    split_ifs with hc
    · apply ih _ hc
      have : r + 2 ^ j + 2 ^ j = r + 2 ^ (j + 1) := by rw [pow_succ]; ring
      rw [this]; exact h1
    · exact ih _ h0 (by omega)

theorem isqrt_spec (n : Nat) : isqrt n * isqrt n ≤ n ∧ n < (isqrt n + 1) * (isqrt n + 1) := by
  unfold isqrt
  apply isqrtAux_spec n _ 0 (by omega)
  rw [Nat.zero_add, ← pow_add]
  rcases Nat.eq_zero_or_pos n with h | h
  · subst h; exact Nat.pos_pow_of_pos _ (by norm_num)
  · have h2 := (nlog2_spec n h).2
    refine lt_of_lt_of_le h2 (Nat.pow_le_pow_right (by norm_num) ?_)
    omega

/-- Upper side of the rounding of `sqrtf`: the argument is at most the square of
the result plus half a unit in the last place. -/
theorem sqrtPos_upper (X : ℚ) (hX : 1 ≤ X) :
    ∃ e : Int, 0 ≤ e ∧ pow2 (2 * e) ≤ X ∧ 0 ≤ sqrtPos X ∧
      X ≤ (sqrtPos X + pow2 (e - 24)) * (sqrtPos X + pow2 (e - 24)) := by
  have hX0 : X ≠ 0 := by linarith
  have hl0 : 0 ≤ ilog2 X := le_ilog2_of_le_abs X 0 hX0 (by
    rw [pow2_zero, abs_of_nonneg (by linarith)]; exact hX)
  have he0 : 0 ≤ ilog2 X / 2 := Int.ediv_nonneg hl0 (by norm_num)
  have hmax : max (ilog2 X / 2) binary32.emin = ilog2 X / 2 :=
    max_eq_left (le_trans (by decide) he0)
  have h2e : pow2 (2 * (ilog2 X / 2)) ≤ X := by
    have h1 := (ilog2_spec X hX0).1
    rw [abs_of_nonneg (by linarith)] at h1
    exact le_trans (pow2_le_pow2 (by omega)) h1
  refine ⟨ilog2 X / 2, he0, h2e, ?_⟩
  unfold sqrtPos
  simp only [hmax]
  set e := ilog2 X / 2
  set q := pow2 (e - 23) with hq
  have hqpos : 0 < q := pow2_pos _
  have hhalf : pow2 (e - 24) = q / 2 := by
    rw [hq, ← pow2_pred]; congr 1; ring
  set y := X / (q * q) with hy
  have hy0 : 0 ≤ y := div_nonneg (by linarith) (by positivity)
  have hfl0 : 0 ≤ ⌊y⌋ := Int.floor_nonneg.mpr hy0
  obtain ⟨_, hup⟩ := isqrt_spec ⌊y⌋.toNat
  set m := isqrt ⌊y⌋.toNat
  have hylt : y < ((m : ℚ) + 1) * ((m : ℚ) + 1) := by
    have h1 : (⌊y⌋ : ℚ) + 1 ≤ ((m : ℚ) + 1) * ((m : ℚ) + 1) := by
      have : ⌊y⌋ + 1 ≤ (((m + 1) * (m + 1) : Nat) : Int) := by omega
      have : ((⌊y⌋ + 1 : Int) : ℚ) ≤ ((((m + 1) * (m + 1) : Nat) : Int) : ℚ) := by
        exact_mod_cast this
      push_cast at this
      exact this
    linarith [Int.lt_floor_add_one y]
  have hm0 : (0 : ℚ) ≤ m := by positivity
  have hX' : X = y * (q * q) := by
    rw [hy]; field_simp
  -- the mantissa chosen
  have key : ∀ m' : Int, (m' = m ∧ y ≤ ((m : ℚ) + 1 / 2) * ((m : ℚ) + 1 / 2)) ∨ m' = m + 1 →
      0 ≤ (m' : ℚ) * q ∧ X ≤ ((m' : ℚ) * q + pow2 (e - 24)) * ((m' : ℚ) * q + pow2 (e - 24)) := by
    intro m' hm'
    rw [hhalf, hX']
    rcases hm' with ⟨h, hle⟩ | h
    · subst h
      refine ⟨by push_cast; positivity, ?_⟩
      push_cast
      have : ((m : ℚ) * q + q / 2) * ((m : ℚ) * q + q / 2)
          = (((m : ℚ) + 1 / 2) * ((m : ℚ) + 1 / 2)) * (q * q) := by ring
      rw [this]
      exact mul_le_mul_of_nonneg_right hle (by positivity)
    · subst h
      refine ⟨by push_cast; positivity, ?_⟩
      push_cast
      have : (((m : ℚ) + 1) * q + q / 2) * (((m : ℚ) + 1) * q + q / 2)
          = (((m : ℚ) + 3 / 2) * ((m : ℚ) + 3 / 2)) * (q * q) := by ring
      rw [this]
      apply mul_le_mul_of_nonneg_right _ (by positivity)
      nlinarith
  split_ifs with h1 h2 h3
  · exact key m (Or.inl ⟨rfl, le_of_lt h1⟩)
  · exact key (m + 1) (Or.inr rfl)
  · exact key m (Or.inl ⟨rfl, not_lt.mp h2⟩)
  · exact key (m + 1) (Or.inr rfl)

/-- Soundness of the disc test for radii up to 4095: an offset that passes it
lies in the disc. -/
theorem dist_le_sound (dx dy r : Int) (hr0 : 0 ≤ r) (hr : r ≤ 4095)
    (hdx0 : -r ≤ dx) (hdx1 : dx ≤ r) (hdy0 : -r ≤ dy) (hdy1 : dy ≤ r)
    (h : (dist_of dx dy).le (F32.ofInt r) = true) : dx * dx + dy * dy ≤ r * r := by
  by_contra hcon
  push_neg at hcon
  have hxx : 0 ≤ dx * dx ∧ dx * dx ≤ 4095 * 4095 := by constructor <;> nlinarith
  have hyy : 0 ≤ dy * dy ∧ dy * dy ≤ 4095 * 4095 := by constructor <;> nlinarith
  have hrr : 0 ≤ r * r ∧ r * r ≤ 4095 * 4095 := by constructor <;> nlinarith
  have hw : wrap32 (wrap32 (dx * dx) + wrap32 (dy * dy)) = dx * dx + dy * dy := by
    rw [wrap32_of_range (dx * dx) (by omega) (by omega),
      wrap32_of_range (dy * dy) (by omega) (by omega)]
    exact wrap32_of_range _ (by omega) (by omega)
  obtain ⟨rn, hrn⟩ := Int.eq_ofNat_of_zero_le hr0
  have hR : F32.ofInt r = .fin (r : ℚ) := by
    rw [hrn]
    have := F32_ofInt_nat rn (by omega)
    simpa using this
  -- the converted sum of squares
  have hd2 : ((r * r + 1 : Int) : ℚ) ≤ ((dx * dx + dy * dy : Int) : ℚ) := by
    exact_mod_cast (by omega : r * r + 1 ≤ dx * dx + dy * dy)
  have hXlow : ((r * r + 1 : Int) : ℚ) ≤ binary32.rq ((dx * dx + dy * dy : Int) : ℚ) := by
    have := rq32_mono hd2
    rwa [rq32_int (r * r + 1) (by
      rw [abs_of_nonneg (by exact_mod_cast (by omega : 0 ≤ r * r + 1))]
      exact_mod_cast (by omega : r * r + 1 < 16777216))] at this
  have hXhigh : binary32.rq ((dx * dx + dy * dy : Int) : ℚ) ≤ pow2 26 := by
    apply rq32_le_pow2 26 (by norm_num)
    rw [pow2_eq]
    have : ((dx * dx + dy * dy : Int) : ℚ) ≤ ((67108864 : Int) : ℚ) := by
      exact_mod_cast (by omega : dx * dx + dy * dy ≤ 67108864)
    norm_num at this ⊢
    exact this
  set X := binary32.rq ((dx * dx + dy * dy : Int) : ℚ) with hXdef
  have hX1 : (1 : ℚ) ≤ X := by
    have : (1 : ℚ) ≤ ((r * r + 1 : Int) : ℚ) := by exact_mod_cast (by omega : 1 ≤ r * r + 1)
    linarith
  have hdist : dist_of dx dy = .fin (sqrtPos X) := by
    unfold dist_of
    rw [hw]
    unfold F32.ofInt Fmt.ofInt
    rw [round32_fin _ (by
      rw [abs_of_nonneg (by exact_mod_cast (by omega : 0 ≤ dx * dx + dy * dy))]
      have : ((dx * dx + dy * dy : Int) : ℚ) ≤ 67108864 := by
        exact_mod_cast (by omega : dx * dx + dy * dy ≤ 67108864)
      have h127 : pow2 26 ≤ pow2 127 := pow2_le_pow2 (by norm_num)
      have e26 : pow2 26 = 67108864 := by rw [pow2_eq]; norm_num
      linarith)]
    simp only [sqrtf]
    rw [if_neg (by linarith), if_neg (by linarith)]
  rw [hdist, hR] at h
  simp only [FVal.le, decide_eq_true_eq] at h
  obtain ⟨e, he0, h2e, hs0, hup⟩ := sqrtPos_upper X hX1
  set s := sqrtPos X
  have hrq : (r : ℚ) ≤ 4095 := by exact_mod_cast hr
  have hr0q : (0 : ℚ) ≤ r := by exact_mod_cast hr0
  have hpe := pow2_pos (e - 24)
  -- the exponent of the root is at most 11
  have hsq : pow2 (2 * e) = pow2 e * pow2 e := by rw [← pow2_add]; congr 1; ring
  have hpe0 := pow2_pos e
  have h24 : pow2 (e - 24) = pow2 e * (1 / 16777216) := by
    have e24 : pow2 (-24) = 1 / 16777216 := by rw [pow2_eq]; norm_num
    rw [show e - 24 = e + -24 by ring, pow2_add, e24]
  have hele : pow2 e ≤ s + pow2 (e - 24) := by
    by_contra hc
    push_neg at hc
    have : (s + pow2 (e - 24)) * (s + pow2 (e - 24)) < pow2 e * pow2 e := by nlinarith
    rw [← hsq] at this
    linarith
  have he11 : e ≤ 11 := by
    by_contra hc
    push_neg at hc
    have : pow2 12 ≤ pow2 e := pow2_le_pow2 (by omega)
    have e12 : pow2 12 = 4096 := by rw [pow2_eq]; norm_num
    rw [h24] at hele
    linarith
  have hq12 : pow2 (e - 24) ≤ 1 / 8192 := by
    have : pow2 (e - 24) ≤ pow2 (-13) := pow2_le_pow2 (by omega)
    have e13 : pow2 (-13) = 1 / 8192 := by rw [pow2_eq]; norm_num
    linarith
  have hfin : (s + pow2 (e - 24)) * (s + pow2 (e - 24)) < (r : ℚ) * r + 1 := by
    have hb : s + pow2 (e - 24) ≤ r + 1 / 8192 := by linarith
    have hb0 : 0 ≤ s + pow2 (e - 24) := by linarith
    calc (s + pow2 (e - 24)) * (s + pow2 (e - 24))
        ≤ ((r : ℚ) + 1 / 8192) * ((r : ℚ) + 1 / 8192) := mul_le_mul hb hb hb0 (by linarith)
      _ < (r : ℚ) * r + 1 := by nlinarith
  push_cast at hXlow
  linarith

/-! ## Opaque colours -/

theorem pack_bounds (r g b : Nat) (hr : r < 256) (hg : g < 256) (hb : b < 256) :
    4278190080 ≤ (0xFF000000 ||| (r <<< 16) ||| (g <<< 8) ||| b) ∧
      (0xFF000000 ||| (r <<< 16) ||| (g <<< 8) ||| b) < 4294967296 := by
  rw [pack_eq_add r g b hr hg hb]
  omega

theorem blend_colors_bounds (c1 c2 : Nat) (ratio : FVal) :
    4278190080 ≤ blend_colors c1 c2 ratio ∧ blend_colors c1 c2 ratio < 4294967296 :=
  pack_bounds _ _ _ (toU8_lt _) (toU8_lt _) (toU8_lt _)

theorem brighten_color_bounds (c : Nat) (factor : FVal) :
    4278190080 ≤ brighten_color c factor ∧ brighten_color c factor < 4294967296 :=
  pack_bounds _ _ _ (toU8_lt _) (toU8_lt _) (toU8_lt _)

theorem darken_color_bounds (c : Nat) (factor : FVal) :
    4278190080 ≤ darken_color c factor ∧ darken_color c factor < 4294967296 :=
  pack_bounds _ _ _ (toU8_lt _) (toU8_lt _) (toU8_lt _)

theorem sphere_color_bounds (L : Libc) (radius : Int) (base_color : Nat) (dx dy : Int) :
    4278190080 ≤ sphere_color L radius base_color dx dy ∧
      sphere_color L radius base_color dx dy < 4294967296 := by
  unfold sphere_color
  simp only []
  split_ifs
  · exact blend_colors_bounds _ _ _
  · exact brighten_color_bounds _ _

/-! ## `draw_3d_sphere` and the disc -/

/-- C9, counterexample: a sphere of radius 4096 centred at `(-4000, 100)` paints
the cell `(96, 101)`, whose offset `(4096, 1)` lies outside the disc:
`sqrtf` of `4096 * 4096 + 1` converted to `float` is `4096`. -/
theorem sphere_paints_outside_disc :
    ((0 : Int) ≤ 4096 ∧ ((96 : Int) - (-4000)) * (96 - (-4000)) + (101 - 100) * (101 - 100)
        > 4096 * 4096) ∧
    ∃ b', draw_3d_sphere ⟨fun _ => .nan, fun _ => .nan, fun _ _ => .nan, fun _ => 0⟩
        (fun _ => 0) (-4000) 100 4096 0xFFFF1744 = some b' ∧
      b' (101 * 800 + 96) ≠ (fun _ => 0 : Buffer) (101 * 800 + 96) := by
  refine ⟨by decide, ?_⟩
  obtain ⟨b', hb', hcell⟩ := draw_3d_sphere_cells
    ⟨fun _ => .nan, fun _ => .nan, fun _ _ => .nan, fun _ => 0⟩ (fun _ => 0) (-4000) 100 4096
    0xFFFF1744 (by norm_num) (by norm_num) (by norm_num) (by norm_num) (by norm_num)
    (by norm_num)
  refine ⟨b', hb', ?_⟩
  have h := hcell 96 101 (by norm_num) (by norm_num) (by norm_num) (by norm_num)
  have hcond : ((-(4096 : Int) ≤ 96 - (-4000) ∧ (96 : Int) - (-4000) ≤ 4096 ∧
      -(4096 : Int) ≤ 101 - 100 ∧ (101 : Int) - 100 ≤ 4096) ∧
      (dist_of (96 - (-4000)) (101 - 100)).le (F32.ofInt 4096) = true) := by
    decide!
  rw [if_pos hcond] at h
  have hidx : ((101 : Int) * 800 + 96).toNat = 101 * 800 + 96 := by decide
  rw [hidx] at h
  rw [h]
  have := (sphere_color_bounds ⟨fun _ => .nan, fun _ => .nan, fun _ _ => .nan, fun _ => 0⟩
    4096 0xFFFF1744 (96 - (-4000)) (101 - 100)).1
  show sphere_color _ 4096 0xFFFF1744 (96 - (-4000)) (101 - 100) ≠ 0
  omega

/-- C9, amended. For every buffer, base colour, centre `(cx, cy)` in the range of
`int` and radius `0 <= r <= 4095`, `draw_3d_sphere` returns and leaves unchanged
every cell `(px, py)` of the buffer whose offset from the centre satisfies
`dx * dx + dy * dy > r * r`; with `r = 0` at most the cell `(cx, cy)` changes. -/
theorem draw_3d_sphere_frame (L : Libc) (b : Buffer) (cx cy r : Int) (base_color : Nat)
    (hr0 : 0 ≤ r) (hr1 : r ≤ 4095)
    (hcx0 : -2147483648 ≤ cx) (hcx1 : cx < 2147483648)
    (hcy0 : -2147483648 ≤ cy) (hcy1 : cy < 2147483648) :
    ∃ b', draw_3d_sphere L b cx cy r base_color = some b' ∧
      ∀ px py : Int, 0 ≤ px → px < 800 → 0 ≤ py → py < 600 →
        (px - cx) * (px - cx) + (py - cy) * (py - cy) > r * r →
        b' (py * 800 + px).toNat = b (py * 800 + px).toNat := by
  obtain ⟨b', hb', hcell⟩ := draw_3d_sphere_cells L b cx cy r base_color hr0 (by omega)
    hcx0 hcx1 hcy0 hcy1
  refine ⟨b', hb', ?_⟩
  intro px py h1 h2 h3 h4 hout
  rw [hcell px py h1 h2 h3 h4, if_neg]
  rintro ⟨⟨a1, a2, a3, a4⟩, hd⟩
  have := dist_le_sound (px - cx) (py - cy) r hr0 hr1 a1 a2 a3 a4 hd
  omega

theorem draw_3d_sphere_frame_witness :
    ((0 : Int) ≤ 0 ∧ (0 : Int) ≤ 4095 ∧ (-2147483648 : Int) ≤ 10 ∧ (10 : Int) < 2147483648 ∧
      (-2147483648 : Int) ≤ 20 ∧ (20 : Int) < 2147483648) ∧
    ∃ b', draw_3d_sphere ⟨fun _ => .nan, fun _ => .nan, fun _ _ => .nan, fun _ => 0⟩
        (fun _ => 7) 10 20 0 0xFFFF1744 = some b' ∧
      ∀ px py : Int, 0 ≤ px → px < 800 → 0 ≤ py → py < 600 →
        (px - 10) * (px - 10) + (py - 20) * (py - 20) > 0 * 0 →
        b' (py * 800 + px).toNat = (fun _ => 7 : Buffer) (py * 800 + px).toNat :=
  ⟨by decide, draw_3d_sphere_frame _ _ 10 20 0 0xFFFF1744 (by norm_num) (by norm_num)
    (by norm_num) (by norm_num) (by norm_num) (by norm_num)⟩

/-! ## Painters keep the buffer opaque -/

theorem opaque_of_range (c : Nat) (h0 : 4278190080 ≤ c) (h1 : c < 4294967296) : Opaque c := by
  unfold Opaque
  rw [and_255, Nat.shiftRight_eq_div_pow]
  omega

theorem blend_colors_isOpaque (c1 c2 : Nat) (r : FVal) : Opaque (blend_colors c1 c2 r) :=
  opaque_of_range _ (blend_colors_bounds c1 c2 r).1 (blend_colors_bounds c1 c2 r).2

theorem brighten_color_isOpaque (c : Nat) (f : FVal) : Opaque (brighten_color c f) :=
  opaque_of_range _ (brighten_color_bounds c f).1 (brighten_color_bounds c f).2

theorem darken_color_isOpaque (c : Nat) (f : FVal) : Opaque (darken_color c f) :=
  opaque_of_range _ (darken_color_bounds c f).1 (darken_color_bounds c f).2

theorem sphere_color_isOpaque (L : Libc) (r : Int) (c : Nat) (dx dy : Int) :
    Opaque (sphere_color L r c dx dy) :=
  opaque_of_range _ (sphere_color_bounds L r c dx dy).1 (sphere_color_bounds L r c dx dy).2

theorem bind_ok {α β : Type} {P : α → Prop} {Q : β → Prop} (f : Option α) (g : α → Option β)
    (hf : ∃ a, f = some a ∧ P a) (hg : ∀ a, P a → ∃ c, g a = some c ∧ Q c) :
    ∃ c, f.bind g = some c ∧ Q c := by
  obtain ⟨a, ha, pa⟩ := hf
  rw [ha]
  exact hg a pa

theorem map_ok {α β : Type} {P : α → Prop} {Q : β → Prop} (f : Option α) (g : α → β)
    (hf : ∃ a, f = some a ∧ P a) (hg : ∀ a, P a → Q (g a)) :
    ∃ c, f.map g = some c ∧ Q c := by
  obtain ⟨a, ha, pa⟩ := hf
  rw [ha]
  exact ⟨g a, rfl, hg a pa⟩

theorem update_allOpaque (b : Buffer) (k c : Nat) (hc : Opaque c) (hb : AllOpaque b) :
    AllOpaque (Function.update b k c) := by
  intro i hi
  by_cases h : i = k
  · subst h; simpa using hc
  · simpa [Function.update, h] using hb i hi

theorem store_ok (b : Buffer) (i : Int) (c : Nat) (h0 : 0 ≤ i) (h1 : i < 480000)
    (hc : Opaque c) (hb : AllOpaque b) : ∃ b', b.store i c = some b' ∧ AllOpaque b' :=
  ⟨_, store_some b i c h0 h1, update_allOpaque b _ c hc hb⟩

theorem put_pixel_ok (b : Buffer) (x y : Int) (c : Nat) (hc : Opaque c) (hb : AllOpaque b) :
    ∃ b', put_pixel b x y c = some b' ∧ AllOpaque b' := by
  refine ⟨_, put_pixel_eq b x y c, ?_⟩
  split_ifs
  · exact update_allOpaque b _ c hc hb
  · exact hb

theorem draw_3d_sphere_ok (L : Libc) (b : Buffer) (cx cy radius : Int) (c : Nat)
    (hr : radius < 2147483647) (hb : AllOpaque b) :
    ∃ b', draw_3d_sphere L b cx cy radius c = some b' ∧ AllOpaque b' := by
  unfold draw_3d_sphere
  apply forIncl_inv AllOpaque _ _ _ hr b hb
  intro dy s _ _ hs
  apply forIncl_inv AllOpaque _ _ _ hr s hs
  intro dx s2 _ _ hs2
  beta_reduce
  split_ifs
  · exact put_pixel_ok _ _ _ _ (sphere_color_isOpaque _ _ _ _ _) hs2
  · exact ⟨s2, rfl, hs2⟩

theorem draw_glow_ok (L : Libc) (b : Buffer) (cx cy radius : Int) (c : Nat) (intensity : FVal)
    (hr : wrap32 (radius * 3) < 2147483647) (hb : AllOpaque b) :
    ∃ b', draw_glow L b cx cy radius c intensity = some b' ∧ AllOpaque b' := by
  unfold draw_glow
  apply forIncl_inv AllOpaque _ _ _ hr b hb
  intro dy s _ _ hs
  apply forIncl_inv AllOpaque _ _ _ hr s hs
  intro dx s2 _ _ hs2
  simp only []
  split_ifs with h1 h2 h3
  · unfold WIDTH HEIGHT at h2
    rw [load_some s2 _ (by unfold WIDTH; omega) (by unfold WIDTH; omega)]
    simp only [Option.some_bind]
    exact store_ok _ _ _ (by unfold WIDTH; omega) (by unfold WIDTH; omega)
      (blend_colors_isOpaque _ _ _) hs2
  · exact ⟨s2, rfl, hs2⟩
  · exact ⟨s2, rfl, hs2⟩
  · exact ⟨s2, rfl, hs2⟩

/-! ### Sky -/

/-- Whatever is or-ed into `0xFF000000`, the alpha byte stays `0xFF`. -/
theorem or_isOpaque (x : Nat) : Opaque (0xFF000000 ||| x) := by
  unfold Opaque
  apply Nat.eq_of_testBit_eq
  intro i
  have h255 : (255 : Nat) = 2 ^ 8 - 1 := by norm_num
  have hFF : (0xFF000000 : Nat) = (2 ^ 8 - 1) <<< 24 := by decide
  rw [hFF]
  simp only [Nat.testBit_lor, Nat.testBit_land, Nat.testBit_shiftLeft, Nat.testBit_shiftRight,
    h255, Nat.testBit_two_pow_sub_one]
  by_cases h : i < 8
  · simp [h]
  · simp [h]

theorem star_color_isOpaque (br : Nat) : Opaque (star_color br) := by
  unfold star_color
  have e : (0xFF000000 : Nat) ||| ((br <<< 16) % 4294967296) ||| ((br <<< 8) % 4294967296) ||| br
      = 0xFF000000 ||| (((br <<< 16) % 4294967296) ||| ((br <<< 8) % 4294967296) ||| br) := by
    simp only [Nat.lor_assoc]
  rw [e]
  exact or_isOpaque _

theorem toU32_lt (v : FVal) : v.toU32 < 4294967296 := by
  unfold FVal.toU32
  split
  · split_ifs
    · unfold wrapU32; omega
    · norm_num
  · norm_num

theorem sky_star_ok (L : Libc) (fc : Nat) (i : Int) (b : Buffer) (hb : AllOpaque b) :
    ∃ b', sky_star L fc i b = some b' ∧ AllOpaque b' := by
  unfold sky_star
  simp only []
  have hc := star_color_isOpaque (star_brightness (star_twinkle L fc i))
  apply bind_ok (P := AllOpaque) _ _ (put_pixel_ok _ _ _ _ hc hb)
  intro b1 hb1
  split_ifs
  · apply bind_ok (P := AllOpaque) _ _ (put_pixel_ok _ _ _ _ (darken_color_isOpaque _ _) hb1)
    intro b2 hb2
    apply bind_ok (P := AllOpaque) _ _ (put_pixel_ok _ _ _ _ (darken_color_isOpaque _ _) hb2)
    intro b3 hb3
    apply bind_ok (P := AllOpaque) _ _ (put_pixel_ok _ _ _ _ (darken_color_isOpaque _ _) hb3)
    intro b4 hb4
    exact put_pixel_ok _ _ _ _ (darken_color_isOpaque _ _) hb4
  · exact ⟨b1, rfl, hb1⟩

/-- The gradient of `render_sky` overwrites every cell with an opaque colour. -/
theorem sky_rows_ok (b : Buffer) :
    ∃ b', forExcl 0 HEIGHT sky_row b = some b' ∧ AllOpaque b' := by
  obtain ⟨b', hb', hP⟩ := forExcl_inv_idx
    (fun (y : Int) (s : Buffer) => ∀ i : Nat, (i : Int) < y * 800 → Opaque (s i))
    sky_row 0 HEIGHT (by decide) b (fun i hi => by omega)
    (fun y s hy0 hy1 hs => by
      unfold HEIGHT at hy1
      unfold sky_row forExcl
      simp only []
      obtain ⟨s', hs', hcell⟩ := iterate_store
        (fun _ => blend_colors 0xFF0a0a2e 0xFF1a1a4e (F32.div (F32.ofInt y) (F32.ofInt HEIGHT)))
        (y * WIDTH) (WIDTH - 0).toNat 0 s (by unfold WIDTH; omega) (by unfold WIDTH; omega)
      refine ⟨s', hs', ?_⟩
      intro i hi
      rw [hcell i]
      split_ifs with hc
      · exact blend_colors_isOpaque _ _ _
      · apply hs i
        unfold WIDTH at hc
        omega)
  refine ⟨b', hb', ?_⟩
  intro i hi
  apply hP i
  unfold HEIGHT
  omega

theorem render_sky_ok (L : Libc) (fc : Nat) (b : Buffer) :
    ∃ b', render_sky L fc b = some b' ∧ AllOpaque b' := by
  unfold render_sky
  apply bind_ok (P := AllOpaque) _ _ (sky_rows_ok b)
  intro b1 hb1
  exact forExcl_inv AllOpaque _ 0 100 b1 hb1 (fun i s _ _ hs => sky_star_ok L fc i s hs)

/-! ### Ground -/

theorem pair_ok (o : Option Buffer) (v : FVal) (h : ∃ b, o = some b ∧ AllOpaque b) :
    ∃ s' : Buffer × FVal, o.map (fun b => (b, v)) = some s' ∧ AllOpaque s'.1 := by
  obtain ⟨b, hb, hP⟩ := h
  exact ⟨(b, v), by rw [hb]; rfl, hP⟩

theorem render_ground_ok (s : Buffer × FVal) (hs : AllOpaque s.1) :
    ∃ s', render_ground s = some s' ∧ AllOpaque s'.1 := by
  unfold render_ground
  apply forExcl_inv (fun s : Buffer × FVal => AllOpaque s.1) _ _ _ s hs
  intro y s1 hy0 hy1 hs1
  apply forExcl_inv (fun s : Buffer × FVal => AllOpaque s.1) _ _ _ s1 hs1
  intro x s2 hx0 hx1 hs2
  unfold ground_pixel
  simp only []
  unfold HEIGHT at hy1
  unfold WIDTH at hx1
  apply pair_ok
  exact store_ok _ _ _ (by unfold WIDTH; omega) (by unfold WIDTH; omega)
    (blend_colors_isOpaque _ _ _) hs2

/-! ### Tree -/

theorem round32_div_unit (n h : Nat) (hh : 0 < h) (hn : n ≤ h) :
    ∃ t : ℚ, binary32.round ((n : ℚ) / (h : ℚ)) = .fin t ∧ 0 ≤ t ∧ t ≤ 1 := by
  have hq : (0 : ℚ) < h := by exact_mod_cast hh
  have h0 : (0 : ℚ) ≤ (n : ℚ) / h := by positivity
  have h1 : (n : ℚ) / h ≤ ((1 : Nat) : ℚ) := by
    rw [div_le_iff₀ hq]; push_cast
    have : (n : ℚ) ≤ h := by exact_mod_cast hn
    linarith
  obtain ⟨a, b⟩ := rq32_range 1 (by norm_num) h0 h1
  refine ⟨_, round32_fin _ ?_, a, by push_cast at b; exact b⟩
  rw [abs_of_nonneg h0]
  push_cast at h1
  have := pow2_127_ge
  linarith

/-- The half-width of a row of a layer lies between `0` and the half-width of the
layer. -/
theorem width_at_range (top_y height half_width y : Int) (hh0 : 0 < height)
    (hh1 : height < 16777216) (hy0 : top_y ≤ y) (hy1 : y < top_y + height)
    (hw0 : 0 ≤ half_width) (hw1 : half_width < 16777216) :
    0 ≤ width_at top_y height half_width y ∧ width_at top_y height half_width y ≤ half_width := by
  obtain ⟨n, hn⟩ := Int.eq_ofNat_of_zero_le (by omega : 0 ≤ y - top_y)
  obtain ⟨h, hh⟩ := Int.eq_ofNat_of_zero_le (le_of_lt hh0)
  obtain ⟨w, hw⟩ := Int.eq_ofNat_of_zero_le hw0
  unfold width_at layer_t
  rw [hn, hh, hw, F32_ofInt_nat n (by omega), F32_ofInt_nat h (by omega),
    F32_ofInt_nat w (by omega)]
  simp only [F32.div, Fmt.div]
  have hne : (h : ℚ) ≠ 0 := by
    have : 0 < h := by omega
    positivity
  rw [if_neg hne]
  obtain ⟨t, ht, t0, t1⟩ := round32_div_unit n h (by omega) (by omega)
  rw [ht]
  simp only [F32.mul, Fmt.mul]
  have hw0q : (0 : ℚ) ≤ w := by positivity
  have hp0 : (0 : ℚ) ≤ t * w := by positivity
  have hp1 : t * w ≤ (w : ℚ) := by
    calc t * w ≤ 1 * w := mul_le_mul_of_nonneg_right t1 hw0q
      _ = w := by ring
  obtain ⟨a, b⟩ := rq32_range w (by omega) hp0 hp1
  have hwq : (w : ℚ) < 16777216 := by exact_mod_cast (by omega : w < 16777216)
  rw [round32_fin _ (by
    rw [abs_of_nonneg hp0]
    have := pow2_127_ge
    linarith)]
  rw [toInt32_fin_nonneg _ a (by linarith)]
  constructor
  · exact Int.floor_nonneg.mpr a
  · have : (⌊binary32.rq (t * w)⌋ : ℚ) ≤ ((w : Int) : ℚ) := by
      push_cast
      exact le_trans (Int.floor_le _) b
    exact_mod_cast this

theorem tree_pixel_ok (y : Int) (t : FVal) (w dx : Int) (s : Buffer × FVal)
    (hy0 : 0 ≤ y) (hy1 : y < 600) (hs : AllOpaque s.1) :
    ∃ s', tree_pixel y t w dx s = some s' ∧ AllOpaque s'.1 := by
  unfold tree_pixel
  simp only []
  by_cases hx : 400 + dx < 0 ∨ 400 + dx ≥ WIDTH
  · rw [if_pos hx]
    exact ⟨s, rfl, hs⟩
  · rw [if_neg hx]
    unfold WIDTH at hx
    apply pair_ok
    apply store_ok _ _ _ (by unfold WIDTH; omega) (by unfold WIDTH; omega) _ hs
    split_ifs <;>
      first
        | (with_reducible exact darken_color_isOpaque _ _)
        | (with_reducible exact brighten_color_isOpaque _ _)

theorem tree_row_ok (top_y height half_width y : Int) (s : Buffer × FVal)
    (hh0 : 0 < height) (hh1 : height < 16777216) (hy0 : top_y ≤ y) (hy1 : y < top_y + height)
    (hw0 : 0 ≤ half_width) (hw1 : half_width < 16777216) (hs : AllOpaque s.1) :
    ∃ s', tree_row top_y height half_width y s = some s' ∧ AllOpaque s'.1 := by
  unfold tree_row
  simp only []
  by_cases hy : y < 0 ∨ y ≥ HEIGHT
  · rw [if_pos hy]
    exact ⟨s, rfl, hs⟩
  · rw [if_neg hy]
    unfold HEIGHT at hy
    obtain ⟨_, hwle⟩ := width_at_range top_y height half_width y hh0 hh1 hy0 hy1 hw0 hw1
    apply forIncl_inv (fun s : Buffer × FVal => AllOpaque s.1) _ _ _ (by omega) s hs
    intro dx s1 _ _ hs1
    exact tree_pixel_ok y _ _ dx s1 (by omega) (by omega) hs1

theorem snow_width_values :
    snow_width 70 = 5 ∧ snow_width 110 = 8 ∧ snow_width 150 = 12 ∧ snow_width 190 = 15 := by
  decide!

theorem snow_cap_pixel_ok (snow_y dx dy : Int) (b : Buffer) (hy0 : 0 ≤ snow_y)
    (hy1 : snow_y ≤ 500) (hdx0 : -15 ≤ dx) (hdx1 : dx ≤ 15) (hdy0 : 0 ≤ dy) (hdy1 : dy < 8)
    (hb : AllOpaque b) :
    ∃ b', snow_cap_pixel snow_y dx dy b = some b' ∧ AllOpaque b' := by
  unfold snow_cap_pixel
  simp only []
  split_ifs
  · rw [load_some b _ (by unfold WIDTH; omega) (by unfold WIDTH; omega)]
    simp only [Option.some_bind]
    exact put_pixel_ok _ _ _ _ (blend_colors_isOpaque _ _ _) hb
  · exact ⟨b, rfl, hb⟩

theorem snow_cap_ok (top_y sw : Int) (b : Buffer) (hy0 : 0 ≤ top_y) (hy1 : top_y ≤ 490)
    (hsw : sw ≤ 15) (hb : AllOpaque b) :
    ∃ b', forIncl (-sw) sw (fun dx b => forExcl 0 8 (snow_cap_pixel (top_y + 10) dx) b) b
      = some b' ∧ AllOpaque b' := by
  apply forIncl_inv AllOpaque _ _ _ (by omega) b hb
  intro dx s hdx0 hdx1 hs
  apply forExcl_inv AllOpaque _ _ _ s hs
  intro dy s1 hdy0 hdy1 hs1
  exact snow_cap_pixel_ok _ dx dy s1 (by omega) (by omega) (by omega) (by omega) hdy0 hdy1 hs1

theorem tree_layer_ok (l : Int × Int × Int) (hl : l ∈ layers) (s : Buffer × FVal)
    (hs : AllOpaque s.1) : ∃ s', tree_layer l s = some s' ∧ AllOpaque s'.1 := by
  obtain ⟨sw70, sw110, sw150, sw190⟩ := snow_width_values
  have hbody : ∀ top_y bottom_y half_width : Int, 0 ≤ top_y → top_y < bottom_y →
      bottom_y ≤ 500 → 0 ≤ half_width → half_width < 16777216 → snow_width half_width ≤ 15 →
      top_y ≤ 490 →
      ∃ s', tree_layer (top_y, bottom_y, half_width) s = some s' ∧ AllOpaque s'.1 := by
    intro top_y bottom_y half_width h0 h1 h2 h3 h4 h5 h6
    unfold tree_layer
    simp only []
    apply bind_ok (P := fun s : Buffer × FVal => AllOpaque s.1)
    · apply forExcl_inv (fun s : Buffer × FVal => AllOpaque s.1) _ _ _ s hs
      intro y s1 hy0 hy1 hs1
      exact tree_row_ok top_y (bottom_y - top_y) half_width y s1 (by omega) (by omega) hy0
        (by omega) h3 h4 hs1
    · intro s1 hs1
      apply pair_ok
      exact snow_cap_ok top_y _ s1.1 h0 h6 h5 hs1
  simp only [layers, List.mem_cons, List.mem_singleton, List.not_mem_nil, or_false] at hl
  rcases hl with rfl | rfl | rfl | rfl
  · exact hbody 120 250 70 (by norm_num) (by norm_num) (by norm_num) (by norm_num) (by norm_num)
      (le_of_eq_of_le sw70 (by norm_num)) (by norm_num)
  · exact hbody 180 330 110 (by norm_num) (by norm_num) (by norm_num) (by norm_num)
      (by norm_num) (le_of_eq_of_le sw110 (by norm_num)) (by norm_num)
  · exact hbody 260 410 150 (by norm_num) (by norm_num) (by norm_num) (by norm_num)
      (by norm_num) (le_of_eq_of_le sw150 (by norm_num)) (by norm_num)
  · exact hbody 340 500 190 (by norm_num) (by norm_num) (by norm_num) (by norm_num)
      (by norm_num) (le_of_eq_of_le sw190 (by norm_num)) (by norm_num)

theorem foldlM_ok {α σ : Type} (P : σ → Prop) (f : σ → α → Option σ) (xs : List α) (s : σ)
    (hs : P s) (hf : ∀ x ∈ xs, ∀ s, P s → ∃ s', f s x = some s' ∧ P s') :
    ∃ s', xs.foldlM f s = some s' ∧ P s' := by
  induction xs generalizing s with
  | nil => exact ⟨s, rfl, hs⟩
  | cons x rest ih =>
    obtain ⟨s1, h1, p1⟩ := hf x (List.mem_cons_self _ _) s hs
    obtain ⟨s2, h2, p2⟩ := ih s1 p1 (fun y hy => hf y (List.mem_cons_of_mem _ hy))
    refine ⟨s2, ?_, p2⟩
    rw [List.foldlM_cons]
    show (f s x).bind _ = _
    rw [h1]
    exact h2

theorem trunk_pixel_ok (L : Libc) (y dx : Int) (s : Buffer × FVal) (hs : AllOpaque s.1) :
    ∃ s', trunk_pixel L y dx s = some s' ∧ AllOpaque s'.1 := by
  unfold trunk_pixel
  simp only []
  apply pair_ok
  apply put_pixel_ok _ _ _ _ _ hs
  split_ifs <;>
    first
      | (with_reducible exact darken_color_isOpaque _ _)
      | (with_reducible exact blend_colors_isOpaque _ _ _)

theorem render_tree_ok (L : Libc) (s : Buffer × FVal) (hs : AllOpaque s.1) :
    ∃ s', render_tree L s = some s' ∧ AllOpaque s'.1 := by
  unfold render_tree
  apply bind_ok (P := fun s : Buffer × FVal => AllOpaque s.1)
  · exact foldlM_ok (fun s : Buffer × FVal => AllOpaque s.1) _ layers s hs
      (fun l hl s1 hs1 => tree_layer_ok l hl s1 hs1)
  · intro s1 hs1
    apply forExcl_inv (fun s : Buffer × FVal => AllOpaque s.1) _ _ _ s1 hs1
    intro y s2 _ _ hs2
    apply forIncl_inv (fun s : Buffer × FVal => AllOpaque s.1) _ _ _ (by norm_num) s2 hs2
    intro dx s3 _ _ hs3
    exact trunk_pixel_ok L y dx s3 hs3

/-! ### Ornaments, lights, star, snow -/

theorem render_ornaments_ok (L : Libc) (ornaments : Nat → Ornament) (b : Buffer)
    (hr : ∀ i : Nat, i < 15 → (ornaments i).radius < 2147483647) (hb : AllOpaque b) :
    ∃ b', render_ornaments L ornaments b = some b' ∧ AllOpaque b' := by
  unfold render_ornaments
  apply forExcl_inv AllOpaque _ _ _ b hb
  intro i s hi0 hi1 hs
  unfold MAX_ORNAMENTS at hi1
  apply bind_ok (P := AllOpaque) _ _
    (draw_3d_sphere_ok L s _ _ _ _ (hr i.toNat (by omega)) hs)
  intro s1 hs1
  apply forExcl_inv AllOpaque _ _ _ s1 hs1
  intro dy s2 _ _ hs2
  unfold string_pixel
  exact put_pixel_ok _ _ _ _ (or_isOpaque 0x444444) hs2

theorem render_light_ok (L : Libc) (fc : Nat) (l : TreeLight) (b : Buffer)
    (hr : wrap32 (l.radius * 3) < 2147483647) (hb : AllOpaque b) :
    ∃ b', render_light L fc l b = some b' ∧ AllOpaque b' := by
  unfold render_light
  simp only []
  split_ifs
  · apply bind_ok (P := AllOpaque) _ _ (draw_glow_ok L b _ _ _ _ _ hr hb)
    intro b1 hb1
    apply forIncl_inv AllOpaque _ _ _ (by norm_num) b1 hb1
    intro dy s _ _ hs
    apply forIncl_inv AllOpaque _ _ _ (by norm_num) s hs
    intro dx s1 _ _ hs1
    unfold light_center_pixel
    split_ifs
    · exact put_pixel_ok _ _ _ _ (blend_colors_isOpaque _ _ _) hs1
    · exact ⟨s1, rfl, hs1⟩
  · exact ⟨b, rfl, hb⟩

theorem render_lights_ok (L : Libc) (fc : Nat) (lights : Nat → TreeLight) (b : Buffer)
    (hr : ∀ i : Nat, i < 50 → wrap32 ((lights i).radius * 3) < 2147483647) (hb : AllOpaque b) :
    ∃ b', render_lights L fc lights b = some b' ∧ AllOpaque b' := by
  unfold render_lights
  apply forExcl_inv AllOpaque _ _ _ b hb
  intro i s hi0 hi1 hs
  unfold MAX_LIGHTS at hi1
  exact render_light_ok L fc _ s (hr i.toNat (by omega)) hs

theorem star_stamp_ok (b : Buffer) (x y : Int) (c : Nat) (hc : Opaque c) (hb : AllOpaque b) :
    ∃ b', star_stamp b x y c = some b' ∧ AllOpaque b' := by
  unfold star_stamp
  apply bind_ok (P := AllOpaque) _ _ (put_pixel_ok _ _ _ _ hc hb)
  intro b1 hb1
  apply bind_ok (P := AllOpaque) _ _ (put_pixel_ok _ _ _ _ hc hb1)
  intro b2 hb2
  apply bind_ok (P := AllOpaque) _ _ (put_pixel_ok _ _ _ _ hc hb2)
  intro b3 hb3
  apply bind_ok (P := AllOpaque) _ _ (put_pixel_ok _ _ _ _ hc hb3)
  intro b4 hb4
  exact put_pixel_ok _ _ _ _ hc hb4

/-- A segment loop started at `t` with a budget that exceeds the number of
increments leading past `1` ends. -/
theorem star_segment_ok (pulse : FVal) (ox oy : Int) (fuel : Nat) :
    ∀ (k : Nat) (t : FVal) (b : Buffer), k < fuel →
      (((fun t => F32.add t (F32.lit (2 / 100)))^[k] t).le (.fin 1)) = false → AllOpaque b →
      ∃ b', star_segment pulse ox oy fuel t b = some b' ∧ AllOpaque b' := by
  induction fuel with
  | zero => intro k _ _ hk; omega
  | succ n ih =>
    intro k t b hk hend hb
    rw [star_segment]
    by_cases hle : t.le (.fin 1) = true
    · rw [if_pos hle]
      cases k with
      | zero =>
        simp only [Function.iterate_zero, id_eq] at hend
        rw [hend] at hle
        exact absurd hle (by decide)
      | succ k' =>
        rw [Function.iterate_succ_apply] at hend
        simp only []
        apply bind_ok (P := AllOpaque) _ _
          (star_stamp_ok b _ _ _ (blend_colors_isOpaque _ _ _) hb)
        intro b1 hb1
        exact ih k' _ b1 (by omega) hend hb1
    · rw [if_neg hle]
      exact ⟨b, rfl, hb⟩

/-- The loop variable of a star segment passes `1` with its 51st increment. -/
theorem star_t_end : (star_t 51).le (.fin 1) = false := by
  decide!

theorem star_point_ok (L : Libc) (pulse : FVal) (angle : Int) (b : Buffer) (hb : AllOpaque b) :
    ∃ b', star_point L pulse angle b = some b' ∧ AllOpaque b' := by
  unfold star_point
  simp only []
  exact star_segment_ok pulse _ _ 64 51 (.fin 0) b (by norm_num) star_t_end hb

theorem render_star_ok (L : Libc) (fc : Nat) (b : Buffer) (hb : AllOpaque b) :
    ∃ b', render_star L fc b = some b' ∧ AllOpaque b' := by
  unfold render_star
  simp only []
  apply bind_ok (P := AllOpaque) _ _ (draw_glow_ok L b _ _ 20 _ _ (by decide) hb)
  intro b1 hb1
  apply bind_ok (P := AllOpaque) _ _
    (forExcl_inv AllOpaque _ 0 5 b1 hb1 (fun i s _ _ hs => star_point_ok L _ i s hs))
  intro b2 hb2
  apply forIncl_inv AllOpaque _ _ _ (by norm_num) b2 hb2
  intro dy s _ _ hs
  apply forIncl_inv AllOpaque _ _ _ (by norm_num) s hs
  intro dx s1 _ _ hs1
  unfold star_center_pixel
  simp only []
  split_ifs
  · exact put_pixel_ok _ _ _ _ (blend_colors_isOpaque _ _ _) hs1
  · exact ⟨s1, rfl, hs1⟩

theorem render_flake_ok (fl : Snowflake) (b : Buffer) (hb : AllOpaque b) :
    ∃ b', render_flake fl b = some b' ∧ AllOpaque b' := by
  have hw : Opaque 0xFFFFFFFF := or_isOpaque 0xFFFFFF
  have hd : Opaque 0xFFCCCCCC := or_isOpaque 0xCCCCCC
  unfold render_flake
  by_cases h1 : fl.size = 1
  · rw [if_pos h1]
    exact put_pixel_ok _ _ _ _ hw hb
  rw [if_neg h1]
  by_cases h2 : fl.size = 2
  · rw [if_pos h2]
    apply bind_ok (P := AllOpaque) _ _ (put_pixel_ok _ _ _ _ hw hb)
    intro b1 hb1
    apply bind_ok (P := AllOpaque) _ _ (put_pixel_ok _ _ _ _ hd hb1)
    intro b2 hb2
    exact put_pixel_ok _ _ _ _ hd hb2
  · rw [if_neg h2]
    apply bind_ok (P := AllOpaque) _ _ (put_pixel_ok _ _ _ _ hw hb)
    intro b1 hb1
    apply bind_ok (P := AllOpaque) _ _ (put_pixel_ok _ _ _ _ hw hb1)
    intro b2 hb2
    apply bind_ok (P := AllOpaque) _ _ (put_pixel_ok _ _ _ _ hw hb2)
    intro b3 hb3
    apply bind_ok (P := AllOpaque) _ _ (put_pixel_ok _ _ _ _ hw hb3)
    intro b4 hb4
    apply bind_ok (P := AllOpaque) _ _ (put_pixel_ok _ _ _ _ hw hb4)
    intro b5 hb5
    apply bind_ok (P := AllOpaque) _ _ (put_pixel_ok _ _ _ _ hd hb5)
    intro b6 hb6
    apply bind_ok (P := AllOpaque) _ _ (put_pixel_ok _ _ _ _ hd hb6)
    intro b7 hb7
    apply bind_ok (P := AllOpaque) _ _ (put_pixel_ok _ _ _ _ hd hb7)
    intro b8 hb8
    exact put_pixel_ok _ _ _ _ hd hb8

theorem render_snow_ok (snowflakes : Nat → Snowflake) (b : Buffer) (hb : AllOpaque b) :
    ∃ b', render_snow snowflakes b = some b' ∧ AllOpaque b' := by
  unfold render_snow
  exact forExcl_inv AllOpaque _ _ _ b hb (fun i s _ _ hs => render_flake_ok _ s hs)

/-- Whatever the buffer, the counter, the seed and the flakes, a frame rendered
from tame radii returns with every cell opaque. -/
theorem render_frame_ok (L : Libc) (e : Engine) (ht : Tame e) :
    ∃ e', render_frame L e = some e' ∧ AllOpaque e'.shm_data := by
  unfold render_frame
  apply bind_ok (P := AllOpaque) _ _ (render_sky_ok L e.frame_count e.shm_data)
  intro b1 hb1
  apply bind_ok (P := fun s : Buffer × FVal => AllOpaque s.1) _ _
    (render_ground_ok (b1, e.random_seed) hb1)
  intro s2 hs2
  apply bind_ok (P := fun s : Buffer × FVal => AllOpaque s.1) _ _ (render_tree_ok L s2 hs2)
  intro s3 hs3
  apply bind_ok (P := AllOpaque) _ _ (render_ornaments_ok L e.ornaments s3.1 ht.1 hs3)
  intro b4 hb4
  apply bind_ok (P := AllOpaque) _ _ (render_lights_ok L e.frame_count e.lights b4 ht.2 hb4)
  intro b5 hb5
  apply bind_ok (P := AllOpaque) _ _ (render_star_ok L e.frame_count b5 hb5)
  intro b6 hb6
  obtain ⟨b7, hb7, hP⟩ := render_snow_ok e.snowflakes b6 hb6
  exact ⟨{ e with shm_data := b7, random_seed := s3.2 }, by rw [hb7]; rfl, hP⟩

/-! ## Initializers -/

theorem random_int_seed (seed : FVal) (lo hi : Int) :
    (random_int seed lo hi).2 = (fast_random seed).2 := rfl

theorem random_int_seedOK (seed : FVal) (lo hi : Int) (h : SeedOK seed) :
    SeedOK (random_int seed lo hi).2 := by
  rw [random_int_seed]; exact fast_random_seedOK seed h

/-- A value of the generator scaled by a small count and truncated. -/
theorem scaled_draw_range (seed : FVal) (h : SeedOK seed) (n : Nat) (hn0 : 1 ≤ n)
    (hn1 : n ≤ 1000) :
    0 ≤ (F64.mul (fast_random seed).1 (.fin n)).toInt32 ∧
      (F64.mul (fast_random seed).1 (.fin n)).toInt32 < n := by
  obtain ⟨s, rfl, h0, h1⟩ := h
  obtain ⟨v, s', hfr, hv0, hv1, _, _⟩ := fast_random_spec s h0 h1
  rw [hfr]
  have hnq : (1 : ℚ) ≤ n := by exact_mod_cast hn0
  have hnq1 : (n : ℚ) ≤ 1000 := by exact_mod_cast hn1
  obtain ⟨w0, w1⟩ := scale_lt v n hv0 hv1 hnq
  simp only [F64.mul, Fmt.mul]
  rw [round64_fin _ (by
    rw [abs_of_nonneg (by positivity)]
    have hp := pow2_pos (-53)
    have : v * n ≤ 1 * 1000 := mul_le_mul (by linarith) hnq1 (by linarith) (by norm_num)
    have := pow2_1023_ge
    linarith)]
  rw [toInt32_fin_nonneg _ w0 (by linarith)]
  constructor
  · exact Int.floor_nonneg.mpr w0
  · have : (⌊binary64.rq (v * n)⌋ : ℚ) < ((n : Int) : ℚ) := by
      push_cast
      exact lt_of_le_of_lt (Int.floor_le _) w1
    exact_mod_cast this

theorem init_light_radius (j : Int) (e e' : Engine) (h : init_light j e = some e')
    (hs : SeedOK e.random_seed) :
    SeedOK e'.random_seed ∧ 3 ≤ (e'.lights j.toNat).radius ∧ (e'.lights j.toNat).radius ≤ 6 ∧
      ∀ i : Nat, i ≠ j.toNat → e'.lights i = e.lights i := by
  unfold init_light at h
  simp only [Option.some.injEq] at h
  subst h
  have s1 := fast_random_seedOK _ hs
  have s2 := random_int_seedOK _ (wrap32 (-(F32.mul (fast_random e.random_seed).1.toFloat
    (.fin 180)).toInt32)) ((F32.mul (fast_random e.random_seed).1.toFloat (.fin 180)).toInt32) s1
  have s3 := fast_random_seedOK _ s2
  have s4 := random_int_seedOK _ 0 100 s3
  obtain ⟨r0, r1⟩ := scaled_draw_range _ s2 4 (by norm_num) (by norm_num)
  simp only [Nat.cast_ofNat] at r0 r1
  refine ⟨s4, ?_, ?_, ?_⟩
  · simp only [Function.update_same]
    rw [wrap32_of_range _ (by omega) (by omega)]
    omega
  · simp only [Function.update_same]
    rw [wrap32_of_range _ (by omega) (by omega)]
    omega
  · intro i hi
    simp only [Function.update_noteq hi]

theorem init_ornament_radius (j : Int) (e e' : Engine) (h : init_ornament j e = some e')
    (hs : SeedOK e.random_seed) :
    SeedOK e'.random_seed ∧ 8 ≤ (e'.ornaments j.toNat).radius ∧
      (e'.ornaments j.toNat).radius ≤ 12 ∧ e'.lights = e.lights ∧
      ∀ i : Nat, i ≠ j.toNat → e'.ornaments i = e.ornaments i := by
  unfold init_ornament at h
  simp only [Option.some.injEq] at h
  subst h
  have s1 := random_int_seedOK _ 0 4 hs
  have s2 := fast_random_seedOK _ s1
  obtain ⟨s, hseed, h0, h1⟩ := hs
  have hr := random_int_range s 0 4 h0 h1 (by norm_num) (by norm_num) (by norm_num) (by norm_num)
  rw [← hseed] at hr
  refine ⟨s2, ?_, ?_, rfl, ?_⟩
  · simp only [Function.update_same]
    rw [wrap32_of_range _ (by omega) (by omega)]
    omega
  · simp only [Function.update_same]
    rw [wrap32_of_range _ (by omega) (by omega)]
    omega
  · intro i hi
    simp only [Function.update_noteq hi]

theorem init_light_total (j : Int) (e : Engine) : ∃ e', init_light j e = some e' := ⟨_, rfl⟩

theorem init_ornament_total (j : Int) (e : Engine) : ∃ e', init_ornament j e = some e' :=
  ⟨_, rfl⟩

/-- The initializers return, and the state they leave has tame radii: light radii
in `[3, 6]`, ornament radii in `[8, 12]`. -/
theorem init_tame (e0 : Engine) (h : SeedOK e0.random_seed) :
    ∃ e2, (init_lights e0).bind init_ornaments = some e2 ∧
      (∀ i : Nat, i < 50 → 3 ≤ (e2.lights i).radius ∧ (e2.lights i).radius ≤ 6) ∧
      (∀ i : Nat, i < 15 → 8 ≤ (e2.ornaments i).radius ∧ (e2.ornaments i).radius ≤ 12) := by
  obtain ⟨e1, he1, hs1, hl1⟩ := forExcl_inv_idx
    (fun (j : Int) (st : Engine) => SeedOK st.random_seed ∧
      ∀ i : Nat, (i : Int) < j → 3 ≤ (st.lights i).radius ∧ (st.lights i).radius ≤ 6)
    init_light 0 (MAX_LIGHTS : Int) (by decide) e0 ⟨h, fun i hi => by omega⟩
    (fun j st hj0 _ ⟨hs, hprev⟩ => by
      obtain ⟨st', hst'⟩ := init_light_total j st
      obtain ⟨a, b, c, d⟩ := init_light_radius j st st' hst' hs
      refine ⟨st', hst', a, ?_⟩
      intro i hi
      by_cases hij : i = j.toNat
      · rw [hij]; exact ⟨b, c⟩
      · rw [d i hij]; exact hprev i (by omega))
  obtain ⟨e2, he2, hs2, hl2, ho2⟩ := forExcl_inv_idx
    (fun (j : Int) (st : Engine) => SeedOK st.random_seed ∧ st.lights = e1.lights ∧
      ∀ i : Nat, (i : Int) < j → 8 ≤ (st.ornaments i).radius ∧ (st.ornaments i).radius ≤ 12)
    init_ornament 0 (MAX_ORNAMENTS : Int) (by decide) e1 ⟨hs1, rfl, fun i hi => by omega⟩
    (fun j st hj0 _ ⟨hs, hlights, hprev⟩ => by
      obtain ⟨st', hst'⟩ := init_ornament_total j st
      obtain ⟨a, b, c, d, f⟩ := init_ornament_radius j st st' hst' hs
      refine ⟨st', hst', a, d.trans hlights, ?_⟩
      intro i hi
      by_cases hij : i = j.toNat
      · rw [hij]; exact ⟨b, c⟩
      · rw [f i hij]; exact hprev i (by omega))
  refine ⟨e2, ?_, ?_, ?_⟩
  · unfold init_lights
    rw [he1, Option.some_bind]
    unfold init_ornaments
    exact he2
  · intro i hi
    rw [hl2]
    exact hl1 i (by show (i : Int) < ((50 : Nat) : Int); omega)
  · intro i hi
    exact ho2 i (by show (i : Int) < ((15 : Nat) : Int); omega)

theorem tame_of_ranges (e : Engine)
    (hl : ∀ i : Nat, i < 50 → 3 ≤ (e.lights i).radius ∧ (e.lights i).radius ≤ 6)
    (ho : ∀ i : Nat, i < 15 → 8 ≤ (e.ornaments i).radius ∧ (e.ornaments i).radius ≤ 12) :
    Tame e := by
  constructor
  · intro i hi
    have := ho i hi
    omega
  · intro i hi
    have := hl i hi
    unfold wrap32
    omega

/-! ## The frame -/

/-- C2. From lights and ornaments produced by the initializers (run from any seed
in `[0, 2^31)`), with any snowflakes, frame counter, seed and buffer contents,
`render_frame` returns: none of its buffer reads and writes, the unguarded ones
included, leaves the cells `0 .. 800 * 600 - 1` (an access outside them makes
the embedded frame `none`). -/
theorem render_frame_in_bounds (L : Libc) (e0 : Engine) (snow : Nat → Snowflake) (fc : Nat)
    (seed : FVal) (buf : Buffer) (h : SeedOK e0.random_seed) :
    ∃ e2, (init_lights e0).bind init_ornaments = some e2 ∧
      ∃ e', render_frame L
        { e2 with shm_data := buf, frame_count := fc, random_seed := seed, snowflakes := snow }
          = some e' := by
  obtain ⟨e2, he2, hl, ho⟩ := init_tame e0 h
  refine ⟨e2, he2, ?_⟩
  obtain ⟨e', he', _⟩ := render_frame_ok L
    { e2 with shm_data := buf, frame_count := fc, random_seed := seed, snowflakes := snow }
    (tame_of_ranges _ hl ho)
  exact ⟨e', he'⟩

theorem render_frame_in_bounds_witness :
    SeedOK (FVal.fin 12345) ∧
    ∃ e2, (init_lights ⟨fun _ => 0, 0, .fin 12345, fun _ => ⟨.nan, .nan, .nan, .nan, 0⟩,
        fun _ => ⟨0, 0, 0, 0, 0⟩, fun _ => ⟨0, 0, 0, 0, .nan⟩⟩).bind init_ornaments = some e2 ∧
      ∃ e', render_frame ⟨fun _ => .nan, fun _ => .nan, fun _ _ => .nan, fun _ => 0⟩
        { e2 with
          shm_data := fun _ => 0
          frame_count := 7
          random_seed := .nan
          snowflakes := fun _ => ⟨.fin 5, .inf false, .nan, .nan, 3⟩ } = some e' :=
  ⟨⟨12345, rfl, by norm_num, by norm_num⟩,
    render_frame_in_bounds _ ⟨fun _ => 0, 0, .fin 12345, fun _ => ⟨.nan, .nan, .nan, .nan, 0⟩,
        fun _ => ⟨0, 0, 0, 0, 0⟩, fun _ => ⟨0, 0, 0, 0, .nan⟩⟩ _ 7 .nan (fun _ => 0)
      ⟨12345, rfl, by norm_num, by norm_num⟩⟩

/-! ## Star-field brightness -/

theorem rq32_half : binary32.rq (1 / 2) = 1 / 2 := by
  have := binary32.rq_pow2 (by decide) (-1) (by decide)
  have e : pow2 (-1) = 1 / 2 := by rw [pow2_eq]; norm_num
  rwa [e] at this

/-- When the sine of its argument is a value of `[-1, 1]` the brightness of a star
is at most 255. -/
theorem star_brightness_of_sin (L : Libc) (fc : Nat) (i : Int) (q : ℚ)
    (hq : L.sinf (F32.add (F32.mul (F32.ofInt fc) (F32.lit (1 / 10)))
      (F32.mul (F32.ofInt i) (.fin (1 / 2)))) = .fin q) (q0 : -1 ≤ q) (q1 : q ≤ 1) :
    star_brightness (star_twinkle L fc i) ≤ 255 := by
  have hB := pow2_127_ge
  unfold star_brightness star_twinkle
  rw [hq]
  -- sinf(...) * 0.5f
  have ha1 : binary32.rq (q * (1 / 2)) ≤ 1 / 2 := by
    have := rq32_mono (show q * (1 / 2) ≤ 1 / 2 by linarith)
    rwa [rq32_half] at this
  have ha0 : -(1 / 2) ≤ binary32.rq (q * (1 / 2)) := by
    have := rq32_mono (show -(1 / 2) ≤ q * (1 / 2) by linarith)
    rwa [binary32.rq_neg, rq32_half] at this
  have hm : F32.mul (.fin q) (.fin (1 / 2)) = .fin (binary32.rq (q * (1 / 2))) := by
    simp only [F32.mul, Fmt.mul]
    exact round32_fin _ (by rw [abs_le]; constructor <;> linarith)
  rw [hm]
  set a := binary32.rq (q * (1 / 2))
  -- ... + 0.5f
  obtain ⟨t0, t1⟩ := rq32_range (x := a + 1 / 2) 1 (by norm_num) (by linarith)
    (by push_cast; linarith)
  push_cast at t1
  have ht : F32.add (.fin a) (.fin (1 / 2)) = .fin (binary32.rq (a + 1 / 2)) := by
    simp only [F32.add, Fmt.add]
    exact round32_fin _ (by rw [abs_le]; constructor <;> linarith)
  rw [ht]
  set t := binary32.rq (a + 1 / 2)
  -- 55 * twinkle
  have hp0 : (0 : ℚ) ≤ 55 * t := by positivity
  obtain ⟨m0, m1⟩ := rq32_range (x := 55 * t) 55 (by norm_num) hp0 (by push_cast; linarith)
  push_cast at m1
  have hmul : F32.mul (.fin 55) (.fin t) = .fin (binary32.rq (55 * t)) := by
    simp only [F32.mul, Fmt.mul]
    exact round32_fin _ (by rw [abs_of_nonneg hp0]; linarith)
  rw [hmul]
  set m := binary32.rq (55 * t)
  -- 200 + ...
  obtain ⟨z0, z1⟩ := rq32_range (x := 200 + m) 255 (by norm_num) (by linarith)
    (by push_cast; linarith)
  push_cast at z1
  have hadd : F32.add (.fin 200) (.fin m) = .fin (binary32.rq (200 + m)) := by
    simp only [F32.add, Fmt.add]
    exact round32_fin _ (by rw [abs_of_nonneg (by linarith)]; linarith)
  rw [hadd]
  set z := binary32.rq (200 + m)
  have hf0 : 0 ≤ ⌊z⌋ := Int.floor_nonneg.mpr z0
  have hf1 : ⌊z⌋ ≤ 255 := by
    have : (⌊z⌋ : ℚ) ≤ ((255 : Int) : ℚ) := by
      push_cast; exact le_trans (Int.floor_le z) z1
    exact_mod_cast this
  simp only [FVal.toU32, truncQ_nonneg z0]
  rw [if_pos (by omega)]
  unfold wrapU32
  omega

/-! ## Brightening -/

theorem fmin_255_fin (q : ℚ) : fmin (.fin 255) (.fin q) = if q < 255 then .fin q else .fin 255 := by
  simp only [fmin, FVal.lt, decide_eq_true_eq]

theorem fmin_255_inf : fmin (.fin 255) (.inf false) = .fin 255 := by
  simp [fmin, FVal.lt]

theorem toU8_255 : (FVal.fin 255).toU8 = 255 := by
  have := toU8_fin_nat 255 (by norm_num)
  simpa using this

theorem toNat_floor_of_lt {q : ℚ} (h0 : 0 ≤ q) (h1 : q < 255) : ⌊q⌋.toNat < 255 := by
  have hf0 : 0 ≤ ⌊q⌋ := Int.floor_nonneg.mpr h0
  have hf1 : ⌊q⌋ < 255 := by
    have : (⌊q⌋ : ℚ) < 255 := lt_of_le_of_lt (Int.floor_le q) h1
    exact_mod_cast this
  omega

theorem toNat_floor_of_le {q : ℚ} (h1 : 255 ≤ q) : 255 ≤ ⌊q⌋.toNat := by
  have hf1 : 255 ≤ ⌊q⌋ := Int.le_floor.mpr (by exact_mod_cast h1)
  omega

/-- One channel of `brighten_color`: the product is rounded to binary32 and the
clamped value is truncated. -/
theorem brighten_channel_eq (a : Nat) (ha : a < 256) (f : ℚ) (hf : 0 ≤ f) :
    brighten_channel a (.fin f) = min 255 ⌊binary32.rq ((a : ℚ) * f)⌋.toNat := by
  have hx : 0 ≤ (a : ℚ) * f := mul_nonneg (Nat.cast_nonneg a) hf
  have hr : 0 ≤ binary32.rq ((a : ℚ) * f) := Fmt.rq_nonneg _ hx
  have hmul : F32.mul (F32.ofInt (a : Int)) (.fin f) = binary32.round ((a : ℚ) * f) := by
    rw [F32_ofInt_nat a (by omega)]
    rfl
  unfold brighten_channel
  rw [hmul]
  unfold Fmt.round
  split_ifs with hov
  · have hnot : ¬ ((a : ℚ) * f < 0) := not_lt.mpr hx
    rw [decide_eq_false hnot, fmin_255_inf, toU8_255]
    rw [abs_of_nonneg hr] at hov
    have h255 : (255 : ℚ) ≤ binary32.rq ((a : ℚ) * f) :=
      le_trans (le_trans (by norm_num) (pow2_127_ge)) (le_trans (pow2_le_pow2 (by simp [binary32])) hov)
    have := toNat_floor_of_le h255
    omega
  · rw [fmin_255_fin]
    split_ifs with hlt
    · have hn := toNat_floor_of_lt hr hlt
      have hf0 : 0 ≤ ⌊binary32.rq ((a : ℚ) * f)⌋ := Int.floor_nonneg.mpr hr
      rw [toU8_fin_of_range _ ⌊binary32.rq ((a : ℚ) * f)⌋ hf0 (by omega) (Int.floor_le _)
        (Int.lt_floor_add_one _)]
      omega
    · rw [toU8_255]
      have := toNat_floor_of_le (not_lt.mp hlt)
      omega

/-- The rounding of the product moves the truncated value up by at most one. -/
theorem floor_rq32_near (x : ℚ) (hx : 0 ≤ x) (hb : x < 16777215) :
    ⌊x⌋ ≤ ⌊binary32.rq x⌋ ∧ ⌊binary32.rq x⌋ ≤ ⌊x⌋ + 1 := by
  have hf0 : 0 ≤ ⌊x⌋ := Int.floor_nonneg.mpr hx
  have hfb : (⌊x⌋ : ℚ) < 16777215 := lt_of_le_of_lt (Int.floor_le x) hb
  have e1 : binary32.rq ((⌊x⌋ : Int) : ℚ) = ⌊x⌋ :=
    rq32_int _ (by rw [abs_of_nonneg (by exact_mod_cast hf0)]; linarith)
  have e2 : binary32.rq (((⌊x⌋ + 1 : Int)) : ℚ) = ((⌊x⌋ + 1 : Int) : ℚ) :=
    rq32_int _ (by
      rw [abs_of_nonneg (by exact_mod_cast (by omega : (0 : Int) ≤ ⌊x⌋ + 1))]
      push_cast; linarith)
  have m1 : ((⌊x⌋ : Int) : ℚ) ≤ binary32.rq x := by
    rw [← e1]; exact rq32_mono (Int.floor_le x)
  have m2 : binary32.rq x ≤ ((⌊x⌋ + 1 : Int) : ℚ) := by
    rw [← e2]; exact rq32_mono (by push_cast; exact le_of_lt (Int.lt_floor_add_one x))
  refine ⟨Int.le_floor.mpr m1, ?_⟩
  have : (⌊binary32.rq x⌋ : ℚ) ≤ ((⌊x⌋ + 1 : Int) : ℚ) := le_trans (Int.floor_le _) m2
  exact_mod_cast this

theorem brighten_channel_near (a : Nat) (ha : a < 256) (f : ℚ) (hf : 0 ≤ f) :
    min 255 ⌊(a : ℚ) * f⌋.toNat ≤ brighten_channel a (.fin f) ∧
      brighten_channel a (.fin f) ≤ min 255 ⌊(a : ℚ) * f⌋.toNat + 1 ∧
      brighten_channel a (.fin f) ≤ 255 := by
  have hx : 0 ≤ (a : ℚ) * f := mul_nonneg (Nat.cast_nonneg a) hf
  rw [brighten_channel_eq a ha f hf]
  by_cases hb : (a : ℚ) * f < 16777215
  · obtain ⟨h1, h2⟩ := floor_rq32_near _ hx hb
    have hf0 : 0 ≤ ⌊(a : ℚ) * f⌋ := Int.floor_nonneg.mpr hx
    omega
  · have hb2 : (255 : ℚ) ≤ (a : ℚ) * f := by linarith [not_lt.mp hb]
    have h1 := toNat_floor_of_le hb2
    have h3 : (255 : ℚ) ≤ binary32.rq ((a : ℚ) * f) := by
      have e : binary32.rq ((255 : Int) : ℚ) = ((255 : Int) : ℚ) := rq32_int 255 (by norm_num)
      have := rq32_mono (x := ((255 : Int) : ℚ)) (y := (a : ℚ) * f) (by push_cast; exact hb2)
      rw [e] at this
      exact_mod_cast this
    have h2 := toNat_floor_of_le h3
    omega

/-- C11, counterexample: with the factor `0.01f` the channel `100` of the colour
`0xFF646464` is brightened to `1`, while `floor(100 * 0.01f)` is `0`. -/
theorem brighten_color_rounds_up :
    F32.lit (1 / 100) = .fin (5368709 / 536870912) ∧
    (0 : ℚ) ≤ 5368709 / 536870912 ∧
    (0xFF646464 >>> 16) &&& 0xFF = 100 ∧
    (brighten_color 0xFF646464 (.fin (5368709 / 536870912)) >>> 16) &&& 0xFF = 1 ∧
    min 255 ⌊((100 : Nat) : ℚ) * (5368709 / 536870912)⌋.toNat = 0 := by
  decide!

/-- C11, amended. For every colour `c` and every finite factor `f >= 0` the
result of `brighten_color(c, f)` has alpha `0xFF`, and each of its red, green and
blue channels is `min(255, floor(p))` where `p` is the product `ch * f` rounded
to binary32; that value is `min(255, floor(ch * f))` or one more, and never
exceeds 255. -/
theorem brighten_color_rounded (c : Nat) (f : ℚ) (hf : 0 ≤ f) :
    ((brighten_color c (.fin f)) >>> 24) &&& 0xFF = 0xFF ∧
    ∀ sh ∈ [16, 8, 0],
      ((brighten_color c (.fin f)) >>> sh) &&& 0xFF
          = min 255 ⌊binary32.rq ((((c >>> sh) &&& 0xFF : Nat) : ℚ) * f)⌋.toNat ∧
      min 255 ⌊(((c >>> sh) &&& 0xFF : Nat) : ℚ) * f⌋.toNat
          ≤ ((brighten_color c (.fin f)) >>> sh) &&& 0xFF ∧
      ((brighten_color c (.fin f)) >>> sh) &&& 0xFF
          ≤ min 255 ⌊(((c >>> sh) &&& 0xFF : Nat) : ℚ) * f⌋.toNat + 1 ∧
      ((brighten_color c (.fin f)) >>> sh) &&& 0xFF ≤ 255 := by
  have hr := toU8_lt (fmin (.fin 255) (F32.mul (F32.ofInt (((c >>> 16) &&& 0xFF : Nat) : Int)) (.fin f)))
  have hg := toU8_lt (fmin (.fin 255) (F32.mul (F32.ofInt (((c >>> 8) &&& 0xFF : Nat) : Int)) (.fin f)))
  have hb := toU8_lt (fmin (.fin 255) (F32.mul (F32.ofInt (((c &&& 0xFF : Nat)) : Int)) (.fin f)))
  have er : ((brighten_color c (.fin f)) >>> 16) &&& 0xFF
      = brighten_channel ((c >>> 16) &&& 0xFF) (.fin f) := pack_red _ _ _ hr hg hb
  have eg : ((brighten_color c (.fin f)) >>> 8) &&& 0xFF
      = brighten_channel ((c >>> 8) &&& 0xFF) (.fin f) := pack_green _ _ _ hr hg hb
  have eb : ((brighten_color c (.fin f)) >>> 0) &&& 0xFF
      = brighten_channel ((c >>> 0) &&& 0xFF) (.fin f) := pack_blue _ _ _ hr hg hb
  refine ⟨pack_alpha _ _ _ hr hg hb, ?_⟩
  intro sh hsh
  simp only [List.mem_cons, List.mem_singleton, List.not_mem_nil, or_false] at hsh
  rcases hsh with rfl | rfl | rfl
  · rw [er]
    exact ⟨brighten_channel_eq _ (and_255_lt _) f hf, brighten_channel_near _ (and_255_lt _) f hf⟩
  · rw [eg]
    exact ⟨brighten_channel_eq _ (and_255_lt _) f hf, brighten_channel_near _ (and_255_lt _) f hf⟩
  · rw [eb]
    exact ⟨brighten_channel_eq _ (and_255_lt _) f hf, brighten_channel_near _ (and_255_lt _) f hf⟩

theorem brighten_color_rounded_witness :
    (0 : ℚ) ≤ 3 / 2 ∧
    (((brighten_color 0xFF6496C8 (.fin (3 / 2))) >>> 24) &&& 0xFF = 0xFF ∧
    ∀ sh ∈ [16, 8, 0],
      ((brighten_color 0xFF6496C8 (.fin (3 / 2))) >>> sh) &&& 0xFF
          = min 255 ⌊binary32.rq ((((0xFF6496C8 >>> sh) &&& 0xFF : Nat) : ℚ) * (3 / 2))⌋.toNat ∧
      min 255 ⌊(((0xFF6496C8 >>> sh) &&& 0xFF : Nat) : ℚ) * (3 / 2)⌋.toNat
          ≤ ((brighten_color 0xFF6496C8 (.fin (3 / 2))) >>> sh) &&& 0xFF ∧
      ((brighten_color 0xFF6496C8 (.fin (3 / 2))) >>> sh) &&& 0xFF
          ≤ min 255 ⌊(((0xFF6496C8 >>> sh) &&& 0xFF : Nat) : ℚ) * (3 / 2)⌋.toNat + 1 ∧
      ((brighten_color 0xFF6496C8 (.fin (3 / 2))) >>> sh) &&& 0xFF ≤ 255) :=
  ⟨by norm_num, brighten_color_rounded 0xFF6496C8 (3 / 2) (by norm_num)⟩

/-! ## Shade of the tree body -/

theorem rq32_one : binary32.rq 1 = 1 := by
  have := rq32_int 1 (by norm_num)
  simpa using this

theorem rq32_two : binary32.rq 2 = 2 := by
  have := rq32_int 2 (by norm_num)
  simpa using this

theorem rq32_neg_one : binary32.rq (-1) = -1 := by
  have := rq32_int (-1) (by norm_num)
  simpa using this

theorem rq32_zero : binary32.rq 0 = 0 := by
  have := rq32_int 0 (by norm_num)
  simpa using this

theorem round32_small (x : ℚ) (h : |x| ≤ 2) : binary32.round x = .fin (binary32.rq x) :=
  round32_fin x (le_trans h (le_trans (by norm_num) pow2_127_ge))

/-- With a divisor `width_at_y >= 1` and `|dx| <= width_at_y` the quotient
`(float)dx / width_at_y` is a finite value of `[-1, 1]` and the shade a finite
value of `[0, 1]`. -/
theorem tree_shade_range (w dx : Int) (hw0 : 1 ≤ w) (hw1 : w < 16777216)
    (h0 : -w ≤ dx) (h1 : dx ≤ w) :
    ∃ q s : ℚ, F32.div (F32.ofInt dx) (F32.ofInt w) = .fin q ∧ -1 ≤ q ∧ q ≤ 1 ∧
      tree_shade dx w = .fin s ∧ 0 ≤ s ∧ s ≤ 1 := by
  have hwq : (1 : ℚ) ≤ (w : ℚ) := by exact_mod_cast hw0
  have hwb : (w : ℚ) < 16777216 := by exact_mod_cast hw1
  have hd0 : -(w : ℚ) ≤ (dx : ℚ) := by exact_mod_cast h0
  have hd1 : (dx : ℚ) ≤ (w : ℚ) := by exact_mod_cast h1
  have hwpos : (0 : ℚ) < w := by linarith
  have ew : F32.ofInt w = .fin (w : ℚ) :=
    round32_int w (by rw [abs_of_nonneg (le_of_lt hwpos)]; exact hwb)
  have ed : F32.ofInt dx = .fin (dx : ℚ) :=
    round32_int dx (by rw [abs_lt]; constructor <;> linarith)
  have q0 : -1 ≤ (dx : ℚ) / w := by rw [le_div_iff₀ hwpos]; linarith
  have q1 : (dx : ℚ) / w ≤ 1 := by rw [div_le_iff₀ hwpos]; linarith
  have r0 : -1 ≤ binary32.rq ((dx : ℚ) / w) := by
    have := rq32_mono q0
    rwa [rq32_neg_one] at this
  have r1 : binary32.rq ((dx : ℚ) / w) ≤ 1 := by
    have := rq32_mono q1
    rwa [rq32_one] at this
  have ediv : F32.div (F32.ofInt dx) (F32.ofInt w) = .fin (binary32.rq ((dx : ℚ) / w)) := by
    rw [ew, ed]
    simp only [F32.div, Fmt.div]
    rw [if_neg (ne_of_gt hwpos)]
    exact round32_small _ (by rw [abs_le]; constructor <;> linarith)
  have a0 : 0 ≤ binary32.rq (binary32.rq ((dx : ℚ) / w) + 1) := by
    have := rq32_mono (x := 0) (y := binary32.rq ((dx : ℚ) / w) + 1) (by linarith)
    rwa [rq32_zero] at this
  have a1 : binary32.rq (binary32.rq ((dx : ℚ) / w) + 1) ≤ 2 := by
    have := rq32_mono (x := binary32.rq ((dx : ℚ) / w) + 1) (y := 2) (by linarith)
    rwa [rq32_two] at this
  have eadd : F32.add (.fin (binary32.rq ((dx : ℚ) / w))) (.fin 1)
      = .fin (binary32.rq (binary32.rq ((dx : ℚ) / w) + 1)) := by
    simp only [F32.add, Fmt.add]
    exact round32_small _ (by rw [abs_le]; constructor <;> linarith)
  have s0 : 0 ≤ binary32.rq (binary32.rq (binary32.rq ((dx : ℚ) / w) + 1) / 2) := by
    have := rq32_mono (x := 0) (y := binary32.rq (binary32.rq ((dx : ℚ) / w) + 1) / 2)
      (by linarith)
    rwa [rq32_zero] at this
  have s1 : binary32.rq (binary32.rq (binary32.rq ((dx : ℚ) / w) + 1) / 2) ≤ 1 := by
    have := rq32_mono (x := binary32.rq (binary32.rq ((dx : ℚ) / w) + 1) / 2) (y := 1)
      (by linarith)
    rwa [rq32_one] at this
  refine ⟨_, _, ediv, r0, r1, ?_, s0, s1⟩
  unfold tree_shade
  rw [ediv, eadd]
  simp only [F32.div, Fmt.div]
  rw [if_neg (by norm_num)]
  exact round32_small _ (by rw [abs_le]; constructor <;> linarith)

/-- The half-width of the row `top_y + n` of a layer, in closed form. -/
theorem width_at_eq (top_y : Int) (n h w : Nat) (hh0 : 0 < h) (hn : n ≤ h) (hh1 : h < 16777216)
    (hw1 : w < 16777216) :
    width_at top_y h w (top_y + n) = ⌊binary32.rq (binary32.rq ((n : ℚ) / h) * w)⌋ := by
  unfold width_at layer_t
  rw [show top_y + (n : Int) - top_y = (n : Int) by ring, F32_ofInt_nat n (by omega),
    F32_ofInt_nat h (by omega), F32_ofInt_nat w (by omega)]
  simp only [F32.div, Fmt.div]
  have hne : (h : ℚ) ≠ 0 := by positivity
  rw [if_neg hne]
  obtain ⟨t, ht, t0, t1⟩ := round32_div_unit n h hh0 hn
  have hw0q : (0 : ℚ) ≤ w := by positivity
  have hq0 : (0 : ℚ) ≤ (n : ℚ) / h := by positivity
  have hq1 : |(n : ℚ) / h| ≤ pow2 127 := by
    rw [abs_of_nonneg hq0, div_le_iff₀ (by positivity)]
    have h1 : (n : ℚ) ≤ h := by exact_mod_cast hn
    have h2 : (1 : ℚ) ≤ pow2 127 := le_trans (by norm_num) pow2_127_ge
    have h3 : (0 : ℚ) ≤ h := by positivity
    nlinarith
  have et : t = binary32.rq ((n : ℚ) / h) := by
    rw [round32_fin _ hq1] at ht
    exact (FVal.fin.inj ht).symm
  subst et
  rw [ht]
  simp only [F32.mul, Fmt.mul]
  have hp0 : (0 : ℚ) ≤ binary32.rq ((n : ℚ) / h) * w := by positivity
  have hp1 : binary32.rq ((n : ℚ) / h) * w ≤ (w : ℚ) := by
    calc binary32.rq ((n : ℚ) / h) * w ≤ 1 * w := mul_le_mul_of_nonneg_right t1 hw0q
      _ = w := by ring
  obtain ⟨a, b⟩ := rq32_range w (by omega) hp0 hp1
  have hwq : (w : ℚ) < 16777216 := by exact_mod_cast (by omega : w < 16777216)
  rw [round32_fin _ (by
    rw [abs_of_nonneg hp0]
    have := pow2_127_ge
    linarith)]
  rw [toInt32_fin_nonneg _ a (by linarith)]

/-- The half-width does not shrink from a row of a layer to a lower one. -/
theorem width_at_mono (top_y : Int) (n m h w : Nat) (hh0 : 0 < h) (hnm : n ≤ m) (hm : m ≤ h)
    (hh1 : h < 16777216) (hw1 : w < 16777216) :
    width_at top_y h w (top_y + n) ≤ width_at top_y h w (top_y + m) := by
  rw [width_at_eq top_y n h w hh0 (le_trans hnm hm) hh1 hw1,
    width_at_eq top_y m h w hh0 hm hh1 hw1]
  apply Int.floor_le_floor
  apply rq32_mono
  apply mul_le_mul_of_nonneg_right _ (by positivity)
  apply rq32_mono
  apply div_le_div_of_nonneg_right _ (by positivity)
  exact_mod_cast hnm

theorem width_at_third_row :
    ∀ l ∈ layers, 1 ≤ width_at l.1 (l.2.1 - l.1) l.2.2 (l.1 + 2) := by
  decide!

/-- The rows of the four layers from the third on have a half-width of at least
one pixel. -/
theorem width_at_pos_rows (top_y bottom_y half_width : Int)
    (hl : (top_y, bottom_y, half_width) ∈ layers) (y : Int) (hy0 : top_y + 2 ≤ y)
    (hy1 : y < bottom_y) : 1 ≤ width_at top_y (bottom_y - top_y) half_width y := by
  have h3 := width_at_third_row _ hl
  simp only [layers, List.mem_cons, Prod.mk.injEq, List.mem_singleton, List.not_mem_nil,
    or_false] at hl
  obtain ⟨n, hn⟩ := Int.eq_ofNat_of_zero_le (by omega : 0 ≤ y - top_y)
  have hy : y = top_y + (n : Int) := by omega
  rw [hy]
  rcases hl with ⟨rfl, rfl, rfl⟩ | ⟨rfl, rfl, rfl⟩ | ⟨rfl, rfl, rfl⟩ | ⟨rfl, rfl, rfl⟩
  · exact le_trans h3 (width_at_mono 120 2 n 130 70 (by norm_num) (by omega) (by omega)
      (by norm_num) (by norm_num))
  · exact le_trans h3 (width_at_mono 180 2 n 150 110 (by norm_num) (by omega) (by omega)
      (by norm_num) (by norm_num))
  · exact le_trans h3 (width_at_mono 260 2 n 150 150 (by norm_num) (by omega) (by omega)
      (by norm_num) (by norm_num))
  · exact le_trans h3 (width_at_mono 340 2 n 160 190 (by norm_num) (by omega) (by omega)
      (by norm_num) (by norm_num))

theorem iterate_one {σ : Type} (body : Int → σ → Option σ) (i : Int) (s : σ) :
    iterate body 1 i s = body i s := by
  simp [iterate]

/-- C14, failing input: in the first row of every layer (and in the second row of
the first two layers) `width_at_y` is `0`, the loop over `dx` runs once with
`dx = 0`, the quotient `(float)dx / width_at_y` is `0.0f / 0.0f`, a NaN, and so is
the shade; the pixel `(400, 120)` is stored as `0xFF000000` whatever the generator
delivers. -/
theorem tree_shade_apex_nan :
    (∀ l ∈ layers, width_at l.1 (l.2.1 - l.1) l.2.2 l.1 = 0) ∧
    (width_at 120 (250 - 120) 70 121 = 0 ∧ width_at 180 (330 - 180) 110 181 = 0) ∧
    F32.div (F32.ofInt 0) (F32.ofInt 0) = .nan ∧
    tree_shade 0 0 = .nan ∧
    (∀ s : Buffer × FVal, tree_row 120 (250 - 120) 70 120 s
        = tree_pixel 120 (layer_t 120 (250 - 120) 120) 0 0 s) ∧
    (∀ s : Buffer × FVal, tree_pixel 120 (layer_t 120 (250 - 120) 120) 0 0 s
        = some (Function.update s.1 96400 0xFF000000, (fast_random s.2).2)) := by
  have hw : width_at 120 (250 - 120) 70 120 = 0 := by decide!
  have hs : tree_shade 0 0 = .nan := by decide!
  refine ⟨by decide!, by decide!, by decide!, hs, ?_, ?_⟩
  · intro s
    unfold tree_row
    simp only [hw]
    rw [if_neg (by decide)]
    unfold forIncl
    rw [if_neg (by decide)]
    exact iterate_one _ _ _
  · intro s
    unfold tree_pixel
    simp only [hs]
    rw [if_neg (by decide)]
    have c0 : (if FVal.nan.lt (F32.lit (3 / 10)) then
          darken_color 0xFF0d5016 (F32.add (F32.lit (7 / 10)) .nan)
        else if (F32.lit (7 / 10)).lt .nan then
          blend_colors 0xFF1a8a2e 0xFF2ecc40 (F32.mul (F32.sub .nan (F32.lit (7 / 10))) (.fin 2))
        else blend_colors 0xFF0d5016 0xFF1a8a2e .nan) = 0xFF000000 := by decide!
    have c1 : brighten_color 0xFF000000
        (F32.sub (.fin 1) (F32.mul (layer_t 120 (250 - 120) 120) (F32.lit (3 / 10))))
          = 0xFF000000 := by decide!
    have c2 : darken_color 0xFF000000 (F32.lit (8 / 10)) = 0xFF000000 := by decide!
    rw [c0, c1, c2, ite_self]
    unfold Buffer.store
    rw [if_pos (by decide)]
    rfl

/-! ## Placement of the lights -/

/-- A `float` of `[0, 1]` scaled by a small constant and truncated. -/
theorem scaled_unit (T : ℚ) (h0 : 0 ≤ T) (h1 : T ≤ 1) (n : Nat) (hn : n < 16777216) :
    (F32.mul (.fin T) (.fin (n : ℚ))).toInt32 = ⌊binary32.rq (T * n)⌋ ∧
      0 ≤ ⌊binary32.rq (T * n)⌋ ∧ ⌊binary32.rq (T * n)⌋ ≤ n := by
  have hn0 : (0 : ℚ) ≤ n := Nat.cast_nonneg n
  have hnq : (n : ℚ) < 16777216 := by exact_mod_cast hn
  have hp0 : 0 ≤ T * n := mul_nonneg h0 hn0
  have hp1 : T * n ≤ n := by
    calc T * n ≤ 1 * n := mul_le_mul_of_nonneg_right h1 hn0
      _ = n := one_mul _
  obtain ⟨a, b⟩ := rq32_range n hn hp0 hp1
  have e : F32.mul (.fin T) (.fin (n : ℚ)) = .fin (binary32.rq (T * n)) := by
    simp only [F32.mul, Fmt.mul]
    exact round32_fin _ (by
      rw [abs_of_nonneg hp0]
      have := pow2_127_ge
      linarith)
  rw [e, toInt32_fin_nonneg _ a (by linarith)]
  refine ⟨rfl, Int.floor_nonneg.mpr a, ?_⟩
  have : (⌊binary32.rq (T * n)⌋ : ℚ) ≤ ((n : Int) : ℚ) := by
    push_cast
    exact le_trans (Int.floor_le _) b
  exact_mod_cast this

/-- The half-width `(int)(t * 180)` stays under the line through the heights
`(int)(t * 350)`: the roundings of the two products cannot lift it over. -/
theorem triangle_key (T : ℚ) (h0 : 0 ≤ T) (h1 : T ≤ 1) :
    35 * ⌊binary32.rq (T * 180)⌋ ≤ 18 * (⌊binary32.rq (T * 350)⌋ + 1) := by
  have e17 : pow2 (8 - 25) = 1 / 131072 := by rw [pow2_eq]; norm_num
  have e16 : pow2 (9 - 25) = 1 / 65536 := by rw [pow2_eq]; norm_num
  have e8 : pow2 8 = 256 := by rw [pow2_eq]; norm_num
  have e9 : pow2 9 = 512 := by rw [pow2_eq]; norm_num
  have hB := rq32_err (T * 180) 8 (by norm_num) (by
    rw [abs_of_nonneg (by positivity), e8]; linarith)
  have hA := rq32_err (T * 350) 9 (by norm_num) (by
    rw [abs_of_nonneg (by positivity), e9]; linarith)
  rw [e17] at hB
  rw [e16] at hA
  have hB1 := (abs_le.mp hB).2
  have hA1 := (abs_le.mp hA).1
  have fB : (⌊binary32.rq (T * 180)⌋ : ℚ) ≤ binary32.rq (T * 180) := Int.floor_le _
  have fA : binary32.rq (T * 350) < (⌊binary32.rq (T * 350)⌋ : ℚ) + 1 := Int.lt_floor_add_one _
  have key : ((35 * ⌊binary32.rq (T * 180)⌋ : Int) : ℚ)
      < ((18 * (⌊binary32.rq (T * 350)⌋ + 1) + 1 : Int) : ℚ) := by
    push_cast
    linarith
  have := Int.cast_lt.mp key
  omega

/-- One light: it is placed in the triangle the initializer spans. -/
theorem init_light_pos (j : Int) (e e' : Engine) (h : init_light j e = some e')
    (hs : SeedOK e.random_seed) :
    130 ≤ (e'.lights j.toNat).y ∧ (e'.lights j.toNat).y ≤ 480 ∧
      35 * |(e'.lights j.toNat).x - 400| ≤ 18 * ((e'.lights j.toNat).y - 129) := by
  obtain ⟨s, hseed, hs0, hs1⟩ := hs
  obtain ⟨v, s', hfr, hv0, hv1, hs'0, hs'1⟩ := fast_random_spec s hs0 hs1
  have hp := pow2_pos (-53)
  have hT0 : 0 ≤ binary32.rq v := Fmt.rq_nonneg _ hv0
  have hT1 : binary32.rq v ≤ 1 := by
    have := rq32_mono (x := v) (y := 1) (by linarith)
    rwa [rq32_one] at this
  have hT : (FVal.fin v).toFloat = .fin (binary32.rq v) := by
    simp only [FVal.toFloat]
    exact round32_fin _ (by
      rw [abs_of_nonneg hv0]
      have := pow2_127_ge
      linarith)
  obtain ⟨ya, yb, yc⟩ := scaled_unit _ hT0 hT1 350 (by norm_num)
  obtain ⟨wa, wb, wc⟩ := scaled_unit _ hT0 hT1 180 (by norm_num)
  have hk := triangle_key _ hT0 hT1
  simp only [Nat.cast_ofNat] at ya yb yc wa wb wc
  unfold init_light at h
  simp only [Option.some.injEq] at h
  subst h
  simp only [Function.update_same]
  rw [hseed, hfr]
  simp only [hT, ya, wa]
  rw [wrap32_of_range (-⌊binary32.rq (binary32.rq v * 180)⌋) (by omega) (by omega)]
  obtain ⟨r0, r1⟩ := random_int_range s' (-⌊binary32.rq (binary32.rq v * 180)⌋)
    ⌊binary32.rq (binary32.rq v * 180)⌋ hs'0 hs'1 (by omega) (by omega) (by omega) (by omega)
  rw [wrap32_of_range (130 + _) (by omega) (by omega),
    wrap32_of_range (400 + _) (by omega) (by omega)]
  refine ⟨by omega, by omega, ?_⟩
  have habs : |400 + (random_int (FVal.fin s') (-⌊binary32.rq (binary32.rq v * 180)⌋)
      ⌊binary32.rq (binary32.rq v * 180)⌋).1 - 400| ≤ ⌊binary32.rq (binary32.rq v * 180)⌋ :=
    abs_le.mpr ⟨by omega, by omega⟩
  omega


/-- C12, failing input: `init_lights` is commented "Position lights within tree
shape", yet from the seed `58` the first light is placed at `(501, 411)`, 101
pixels off the centre, where the only layer holding row 411 is 84 pixels wide
(the body loop of `render_tree` does not store the pixel either).  From the seed
`44961965` the first draw rounds to `1.0f` and the light is placed in row 480,
below the rows `[130, 480)`. -/
theorem init_lights_outside_tree :
    ((0 : ℚ) ≤ 58 ∧ (58 : ℚ) < 2147483648) ∧
    (init_lights (blank_engine (.fin 58))).map (fun e => ((e.lights 0).x, (e.lights 0).y))
      = some (501, 411) ∧
    in_silhouette 501 411 = false ∧ on_tree_body 501 411 = false ∧
    (layers.filter (fun l => decide (l.1 ≤ 411 ∧ 411 < l.2.1))).map (fun l => exact_width l 411)
      = [84] ∧
    ((0 : ℚ) ≤ 44961965 ∧ (44961965 : ℚ) < 2147483648) ∧
    (init_lights (blank_engine (.fin 44961965))).map
      (fun e => ((e.lights 0).x, (e.lights 0).y)) = some (420, 480) ∧
    in_silhouette 420 480 = false := by
  decide!

/-- Where the lights do land: for every seed in `[0, 2^31)` the initializer
`init_lights` returns, and every light `(x, y)` it leaves has `130 <= y <= 480`
and `35 * |x - 400| <= 18 * (y - 129)`, a triangle wider than the tree. -/
theorem init_lights_triangle (e0 : Engine) (h : SeedOK e0.random_seed) :
    ∃ e1, init_lights e0 = some e1 ∧
      ∀ i : Nat, i < 50 → 130 ≤ (e1.lights i).y ∧ (e1.lights i).y ≤ 480 ∧
        35 * |(e1.lights i).x - 400| ≤ 18 * ((e1.lights i).y - 129) := by
  obtain ⟨e1, he1, _, hl1⟩ := forExcl_inv_idx
    (fun (j : Int) (st : Engine) => SeedOK st.random_seed ∧
      ∀ i : Nat, (i : Int) < j → 130 ≤ (st.lights i).y ∧ (st.lights i).y ≤ 480 ∧
        35 * |(st.lights i).x - 400| ≤ 18 * ((st.lights i).y - 129))
    init_light 0 (MAX_LIGHTS : Int) (by decide) e0 ⟨h, fun i hi => by omega⟩
    (fun j st hj0 _ ⟨hs, hprev⟩ => by
      obtain ⟨st', hst'⟩ := init_light_total j st
      obtain ⟨a, _, _, d⟩ := init_light_radius j st st' hst' hs
      have hpos := init_light_pos j st st' hst' hs
      refine ⟨st', hst', a, ?_⟩
      intro i hi
      by_cases hij : i = j.toNat
      · rw [hij]; exact hpos
      · rw [d i hij]; exact hprev i (by omega))
  refine ⟨e1, he1, ?_⟩
  intro i hi
  exact hl1 i (by show (i : Int) < ((50 : Nat) : Int); omega)

/-! ## Loops: splitting, kept cells, agreement, seed count -/

theorem iterate_add {σ : Type} (body : Int → σ → Option σ) (m n : Nat) (i : Int) (s : σ) :
    iterate body (m + n) i s = (iterate body m i s).bind (iterate body n (i + m)) := by
  induction m generalizing i s with
  | zero => simp [iterate]
  | succ k ih =>
    rw [show k + 1 + n = (k + n) + 1 by omega, iterate, iterate]
    cases h : body i s with
    | none => simp
    | some s1 =>
      simp only [Option.some_bind]
      rw [ih (i + 1) s1]
      have : i + 1 + (k : Int) = i + ((k + 1 : Nat) : Int) := by push_cast; ring
      rw [this]

theorem keeps_some {σ : Type} (K : Nat → Prop) (buf : σ → Buffer) :
    Keeps K buf (fun s => some s) := by
  intro s s' h i _
  simp only [Option.some.injEq] at h
  rw [h]

theorem keeps_bind {σ : Type} (K : Nat → Prop) (buf : σ → Buffer) (p q : σ → Option σ)
    (hp : Keeps K buf p) (hq : Keeps K buf q) : Keeps K buf (fun s => (p s).bind q) := by
  intro s s' h i hi
  simp only [Option.bind_eq_some] at h
  obtain ⟨s1, h1, h2⟩ := h
  rw [hq s1 s' h2 i hi, hp s s1 h1 i hi]

theorem keeps_iterate {σ : Type} (K : Nat → Prop) (buf : σ → Buffer)
    (body : Int → σ → Option σ) (n : Nat) (i : Int)
    (hb : ∀ j, i ≤ j → j < i + n → Keeps K buf (body j)) : Keeps K buf (iterate body n i) := by
  induction n generalizing i with
  | zero =>
    intro s s' h k _
    simp only [iterate, Option.some.injEq] at h
    rw [h]
  | succ m ih =>
    intro s s' h k hk
    rw [iterate] at h
    simp only [Option.bind_eq_some] at h
    obtain ⟨s1, h1, h2⟩ := h
    rw [ih (i + 1) (fun j hj0 hj1 => hb j (by omega) (by push_cast; omega)) s1 s' h2 k hk,
      hb i le_rfl (by push_cast; omega) s s1 h1 k hk]

theorem keeps_forExcl {σ : Type} (K : Nat → Prop) (buf : σ → Buffer)
    (body : Int → σ → Option σ) (lo hi : Int)
    (hb : ∀ j, lo ≤ j → j < hi → Keeps K buf (body j)) : Keeps K buf (forExcl lo hi body) := by
  unfold forExcl
  exact keeps_iterate K buf body _ lo (fun j h0 h1 => hb j h0 (by omega))

theorem keeps_forIncl {σ : Type} (K : Nat → Prop) (buf : σ → Buffer)
    (body : Int → σ → Option σ) (lo hi : Int)
    (hb : ∀ j, lo ≤ j → j ≤ hi → Keeps K buf (body j)) : Keeps K buf (forIncl lo hi body) := by
  intro s s' h
  unfold forIncl at h
  split_ifs at h
  exact keeps_iterate K buf body _ lo (fun j h0 h1 => hb j h0 (by omega)) s s' h

/-- A store outside `K` keeps `K`. -/
theorem keeps_store (K : Nat → Prop) (idx : Int) (c : Nat)
    (h : 0 ≤ idx → idx < 480000 → ¬ K idx.toNat) :
    Keeps K id (fun b => b.store idx c) := by
  intro b b' hb i hi
  unfold Buffer.store WIDTH HEIGHT at hb
  split_ifs at hb with hr
  simp only [Option.some.injEq] at hb
  subst hb
  have hne : i ≠ idx.toNat := fun e => h hr.1 (by omega) (e ▸ hi)
  simp [Function.update, hne]

/-- A `put_pixel` whose target, when on the screen, lies outside `K` keeps `K`. -/
theorem keeps_put_pixel (K : Nat → Prop) (x y : Int) (c : Nat)
    (h : 0 ≤ x → x < 800 → 0 ≤ y → y < 600 → ¬ K (y * 800 + x).toNat) :
    Keeps K id (fun b => put_pixel b x y c) := by
  intro b b' hb i hi
  have hb2 : put_pixel b x y c = some b' := hb
  rw [put_pixel_eq] at hb2
  simp only [Option.some.injEq] at hb2
  subst hb2
  show (if 0 ≤ x ∧ x < 800 ∧ 0 ≤ y ∧ y < 600
    then Function.update b (y * 800 + x).toNat c else b) i = b i
  split_ifs with hr
  · have hne : i ≠ (y * 800 + x).toNat := fun e => h hr.1 hr.2.1 hr.2.2.1 hr.2.2.2 (e ▸ hi)
    simp [Function.update, hne]
  · rfl

/-! ### Agreement of two runs -/

theorem cellwise_some : Cellwise (fun b => some b) := by
  intro S b1 b2 b1' b2' ha h1 h2
  simp only [Option.some.injEq] at h1 h2
  subst h1; subst h2
  exact ha

theorem cellwise_bind (p q : Buffer → Option Buffer) (hp : Cellwise p) (hq : Cellwise q) :
    Cellwise (fun b => (p b).bind q) := by
  intro S b1 b2 b1' b2' ha h1 h2
  simp only [Option.bind_eq_some] at h1 h2
  obtain ⟨a1, ha1, hb1⟩ := h1
  obtain ⟨a2, ha2, hb2⟩ := h2
  exact hq S a1 a2 b1' b2' (hp S b1 b2 a1 a2 ha ha1 ha2) hb1 hb2

theorem cellwise_ite (c : Prop) [Decidable c] (p q : Buffer → Option Buffer) (hp : Cellwise p)
    (hq : Cellwise q) : Cellwise (fun b => if c then p b else q b) := by
  by_cases h : c
  · simpa [h] using hp
  · simpa [h] using hq

theorem cellwise_iterate (body : Int → Buffer → Option Buffer) (n : Nat) (i : Int)
    (hb : ∀ j, Cellwise (body j)) : Cellwise (iterate body n i) := by
  induction n generalizing i with
  | zero =>
    intro S b1 b2 b1' b2' ha h1 h2
    simp only [iterate, Option.some.injEq] at h1 h2
    subst h1; subst h2
    exact ha
  | succ m ih =>
    intro S b1 b2 b1' b2' ha h1 h2
    rw [iterate] at h1 h2
    simp only [Option.bind_eq_some] at h1 h2
    obtain ⟨a1, ha1, hb1⟩ := h1
    obtain ⟨a2, ha2, hb2⟩ := h2
    exact ih (i + 1) S a1 a2 b1' b2' (hb i S b1 b2 a1 a2 ha ha1 ha2) hb1 hb2

theorem cellwise_forExcl (body : Int → Buffer → Option Buffer) (lo hi : Int)
    (hb : ∀ j, Cellwise (body j)) : Cellwise (forExcl lo hi body) := by
  unfold forExcl
  exact cellwise_iterate body _ lo hb

theorem cellwise_forIncl (body : Int → Buffer → Option Buffer) (lo hi : Int)
    (hb : ∀ j, Cellwise (body j)) : Cellwise (forIncl lo hi body) := by
  intro S b1 b2 b1' b2' ha h1 h2
  unfold forIncl at h1 h2
  split_ifs at h1 h2
  exact cellwise_iterate body _ lo hb S b1 b2 b1' b2' ha h1 h2

theorem agree_update (S : Nat → Prop) (b1 b2 : Buffer) (k v1 v2 : Nat) (ha : Agree S b1 b2)
    (hv : S k → v1 = v2) : Agree S (Function.update b1 k v1) (Function.update b2 k v2) := by
  intro i hi
  by_cases h : i = k
  · subst h
    simpa using hv hi
  · simpa [Function.update, h] using ha i hi

theorem cellwise_store (idx : Int) (c : Nat) : Cellwise (fun b => b.store idx c) := by
  intro S b1 b2 b1' b2' ha h1 h2
  unfold Buffer.store at h1 h2
  split_ifs at h1 h2
  simp only [Option.some.injEq] at h1 h2
  subst h1; subst h2
  exact agree_update S b1 b2 _ c c ha (fun _ => rfl)

theorem cellwise_put_pixel (x y : Int) (c : Nat) : Cellwise (fun b => put_pixel b x y c) := by
  unfold put_pixel
  exact cellwise_ite _ _ _ (cellwise_store _ c) cellwise_some

/-- A read of a cell followed by a store into the same cell. -/
theorem cellwise_load_store (idx : Int) (g : Nat → Nat) :
    Cellwise (fun b => (b.load idx).bind (fun old => b.store idx (g old))) := by
  intro S b1 b2 b1' b2' ha h1 h2
  unfold Buffer.load Buffer.store at h1 h2
  by_cases hr : 0 ≤ idx ∧ idx < WIDTH * HEIGHT
  · simp only [if_pos hr, Option.some_bind, Option.some.injEq] at h1 h2
    subst h1; subst h2
    exact agree_update S b1 b2 _ _ _ ha (fun hk => by rw [ha _ hk])
  · simp [if_neg hr] at h1

/-! ## Painters that work cell by cell -/

theorem cellwise_draw_3d_sphere (L : Libc) (cx cy radius : Int) (c : Nat) :
    Cellwise (fun b => draw_3d_sphere L b cx cy radius c) := by
  unfold draw_3d_sphere
  apply cellwise_forIncl; intro dy
  apply cellwise_forIncl; intro dx
  exact cellwise_ite _ _ _ (cellwise_put_pixel _ _ _) cellwise_some

theorem cellwise_draw_glow (L : Libc) (cx cy radius : Int) (c : Nat) (intensity : FVal) :
    Cellwise (fun b => draw_glow L b cx cy radius c intensity) := by
  unfold draw_glow
  simp only []
  apply cellwise_forIncl; intro dy
  apply cellwise_forIncl; intro dx
  apply cellwise_ite _ _ _ _ cellwise_some
  apply cellwise_ite _ _ _ _ cellwise_some
  apply cellwise_ite _ _ _ _ cellwise_some
  exact cellwise_load_store _ _

theorem cellwise_string_pixel (L : Libc) (o : Ornament) (dy : Int) :
    Cellwise (string_pixel L o dy) := by
  unfold string_pixel
  exact cellwise_put_pixel _ _ _

theorem cellwise_render_ornaments (L : Libc) (ornaments : Nat → Ornament) :
    Cellwise (render_ornaments L ornaments) := by
  unfold render_ornaments
  apply cellwise_forExcl; intro i
  apply cellwise_bind
  · exact cellwise_draw_3d_sphere L _ _ _ _
  · apply cellwise_forExcl; intro dy
    exact cellwise_string_pixel L _ dy

theorem cellwise_light_center_pixel (l : TreeLight) (c : Nat) (dy dx : Int) :
    Cellwise (light_center_pixel l c dy dx) := by
  unfold light_center_pixel
  exact cellwise_ite _ _ _ (cellwise_put_pixel _ _ _) cellwise_some

theorem cellwise_render_light (L : Libc) (fc : Nat) (l : TreeLight) :
    Cellwise (render_light L fc l) := by
  unfold render_light
  simp only []
  apply cellwise_ite _ _ _ _ cellwise_some
  apply cellwise_bind
  · exact cellwise_draw_glow L _ _ _ _ _
  · apply cellwise_forIncl; intro dy
    apply cellwise_forIncl; intro dx
    exact cellwise_light_center_pixel l _ dy dx

theorem cellwise_render_lights (L : Libc) (fc : Nat) (lights : Nat → TreeLight) :
    Cellwise (render_lights L fc lights) := by
  unfold render_lights
  apply cellwise_forExcl; intro i
  exact cellwise_render_light L fc _

theorem cellwise_star_stamp (x y : Int) (c : Nat) : Cellwise (fun b => star_stamp b x y c) := by
  unfold star_stamp
  apply cellwise_bind _ _ (cellwise_put_pixel _ _ _)
  apply cellwise_bind _ _ (cellwise_put_pixel _ _ _)
  apply cellwise_bind _ _ (cellwise_put_pixel _ _ _)
  apply cellwise_bind _ _ (cellwise_put_pixel _ _ _)
  exact cellwise_put_pixel _ _ _

theorem cellwise_star_segment (pulse : FVal) (ox oy : Int) (fuel : Nat) :
    ∀ t : FVal, Cellwise (star_segment pulse ox oy fuel t) := by
  induction fuel with
  | zero =>
    intro t S b1 b2 b1' b2' _ h1 _
    simp [star_segment] at h1
  | succ n ih =>
    intro t
    have e : star_segment pulse ox oy (n + 1) t = fun b =>
        if t.le (.fin 1) then
          (star_stamp b (wrap32 (400 + (F32.mul (F32.ofInt (wrap32 (ox - 400))) t).toInt32))
            (wrap32 (95 + (F32.mul (F32.ofInt (wrap32 (oy - 95))) t).toInt32))
            (blend_colors 0xFFFFD700 0xFFFFFF00
              (F32.mul (F32.sub (.fin 1) (F32.mul t (F32.lit (3 / 10)))) pulse))).bind
            (star_segment pulse ox oy n (F32.add t (F32.lit (2 / 100))))
        else some b := by
      funext b
      rw [star_segment]
    rw [e]
    apply cellwise_ite _ _ _ _ cellwise_some
    exact cellwise_bind _ _ (cellwise_star_stamp _ _ _) (ih _)

theorem cellwise_star_point (L : Libc) (pulse : FVal) (angle : Int) :
    Cellwise (star_point L pulse angle) := by
  unfold star_point
  exact cellwise_star_segment _ _ _ _ _

theorem cellwise_star_center_pixel (L : Libc) (pulse : FVal) (dy dx : Int) :
    Cellwise (star_center_pixel L pulse dy dx) := by
  unfold star_center_pixel
  exact cellwise_ite _ _ _ (cellwise_put_pixel _ _ _) cellwise_some

theorem cellwise_render_star (L : Libc) (fc : Nat) : Cellwise (render_star L fc) := by
  unfold render_star
  simp only []
  apply cellwise_bind _ _ (cellwise_draw_glow L _ _ _ _ _)
  apply cellwise_bind
  · apply cellwise_forExcl; intro i
    exact cellwise_star_point L _ i
  · apply cellwise_forIncl; intro dy
    apply cellwise_forIncl; intro dx
    exact cellwise_star_center_pixel L _ dy dx

theorem cellwise_render_flake (fl : Snowflake) : Cellwise (render_flake fl) := by
  unfold render_flake
  simp only []
  apply cellwise_ite _ _ _ (cellwise_put_pixel _ _ _)
  apply cellwise_ite
  · apply cellwise_bind _ _ (cellwise_put_pixel _ _ _)
    apply cellwise_bind _ _ (cellwise_put_pixel _ _ _)
    exact cellwise_put_pixel _ _ _
  · apply cellwise_bind _ _ (cellwise_put_pixel _ _ _)
    apply cellwise_bind _ _ (cellwise_put_pixel _ _ _)
    apply cellwise_bind _ _ (cellwise_put_pixel _ _ _)
    apply cellwise_bind _ _ (cellwise_put_pixel _ _ _)
    apply cellwise_bind _ _ (cellwise_put_pixel _ _ _)
    apply cellwise_bind _ _ (cellwise_put_pixel _ _ _)
    apply cellwise_bind _ _ (cellwise_put_pixel _ _ _)
    apply cellwise_bind _ _ (cellwise_put_pixel _ _ _)
    exact cellwise_put_pixel _ _ _

theorem cellwise_render_snow (snowflakes : Nat → Snowflake) :
    Cellwise (render_snow snowflakes) := by
  unfold render_snow
  apply cellwise_forExcl; intro i
  exact cellwise_render_flake _

theorem cellwise_sky_star (L : Libc) (fc : Nat) (i : Int) : Cellwise (sky_star L fc i) := by
  unfold sky_star
  simp only []
  apply cellwise_bind _ _ (cellwise_put_pixel _ _ _)
  apply cellwise_ite _ _ _ _ cellwise_some
  apply cellwise_bind _ _ (cellwise_put_pixel _ _ _)
  apply cellwise_bind _ _ (cellwise_put_pixel _ _ _)
  apply cellwise_bind _ _ (cellwise_put_pixel _ _ _)
  exact cellwise_put_pixel _ _ _

/-! ## Counting the calls of the generator -/

theorem advances_some : Advances 0 (fun s => some s) := by
  intro s s' h
  simp only [Option.some.injEq] at h
  rw [← h]; rfl

theorem advances_bind (m n : Nat) (p q : Buffer × FVal → Option (Buffer × FVal))
    (hp : Advances m p) (hq : Advances n q) : Advances (m + n) (fun s => (p s).bind q) := by
  intro s s' h
  simp only [Option.bind_eq_some] at h
  obtain ⟨s1, h1, h2⟩ := h
  rw [hq s1 s' h2, hp s s1 h1, Nat.add_comm, Function.iterate_add_apply]

/-- A loop whose iteration `j` calls the generator `cnt j` times. -/
theorem advances_iterate (cnt : Int → Nat) (body : Int → Buffer × FVal → Option (Buffer × FVal))
    (n : Nat) (i : Int) (hb : ∀ j, i ≤ j → j < i + n → Advances (cnt j) (body j)) :
    Advances ((List.range n).map (fun (k : Nat) => cnt (i + (k : Int)))).sum (iterate body n i) := by
  induction n with
  | zero =>
    intro s s' h
    simp only [iterate, Option.some.injEq] at h
    rw [← h]; rfl
  | succ m ih =>
    intro s s' h
    rw [iterate_succ_last] at h
    simp only [Option.bind_eq_some] at h
    obtain ⟨s1, h1, h2⟩ := h
    rw [hb (i + m) (by omega) (by push_cast; omega) s1 s' h2,
      ih (fun j h0 h1 => hb j h0 (by push_cast; omega)) s s1 h1,
      List.range_succ, List.map_append, List.sum_append, Nat.add_comm,
      Function.iterate_add_apply]
    simp

/-- A loop whose iterations call the generator `k` times each. -/
theorem advances_iterate_const (k : Nat) (body : Int → Buffer × FVal → Option (Buffer × FVal))
    (n : Nat) (i : Int) (hb : ∀ j, i ≤ j → j < i + n → Advances k (body j)) :
    Advances (n * k) (iterate body n i) := by
  have h := advances_iterate (fun _ => k) body n i hb
  simpa using h

theorem advances_ground_pixel (y x : Int) : Advances 1 (ground_pixel y x) := by
  intro s s' h
  unfold ground_pixel at h
  simp only [Option.map_eq_some'] at h
  obtain ⟨b, _, hb⟩ := h
  rw [← hb]; rfl

theorem advances_render_ground : Advances 64000 render_ground := by
  unfold render_ground forExcl
  exact advances_iterate_const 800 _ 80 520 (fun y _ _ =>
    advances_iterate_const 1 _ 800 0 (fun x _ _ => advances_ground_pixel y x))

theorem advances_tree_pixel (y : Int) (t : FVal) (w dx : Int) (h0 : 0 ≤ 400 + dx)
    (h1 : 400 + dx < 800) : Advances 1 (tree_pixel y t w dx) := by
  intro s s' h
  unfold tree_pixel at h
  simp only [] at h
  rw [if_neg (by unfold WIDTH; omega)] at h
  simp only [Option.map_eq_some'] at h
  obtain ⟨b, _, hb⟩ := h
  rw [← hb]; rfl

theorem advances_tree_row (top_y height half_width y : Int) (hy0 : 0 ≤ y) (hy1 : y < 600)
    (hw0 : 0 ≤ width_at top_y height half_width y)
    (hw1 : width_at top_y height half_width y ≤ 399) :
    Advances (row_calls top_y height half_width y) (tree_row top_y height half_width y) := by
  intro s s' h
  unfold tree_row at h
  simp only [] at h
  rw [if_neg (by unfold HEIGHT; omega)] at h
  unfold forIncl at h
  rw [if_neg (by omega)] at h
  have hc := advances_iterate_const 1 _ _ _ (fun dx h0 h1 =>
    advances_tree_pixel y (layer_t top_y height y) (width_at top_y height half_width y) dx
      (by omega) (by omega)) s s' h
  rw [hc]
  unfold row_calls
  congr 1
  omega

theorem advances_trunk_pixel (L : Libc) (y dx : Int) : Advances 1 (trunk_pixel L y dx) := by
  intro s s' h
  unfold trunk_pixel at h
  simp only [Option.map_eq_some'] at h
  obtain ⟨b, _, hb⟩ := h
  rw [← hb]; rfl

theorem advances_trunk (L : Libc) :
    Advances 2550 (forExcl 480 530 (fun y s => forIncl (-25) 25 (trunk_pixel L y) s)) := by
  unfold forExcl
  apply advances_iterate_const 51 _ 50 480
  intro y _ _ s s' h
  unfold forIncl at h
  simp only [] at h
  rw [if_neg (by norm_num)] at h
  exact advances_iterate_const 1 _ 51 (-25) (fun dx _ _ => advances_trunk_pixel L y dx) s s' h

/-- The body rows of a layer: `n` rows from `lo` on. -/
theorem advances_rows (top_y height half_width lo : Int) (n : Nat) (hh0 : 0 < height)
    (hh1 : height < 16777216) (hw0 : 0 ≤ half_width) (hw1 : half_width ≤ 399)
    (hlo : top_y ≤ lo) (hhi : lo + n ≤ top_y + height) (h0 : 0 ≤ lo) (h600 : lo + n ≤ 600) :
    Advances (rows_calls top_y height half_width lo n)
      (iterate (tree_row top_y height half_width) n lo) := by
  unfold rows_calls
  apply advances_iterate (fun y => row_calls top_y height half_width y)
  intro y hy0 hy1
  obtain ⟨a, b⟩ := width_at_range top_y height half_width y hh0 hh1 (by omega) (by omega) hw0
    (by omega)
  exact advances_tree_row top_y height half_width y (by omega) (by omega) a (by omega)

/-- One layer: the snow cap calls no generator. -/
theorem advances_tree_layer (l : Int × Int × Int) (hl : l ∈ layers) :
    Advances (layer_calls l) (tree_layer l) := by
  have hb : 0 ≤ l.1 ∧ l.1 < l.2.1 ∧ l.2.1 ≤ 600 ∧ 0 ≤ l.2.2 ∧ l.2.2 ≤ 399 := by
    simp only [layers, List.mem_cons, List.mem_singleton, List.not_mem_nil, or_false] at hl
    rcases hl with rfl | rfl | rfl | rfl <;> decide
  obtain ⟨h0, h1, h2, h3, h4⟩ := hb
  intro s s' h
  unfold tree_layer at h
  simp only [Option.bind_eq_some, Option.map_eq_some'] at h
  obtain ⟨s1, hs1, b, _, hb⟩ := h
  rw [← hb]
  unfold forExcl at hs1
  exact advances_rows l.1 (l.2.1 - l.1) l.2.2 l.1 (l.2.1 - l.1).toNat (by omega) (by omega) h3 h4
    le_rfl (by omega) h0 (by omega) s s1 hs1

/-! ## The tree as a chain of its layers -/

theorem foldlM_four {σ α : Type} (f : σ → α → Option σ) (a b c d : α) (s : σ) :
    [a, b, c, d].foldlM f s =
      (((f s a).bind (fun s => f s b)).bind (fun s => f s c)).bind (fun s => f s d) := by
  simp only [List.foldlM_cons, List.foldlM_nil, Option.bind_eq_bind]
  cases h1 : f s a with
  | none => simp
  | some s1 =>
    simp only [Option.some_bind]
    cases h2 : f s1 b with
    | none => simp
    | some s2 =>
      simp only [Option.some_bind]
      cases h3 : f s2 c with
      | none => simp
      | some s3 =>
        simp only [Option.some_bind]
        cases h4 : f s3 d with
        | none => simp
        | some s4 => simp

theorem foldlM_layers (s : Buffer × FVal) :
    layers.foldlM (fun s l => tree_layer l s) s =
      (((tree_layer (120, 250, 70) s).bind (tree_layer (180, 330, 110))).bind
        (tree_layer (260, 410, 150))).bind (tree_layer (340, 500, 190)) :=
  foldlM_four (fun s l => tree_layer l s) _ _ _ _ s

theorem render_tree_chain (L : Libc) (s : Buffer × FVal) :
    render_tree L s =
      ((((tree_layer (120, 250, 70) s).bind (tree_layer (180, 330, 110))).bind
        (tree_layer (260, 410, 150))).bind (tree_layer (340, 500, 190))).bind
        (forExcl 480 530 (fun y s => forIncl (-25) 25 (trunk_pixel L y) s)) := by
  unfold render_tree
  rw [foldlM_layers]

/-- Number of calls of `fast_random` in `render_tree`. -/
theorem advances_render_tree (L : Libc) :
    Advances (layer_calls (120, 250, 70) + layer_calls (180, 330, 110)
      + layer_calls (260, 410, 150) + layer_calls (340, 500, 190) + 2550) (render_tree L) := by
  have e : render_tree L = fun s =>
      ((((tree_layer (120, 250, 70) s).bind (tree_layer (180, 330, 110))).bind
        (tree_layer (260, 410, 150))).bind (tree_layer (340, 500, 190))).bind
        (forExcl 480 530 (fun y s => forIncl (-25) 25 (trunk_pixel L y) s)) := by
    funext s
    exact render_tree_chain L s
  rw [e]
  exact advances_bind _ _ _ _
    (advances_bind _ _ _ _
      (advances_bind _ _ _ _
        (advances_bind _ _ _ _ (advances_tree_layer _ (by decide))
          (advances_tree_layer _ (by decide)))
        (advances_tree_layer _ (by decide)))
      (advances_tree_layer _ (by decide)))
    (advances_trunk L)

/-! ## Cells that the ground and the tree leave alone -/

theorem keeps_pair_store (K : Nat → Prop) (idx : Int) (c : Buffer × FVal → Nat)
    (v : Buffer × FVal → FVal) (h : 0 ≤ idx → idx < 480000 → ¬ K idx.toNat) :
    Keeps K Prod.fst (fun s : Buffer × FVal => (s.1.store idx (c s)).map (fun b => (b, v s))) := by
  intro s s' hs i hi
  simp only [Option.map_eq_some'] at hs
  obtain ⟨b, hb, e⟩ := hs
  rw [← e]
  exact keeps_store K idx (c s) h s.1 b hb i hi

theorem keeps_pair_put_pixel (K : Nat → Prop) (x y : Int) (c : Buffer × FVal → Nat)
    (v : Buffer × FVal → FVal)
    (h : 0 ≤ x → x < 800 → 0 ≤ y → y < 600 → ¬ K (y * 800 + x).toNat) :
    Keeps K Prod.fst
      (fun s : Buffer × FVal => (put_pixel s.1 x y (c s)).map (fun b => (b, v s))) := by
  intro s s' hs i hi
  simp only [Option.map_eq_some'] at hs
  obtain ⟨b, hb, e⟩ := hs
  rw [← e]
  exact keeps_put_pixel K x y (c s) h s.1 b hb i hi

theorem keeps_ground_pixel (K : Nat → Prop) (y x : Int)
    (h : 0 ≤ y * 800 + x → y * 800 + x < 480000 → ¬ K (y * 800 + x).toNat) :
    Keeps K Prod.fst (ground_pixel y x) := by
  unfold ground_pixel
  exact keeps_pair_store K _ _ _ h

/-- The ground touches the rows from 520 on only. -/
theorem keeps_render_ground (K : Nat → Prop) (hK : ∀ i, K i → i < 416000 ∨ 480000 ≤ i) :
    Keeps K Prod.fst render_ground := by
  unfold render_ground
  apply keeps_forExcl; intro y hy0 hy1
  apply keeps_forExcl; intro x hx0 hx1
  unfold HEIGHT at hy1
  unfold WIDTH at hx1
  apply keeps_ground_pixel
  intro h0 h1 hk
  have := hK _ hk
  omega

theorem keeps_tree_pixel (K : Nat → Prop) (y : Int) (t : FVal) (w dx : Int)
    (h : 0 ≤ 400 + dx → 400 + dx < 800 → 0 ≤ y * 800 + (400 + dx) →
      y * 800 + (400 + dx) < 480000 → ¬ K (y * 800 + (400 + dx)).toNat) :
    Keeps K Prod.fst (tree_pixel y t w dx) := by
  unfold tree_pixel
  simp only []
  by_cases hx : 400 + dx < 0 ∨ 400 + dx ≥ WIDTH
  · simp only [if_pos hx]
    exact keeps_some K Prod.fst
  · simp only [if_neg hx]
    unfold WIDTH at hx
    exact keeps_pair_store K _ _ _ (fun h0 h1 => h (by omega) (by omega) h0 h1)

/-- A row of the body of a layer touches its own row only, within the half-width
of the layer. -/
theorem keeps_tree_row (K : Nat → Prop) (top_y height half_width y : Int) (hh0 : 0 < height)
    (hh1 : height < 16777216) (hy0 : top_y ≤ y) (hy1 : y < top_y + height)
    (hw0 : 0 ≤ half_width) (hw1 : half_width ≤ 399)
    (hK : ∀ dx : Int, -half_width ≤ dx → dx ≤ half_width → 0 ≤ y → y < 600 →
      ¬ K (y * 800 + (400 + dx)).toNat) :
    Keeps K Prod.fst (tree_row top_y height half_width y) := by
  unfold tree_row
  simp only []
  by_cases hy : y < 0 ∨ y ≥ HEIGHT
  · simp only [if_pos hy]
    exact keeps_some K Prod.fst
  · simp only [if_neg hy]
    unfold HEIGHT at hy
    obtain ⟨a, b⟩ := width_at_range top_y height half_width y hh0 hh1 hy0 hy1 hw0 (by omega)
    apply keeps_forIncl; intro dx hd0 hd1
    apply keeps_tree_pixel
    intro _ _ _ _
    exact hK dx (by omega) (by omega) (by omega) (by omega)

theorem keeps_snow_cap_pixel (K : Nat → Prop) (snow_y dx dy : Int)
    (h : 0 ≤ 400 + dx → 400 + dx < 800 → 0 ≤ snow_y + dy → snow_y + dy < 600 →
      ¬ K ((snow_y + dy) * 800 + (400 + dx)).toNat) :
    Keeps K id (snow_cap_pixel snow_y dx dy) := by
  unfold snow_cap_pixel
  simp only []
  by_cases hd : (dist_of dx dy).lt (.fin 10) = true
  · simp only [if_pos hd]
    intro b b' hb i hi
    simp only [Option.bind_eq_some] at hb
    obtain ⟨old, _, hp⟩ := hb
    exact keeps_put_pixel K _ _ _ h b b' hp i hi
  · simp only [if_neg hd]
    exact keeps_some K id

/-- The snow cap of a layer touches the rows `snow_y .. snow_y + 7` only, within
`snow_width` of the centre. -/
theorem keeps_snow_cap (K : Nat → Prop) (snow_y sw : Int)
    (hK : ∀ dx dy : Int, -sw ≤ dx → dx ≤ sw → 0 ≤ dy → dy < 8 → 0 ≤ 400 + dx → 400 + dx < 800 →
      0 ≤ snow_y + dy → snow_y + dy < 600 → ¬ K ((snow_y + dy) * 800 + (400 + dx)).toNat) :
    Keeps K id (forIncl (-sw) sw (fun dx b => forExcl 0 8 (snow_cap_pixel snow_y dx) b)) := by
  apply keeps_forIncl; intro dx hd0 hd1
  apply keeps_forExcl; intro dy he0 he1
  apply keeps_snow_cap_pixel
  intro a b c d
  exact hK dx dy hd0 hd1 he0 he1 a b c d

theorem keeps_trunk_pixel (K : Nat → Prop) (L : Libc) (y dx : Int)
    (h : 0 ≤ 400 + dx → 400 + dx < 800 → 0 ≤ y → y < 600 → ¬ K (y * 800 + (400 + dx)).toNat) :
    Keeps K Prod.fst (trunk_pixel L y dx) := by
  unfold trunk_pixel
  exact keeps_pair_put_pixel K _ _ _ _ h

/-- The trunk touches the rows `480 .. 529` only, within 25 pixels of the centre. -/
theorem keeps_trunk (K : Nat → Prop) (L : Libc)
    (hK : ∀ y dx : Int, 480 ≤ y → y < 530 → -25 ≤ dx → dx ≤ 25 →
      ¬ K (y * 800 + (400 + dx)).toNat) :
    Keeps K Prod.fst (forExcl 480 530 (fun y s => forIncl (-25) 25 (trunk_pixel L y) s)) := by
  apply keeps_forExcl; intro y hy0 hy1
  apply keeps_forIncl; intro dx hd0 hd1
  apply keeps_trunk_pixel
  intro _ _ _ _
  exact hK y dx hy0 hy1 hd0 hd1

/-! ## Two renders in succession -/

theorem keeps_lift (K : Nat → Prop) (p : Buffer → Option Buffer) (hp : Keeps K id p) :
    Keeps K Prod.fst (fun s : Buffer × FVal => (p s.1).map (fun b => (b, s.2))) := by
  intro s s' hs i hi
  simp only [Option.map_eq_some'] at hs
  obtain ⟨b, hb, e⟩ := hs
  rw [← e]
  exact hp s.1 b hb i hi

/-- A pixel of a row of a layer within the half-width of that row is a pixel of the
tree body. -/
theorem on_tree_body_of_layer (l : Int × Int × Int) (hl : l ∈ layers) (x y : Int)
    (hy0 : l.1 ≤ y) (hy1 : y < l.2.1) (hx : |x - 400| ≤ width_at l.1 (l.2.1 - l.1) l.2.2 y) :
    on_tree_body x y = true := by
  unfold on_tree_body
  rw [List.any_eq_true]
  exact ⟨l, hl, decide_eq_true ⟨hy0, hy1, hx⟩⟩

theorem on_tree_body_mono (x x' y : Int) (h : |x - 400| ≤ |x' - 400|)
    (hb : on_tree_body x' y = true) : on_tree_body x y = true := by
  unfold on_tree_body at hb ⊢
  rw [List.any_eq_true] at hb ⊢
  obtain ⟨l, hl, hd⟩ := hb
  have hd2 := of_decide_eq_true hd
  exact ⟨l, hl, decide_eq_true ⟨hd2.1, hd2.2.1, le_trans h hd2.2.2⟩⟩

/-- The outermost pixels of the rows of every snow cap are pixels of the tree
body. -/
theorem cap_corner_on_body :
    ∀ l ∈ layers, ∀ dy ∈ List.range 8,
      on_tree_body (400 + snow_width l.2.2) (l.1 + 10 + ((dy : Nat) : Int)) = true := by
  decide!

theorem cap_on_body (l : Int × Int × Int) (hl : l ∈ layers) (dx dy : Int)
    (hd0 : -(snow_width l.2.2) ≤ dx) (hd1 : dx ≤ snow_width l.2.2) (he0 : 0 ≤ dy) (he1 : dy < 8) :
    on_tree_body (400 + dx) (l.1 + 10 + dy) = true := by
  obtain ⟨n, hn⟩ := Int.eq_ofNat_of_zero_le he0
  have hmem : n ∈ List.range 8 := by
    rw [List.mem_range]
    omega
  have hc := cap_corner_on_body l hl n hmem
  rw [hn]
  apply on_tree_body_mono _ _ _ _ hc
  rw [abs_le]
  have h0 : 0 ≤ snow_width l.2.2 := by omega
  have e : |400 + snow_width l.2.2 - 400| = snow_width l.2.2 := by
    rw [show 400 + snow_width l.2.2 - 400 = snow_width l.2.2 by ring, abs_of_nonneg h0]
  rw [e]
  constructor <;> omega

theorem keeps_tree_row_exact (K : Nat → Prop) (top_y height half_width y : Int)
    (hK : ∀ dx : Int, -(width_at top_y height half_width y) ≤ dx →
      dx ≤ width_at top_y height half_width y → 0 ≤ 400 + dx → 400 + dx < 800 → 0 ≤ y →
      y < 600 → ¬ K (y * 800 + (400 + dx)).toNat) :
    Keeps K Prod.fst (tree_row top_y height half_width y) := by
  unfold tree_row
  simp only []
  by_cases hy : y < 0 ∨ y ≥ HEIGHT
  · simp only [if_pos hy]
    exact keeps_some K Prod.fst
  · simp only [if_neg hy]
    unfold HEIGHT at hy
    apply keeps_forIncl; intro dx hd0 hd1
    apply keeps_tree_pixel
    intro a b _ _
    exact hK dx hd0 hd1 a b (by omega) (by omega)

/-- A layer stores into pixels of the tree body only. -/
theorem keeps_tree_layer (K : Nat → Prop) (l : Int × Int × Int) (hl : l ∈ layers)
    (hK : ∀ x y : Int, 0 ≤ x → x < 800 → 0 ≤ y → y < 600 → on_tree_body x y = true →
      ¬ K (y * 800 + x).toNat) :
    Keeps K Prod.fst (tree_layer l) := by
  unfold tree_layer
  simp only []
  apply keeps_bind
  · apply keeps_forExcl; intro y hy0 hy1
    apply keeps_tree_row_exact
    intro dx hd0 hd1 hx0 hx1 h0 h1
    apply hK (400 + dx) y hx0 hx1 h0 h1
    apply on_tree_body_of_layer l hl _ _ hy0 hy1
    rw [show 400 + dx - 400 = dx by ring, abs_le]
    exact ⟨hd0, hd1⟩
  · apply keeps_lift
    apply keeps_snow_cap
    intro dx dy hd0 hd1 he0 he1 hx0 hx1 h0 h1
    exact hK (400 + dx) (l.1 + 10 + dy) hx0 hx1 h0 h1 (cap_on_body l hl dx dy hd0 hd1 he0 he1)

/-- The tree stores into pixels of the tree body and of the trunk only. -/
theorem keeps_render_tree (K : Nat → Prop) (L : Libc)
    (hK : ∀ x y : Int, 0 ≤ x → x < 800 → 0 ≤ y → y < 600 → on_tree_body x y = true →
      ¬ K (y * 800 + x).toNat)
    (hT : ∀ y dx : Int, 480 ≤ y → y < 530 → -25 ≤ dx → dx ≤ 25 →
      ¬ K (y * 800 + (400 + dx)).toNat) :
    Keeps K Prod.fst (render_tree L) := by
  have e : render_tree L = fun s =>
      ((((tree_layer (120, 250, 70) s).bind (tree_layer (180, 330, 110))).bind
        (tree_layer (260, 410, 150))).bind (tree_layer (340, 500, 190))).bind
        (forExcl 480 530 (fun y s => forIncl (-25) 25 (trunk_pixel L y) s)) := by
    funext s
    exact render_tree_chain L s
  rw [e]
  apply keeps_bind
  · apply keeps_bind
    · apply keeps_bind
      · apply keeps_bind
        · exact keeps_tree_layer K _ (by decide) hK
        · exact keeps_tree_layer K _ (by decide) hK
      · exact keeps_tree_layer K _ (by decide) hK
    · exact keeps_tree_layer K _ (by decide) hK
  · exact keeps_trunk K L hT

/-- The colour of a row of the sky gradient. -/
theorem sky_rows_value (b : Buffer) :
    ∃ b', forExcl 0 HEIGHT sky_row b = some b' ∧
      ∀ i : Nat, i < 480000 → b' i = blend_colors 0xFF0a0a2e 0xFF1a1a4e
        (F32.div (F32.ofInt ((i : Int) / 800)) (F32.ofInt HEIGHT)) := by
  obtain ⟨b', hb', hP⟩ := forExcl_inv_idx
    (fun (y : Int) (s : Buffer) => ∀ i : Nat, (i : Int) < y * 800 →
      s i = blend_colors 0xFF0a0a2e 0xFF1a1a4e
        (F32.div (F32.ofInt ((i : Int) / 800)) (F32.ofInt HEIGHT)))
    sky_row 0 HEIGHT (by decide) b (fun i hi => by omega)
    (fun y s hy0 hy1 hs => by
      unfold HEIGHT at hy1
      unfold sky_row forExcl
      simp only []
      obtain ⟨s', hs', hcell⟩ := iterate_store
        (fun _ => blend_colors 0xFF0a0a2e 0xFF1a1a4e (F32.div (F32.ofInt y) (F32.ofInt HEIGHT)))
        (y * WIDTH) (WIDTH - 0).toNat 0 s (by unfold WIDTH; omega) (by unfold WIDTH; omega)
      refine ⟨s', hs', ?_⟩
      intro i hi
      rw [hcell i]
      split_ifs with hc
      · unfold WIDTH at hc
        have : (i : Int) / 800 = y := by omega
        rw [this]
      · apply hs i
        unfold WIDTH at hc
        omega)
  refine ⟨b', hb', ?_⟩
  intro i hi
  apply hP i
  unfold HEIGHT
  omega

/-- The sky does not depend on the previous content of the buffer. -/
theorem render_sky_agree (L : Libc) (fc : Nat) (b1 b2 b1' b2' : Buffer)
    (h1 : render_sky L fc b1 = some b1') (h2 : render_sky L fc b2 = some b2') :
    Agree (fun i => i < 480000) b1' b2' := by
  unfold render_sky at h1 h2
  simp only [Option.bind_eq_some] at h1 h2
  obtain ⟨a1, ha1, hb1⟩ := h1
  obtain ⟨a2, ha2, hb2⟩ := h2
  obtain ⟨c1, hc1, v1⟩ := sky_rows_value b1
  obtain ⟨c2, hc2, v2⟩ := sky_rows_value b2
  rw [hc1] at ha1
  rw [hc2] at ha2
  simp only [Option.some.injEq] at ha1 ha2
  subst ha1; subst ha2
  have ha : Agree (fun i => i < 480000) c1 c2 := fun i hi => by rw [v1 i hi, v2 i hi]
  exact cellwise_forExcl _ 0 100 (fun i => cellwise_sky_star L fc i) _ c1 c2 b1' b2' ha hb1 hb2

/-- The stages of a frame. -/
theorem render_frame_stages (L : Libc) (e e1 : Engine) (h : render_frame L e = some e1) :
    ∃ (b1 : Buffer) (s2 s3 : Buffer × FVal) (b4 b5 b6 b7 : Buffer),
      render_sky L e.frame_count e.shm_data = some b1 ∧
      render_ground (b1, e.random_seed) = some s2 ∧
      render_tree L s2 = some s3 ∧
      render_ornaments L e.ornaments s3.1 = some b4 ∧
      render_lights L e.frame_count e.lights b4 = some b5 ∧
      render_star L e.frame_count b5 = some b6 ∧
      render_snow e.snowflakes b6 = some b7 ∧
      e1 = { e with shm_data := b7, random_seed := s3.2 } := by
  unfold render_frame at h
  simp only [Option.bind_eq_some, Option.map_eq_some'] at h
  obtain ⟨b1, h1, s2, h2, s3, h3, b4, h4, b5, h5, b6, h6, b7, h7, h8⟩ := h
  exact ⟨b1, s2, s3, b4, b5, b6, b7, h1, h2, h3, h4, h5, h6, h7, h8.symm⟩

theorem stable_lt (i : Nat) (h : Stable i) : i < 480000 := h.1

theorem stable_not_ground (i : Nat) (h : Stable i) : i < 416000 ∨ 480000 ≤ i := by
  obtain ⟨_, h2⟩ := h
  unfold textured at h2
  simp only [Bool.or_eq_false_iff, decide_eq_false_iff_not] at h2
  omega

theorem stable_not_body (x y : Int) (hx0 : 0 ≤ x) (hx1 : x < 800) (hy0 : 0 ≤ y) (hy1 : y < 600)
    (hb : on_tree_body x y = true) : ¬ Stable (y * 800 + x).toNat := by
  intro h
  obtain ⟨_, h2⟩ := h
  unfold textured at h2
  simp only [Bool.or_eq_false_iff, decide_eq_false_iff_not] at h2
  have e1 : (((y * 800 + x).toNat % 800 : Nat) : Int) = x := by omega
  have e2 : (((y * 800 + x).toNat / 800 : Nat) : Int) = y := by omega
  rw [e1, e2, hb] at h2
  exact absurd h2.1.2 (by decide)

theorem stable_not_trunk (y dx : Int) (hy0 : 480 ≤ y) (hy1 : y < 530) (hd0 : -25 ≤ dx)
    (hd1 : dx ≤ 25) : ¬ Stable (y * 800 + (400 + dx)).toNat := by
  intro h
  obtain ⟨_, h2⟩ := h
  unfold textured at h2
  simp only [Bool.or_eq_false_iff, decide_eq_false_iff_not] at h2
  omega

/-- Two renders in succession that both return agree on the cells that neither the
ground nor the tree stores into. -/
theorem render_twice_agree (L : Libc) (e e1 e2 : Engine) (he1 : render_frame L e = some e1)
    (he2 : render_frame L e1 = some e2) : Agree Stable e1.shm_data e2.shm_data := by
  obtain ⟨b1, s2, s3, b4, b5, b6, b7, p1, p2, p3, p4, p5, p6, p7, p8⟩ :=
    render_frame_stages L e e1 he1
  obtain ⟨c1, t2, t3, c4, c5, c6, c7, q1, q2, q3, q4, q5, q6, q7, q8⟩ :=
    render_frame_stages L e1 e2 he2
  have efc : e1.frame_count = e.frame_count := by rw [p8]
  have eor : e1.ornaments = e.ornaments := by rw [p8]
  have eli : e1.lights = e.lights := by rw [p8]
  have esn : e1.snowflakes = e.snowflakes := by rw [p8]
  rw [efc] at q1 q5 q6
  rw [eor] at q4
  rw [eli] at q5
  rw [esn] at q7
  have a1 := render_sky_agree L e.frame_count _ _ b1 c1 p1 q1
  have g1 := keeps_render_ground Stable stable_not_ground _ _ p2
  have g2 := keeps_render_ground Stable stable_not_ground _ _ q2
  have r1 := keeps_render_tree Stable L stable_not_body stable_not_trunk _ _ p3
  have r2 := keeps_render_tree Stable L stable_not_body stable_not_trunk _ _ q3
  have a3 : Agree Stable s3.1 t3.1 := by
    intro i hi
    rw [r1 i hi, r2 i hi, g1 i hi, g2 i hi]
    exact a1 i hi.1
  have a4 := cellwise_render_ornaments L e.ornaments Stable _ _ _ _ a3 p4 q4
  have a5 := cellwise_render_lights L e.frame_count e.lights Stable _ _ _ _ a4 p5 q5
  have a6 := cellwise_render_star L e.frame_count Stable _ _ _ _ a5 p6 q6
  have a7 := cellwise_render_snow e.snowflakes Stable _ _ _ _ a6 p7 q7
  rw [p8, q8]
  exact a7

/-! ## Painters of a state whose entities lie off the screen -/

theorem keeps_load_store (K : Nat → Prop) (idx : Int) (g : Nat → Nat)
    (h : 0 ≤ idx → idx < 480000 → ¬ K idx.toNat) :
    Keeps K id (fun b => (b.load idx).bind (fun old => b.store idx (g old))) := by
  intro b b' hb i hi
  simp only [Option.bind_eq_some] at hb
  obtain ⟨old, _, hs⟩ := hb
  exact keeps_store K idx (g old) h b b' hs i hi

theorem keeps_ite {σ : Type} (K : Nat → Prop) (buf : σ → Buffer) (c : Prop) [Decidable c]
    (p q : σ → Option σ) (hp : c → Keeps K buf p) (hq : ¬ c → Keeps K buf q) :
    Keeps K buf (fun s => if c then p s else q s) := by
  by_cases h : c
  · simpa [h] using hp h
  · simpa [h] using hq h

/-- A sphere of radius `0` centred off the screen stores nothing. -/
theorem keeps_sphere_off (K : Nat → Prop) (L : Libc) (c : Nat) :
    Keeps K id (fun b => draw_3d_sphere L b (-100) (-100) 0 c) := by
  unfold draw_3d_sphere
  have hlo : wrap32 (-(0 : Int)) = 0 := by decide
  rw [hlo]
  apply keeps_forIncl; intro dy hy0 hy1
  apply keeps_forIncl; intro dx hx0 hx1
  have ey : dy = 0 := by omega
  have ex : dx = 0 := by omega
  subst ey; subst ex
  have hw : wrap32 (-100 + 0) = -100 := by decide
  rw [hw]
  apply keeps_ite
  · intro _
    exact keeps_put_pixel K _ _ _ (fun h0 _ _ _ => absurd h0 (by decide))
  · intro _
    exact keeps_some K id

theorem keeps_string_off (K : Nat → Prop) (L : Libc) (c : Nat) (a : FVal) (dy : Int)
    (h0 : -15 ≤ dy) (h1 : dy < 0) :
    Keeps K id (string_pixel L ⟨-100, -100, 0, c, a⟩ dy) := by
  unfold string_pixel
  simp only []
  apply keeps_put_pixel
  intro _ _ hy _
  exfalso
  rw [wrap32_of_range (-100 + dy) (by omega) (by omega),
    wrap32_of_range (-100 + dy - 0) (by omega) (by omega)] at hy
  omega

theorem keeps_ornaments_off (K : Nat → Prop) (L : Libc) (c : Nat) (a : FVal) :
    Keeps K id (render_ornaments L (fun _ => ⟨-100, -100, 0, c, a⟩)) := by
  unfold render_ornaments
  apply keeps_forExcl; intro i _ _
  apply keeps_bind
  · exact keeps_sphere_off K L c
  · apply keeps_forExcl; intro dy h0 h1
    exact keeps_string_off K L c a dy h0 h1

/-- A glow of radius `0` centred off the screen stores nothing. -/
theorem keeps_glow_off (K : Nat → Prop) (L : Libc) (c : Nat) (intensity : FVal) :
    Keeps K id (fun b => draw_glow L b (-100) (-100) 0 c intensity) := by
  unfold draw_glow
  simp only []
  have hr : wrap32 (0 * 3) = 0 := by decide
  rw [hr]
  have hlo : wrap32 (-(0 : Int)) = 0 := by decide
  rw [hlo]
  apply keeps_forIncl; intro dy hy0 hy1
  apply keeps_forIncl; intro dx hx0 hx1
  have ey : dy = 0 := by omega
  have ex : dx = 0 := by omega
  subst ey; subst ex
  have hw : wrap32 (-100 + 0) = -100 := by decide
  rw [hw]
  apply keeps_ite
  · intro _
    apply keeps_ite
    · intro h
      exact absurd h.1 (by decide)
    · intro _
      exact keeps_some K id
  · intro _
    exact keeps_some K id

theorem keeps_light_off (K : Nat → Prop) (L : Libc) (fc : Nat) (c : Nat) (ph : Int) :
    Keeps K id (render_light L fc ⟨-100, -100, 0, c, ph⟩) := by
  unfold render_light
  simp only []
  apply keeps_ite
  · intro _
    apply keeps_bind
    · exact keeps_glow_off K L c _
    · apply keeps_forIncl; intro dy hy0 hy1
      apply keeps_forIncl; intro dx hx0 hx1
      unfold light_center_pixel
      apply keeps_ite
      · intro _
        apply keeps_put_pixel
        intro hx _ _ _
        exfalso
        rw [wrap32_of_range (-100 + dx) (by omega) (by omega)] at hx
        omega
      · intro _
        exact keeps_some K id
  · intro _
    exact keeps_some K id

theorem keeps_lights_off (K : Nat → Prop) (L : Libc) (fc : Nat) (c : Nat) (ph : Int) :
    Keeps K id (render_lights L fc (fun _ => ⟨-100, -100, 0, c, ph⟩)) := by
  unfold render_lights
  apply keeps_forExcl; intro i _ _
  exact keeps_light_off K L fc c ph

theorem keeps_snow_off (K : Nat → Prop) (sp dr : FVal) :
    Keeps K id (render_snow (fun _ => ⟨.fin (-100), .fin (-100), sp, dr, 1⟩)) := by
  unfold render_snow
  apply keeps_forExcl; intro i _ _
  unfold render_flake
  simp only []
  have hx : (FVal.fin (-100)).toInt32 = -100 := by decide!
  rw [hx]
  simp only [if_true]
  exact keeps_put_pixel K _ _ _ (fun h0 _ _ _ => absurd h0 (by decide))

/-! ## The star under the flat library keeps the rows from 156 on -/

theorem keeps_put_pixel_rows (K : Nat → Prop) (hK : ∀ i, K i → 124800 ≤ i) (x y : Int) (c : Nat)
    (hy : y ≤ 155) : Keeps K id (fun b => put_pixel b x y c) := by
  apply keeps_put_pixel
  intro h0 h1 h2 h3 hk
  have := hK _ hk
  omega

theorem keeps_star_glow (K : Nat → Prop) (hK : ∀ i, K i → 124800 ≤ i) (L : Libc) (c : Nat)
    (intensity : FVal) : Keeps K id (fun b => draw_glow L b 400 95 20 c intensity) := by
  unfold draw_glow
  simp only []
  have hr : wrap32 (20 * 3) = 60 := by decide
  rw [hr]
  have hlo : wrap32 (-(60 : Int)) = -60 := by decide
  rw [hlo]
  apply keeps_forIncl; intro dy hy0 hy1
  apply keeps_forIncl; intro dx hx0 hx1
  rw [wrap32_of_range (400 + dx) (by omega) (by omega),
    wrap32_of_range (95 + dy) (by omega) (by omega)]
  apply keeps_ite
  · intro _
    apply keeps_ite
    · intro hin
      unfold WIDTH HEIGHT at hin
      apply keeps_ite
      · intro _
        apply keeps_load_store
        intro h0 h1 hk
        have := hK _ hk
        unfold WIDTH at this
        omega
      · intro _
        exact keeps_some K id
    · intro _
      exact keeps_some K id
  · intro _
    exact keeps_some K id

/-- The row of a point of a segment that ends in the centre of the star. -/
theorem star_row_values (t : FVal) :
    wrap32 (95 + (F32.mul (F32.ofInt (wrap32 (95 - 95))) t).toInt32) = 95 ∨
      wrap32 (95 + (F32.mul (F32.ofInt (wrap32 (95 - 95))) t).toInt32) = -2147483553 := by
  have e0 : F32.ofInt (wrap32 (95 - 95)) = .fin 0 := by decide!
  rw [e0]
  cases t with
  | fin q =>
    left
    simp only [F32.mul, Fmt.mul, zero_mul, round32_zero]
    decide!
  | inf s =>
    right
    simp only [F32.mul, Fmt.mul, if_true]
    decide!
  | nan =>
    right
    simp only [F32.mul, Fmt.mul]
    decide!

theorem keeps_star_stamp (K : Nat → Prop) (hK : ∀ i, K i → 124800 ≤ i) (x y : Int) (c : Nat)
    (hy : y = 95 ∨ y = -2147483553) : Keeps K id (fun b => star_stamp b x y c) := by
  have h1 : wrap32 (y - 1) ≤ 155 := by
    rcases hy with rfl | rfl <;> decide
  have h2 : wrap32 (y + 1) ≤ 155 := by
    rcases hy with rfl | rfl <;> decide
  have h3 : y ≤ 155 := by
    rcases hy with rfl | rfl <;> decide
  unfold star_stamp
  apply keeps_bind _ _ _ _ (keeps_put_pixel_rows K hK _ _ _ h3)
  apply keeps_bind _ _ _ _ (keeps_put_pixel_rows K hK _ _ _ h3)
  apply keeps_bind _ _ _ _ (keeps_put_pixel_rows K hK _ _ _ h3)
  apply keeps_bind _ _ _ _ (keeps_put_pixel_rows K hK _ _ _ h1)
  exact keeps_put_pixel_rows K hK _ _ _ h2

theorem keeps_star_segment (K : Nat → Prop) (hK : ∀ i, K i → 124800 ≤ i) (pulse : FVal)
    (ox : Int) (fuel : Nat) : ∀ t : FVal, Keeps K id (star_segment pulse ox 95 fuel t) := by
  induction fuel with
  | zero =>
    intro t b b' h
    simp [star_segment] at h
  | succ n ih =>
    intro t
    have e : star_segment pulse ox 95 (n + 1) t = fun b =>
        if t.le (.fin 1) then
          (star_stamp b (wrap32 (400 + (F32.mul (F32.ofInt (wrap32 (ox - 400))) t).toInt32))
            (wrap32 (95 + (F32.mul (F32.ofInt (wrap32 (95 - 95))) t).toInt32))
            (blend_colors 0xFFFFD700 0xFFFFFF00
              (F32.mul (F32.sub (.fin 1) (F32.mul t (F32.lit (3 / 10)))) pulse))).bind
            (star_segment pulse ox 95 n (F32.add t (F32.lit (2 / 100))))
        else some b := by
      funext b
      rw [star_segment]
    rw [e]
    apply keeps_ite
    · intro _
      exact keeps_bind _ _ _ _ (keeps_star_stamp K hK _ _ _ (star_row_values t)) (ih _)
    · intro _
      exact keeps_some K id

theorem keeps_star_point (K : Nat → Prop) (hK : ∀ i, K i → 124800 ≤ i) (pulse : FVal)
    (angle : Int) : Keeps K id (star_point flat_libc pulse angle) := by
  unfold star_point
  simp only []
  have e : wrap32 (95 + (F32.mul (flat_libc.sinf (star_angle (angle * 72 - 90)))
      (.fin 25)).toInt32) = 95 := by
    show wrap32 (95 + (F32.mul (.fin 0) (.fin 25)).toInt32) = 95
    decide!
  rw [e]
  exact keeps_star_segment K hK _ _ _ _

theorem keeps_render_star (K : Nat → Prop) (hK : ∀ i, K i → 124800 ≤ i) (fc : Nat) :
    Keeps K id (render_star flat_libc fc) := by
  unfold render_star
  simp only []
  apply keeps_bind _ _ _ _ (keeps_star_glow K hK flat_libc _ _)
  apply keeps_bind
  · apply keeps_forExcl; intro i _ _
    exact keeps_star_point K hK _ i
  · apply keeps_forIncl; intro dy hy0 hy1
    apply keeps_forIncl; intro dx hx0 hx1
    unfold star_center_pixel
    simp only []
    apply keeps_ite
    · intro _
      exact keeps_put_pixel_rows K hK _ _ _ (by omega)
    · intro _
      exact keeps_some K id

/-! ## A pixel of the tree body in two renders -/

theorem tree_pixel_eq (y : Int) (t : FVal) (w dx : Int) (s : Buffer × FVal) (h0 : 0 ≤ 400 + dx)
    (h1 : 400 + dx < 800) :
    tree_pixel y t w dx s = (s.1.store (y * WIDTH + (400 + dx)) (tree_pixel_color t w dx s.2)).map
      (fun b => (b, next_seed s.2)) := by
  unfold tree_pixel tree_pixel_color next_seed
  simp only []
  rw [if_neg (by unfold WIDTH; omega)]

theorem width_at_last_row : width_at 340 160 190 499 = 188 := by
  decide!

/-- The first iteration of a loop sets what the later ones keep. -/
theorem iterate_head_keeps {σ : Type} (K : Nat → Prop) (buf : σ → Buffer)
    (body : Int → σ → Option σ) (n : Nat) (i : Int) (s s1 s' : σ) (h1 : body i s = some s1)
    (h : iterate body (n + 1) i s = some s')
    (hk : ∀ j, i + 1 ≤ j → j < i + 1 + n → Keeps K buf (body j)) :
    ∀ k, K k → buf s' k = buf s1 k := by
  rw [iterate, h1] at h
  simp only [Option.some_bind] at h
  exact keeps_iterate K buf body n (i + 1) hk s1 s' h

theorem tree_row_last (s : Buffer × FVal) :
    tree_row 340 160 190 499 s
      = iterate (tree_pixel 499 (layer_t 340 160 499) 188) (376 + 1) (-188) s := by
  unfold tree_row
  simp only [width_at_last_row]
  rw [if_neg (by decide)]
  unfold forIncl
  rw [if_neg (by decide)]
  rfl

theorem tree_pixel_first (s : Buffer × FVal) :
    tree_pixel 499 (layer_t 340 160 499) 188 (-188) s
      = some (Function.update s.1 399412
          (tree_pixel_color (layer_t 340 160 499) 188 (-188) s.2), next_seed s.2) := by
  rw [tree_pixel_eq _ _ _ _ _ (by decide) (by decide), store_some _ _ _ (by decide) (by decide)]
  rfl

/-- The first pixel of the last row of the last layer: its colour survives the
rest of the row. -/
theorem tree_row_target (s s' : Buffer × FVal) (h : tree_row 340 160 190 499 s = some s') :
    s'.1 399412 = tree_pixel_color (layer_t 340 160 499) 188 (-188) s.2 := by
  rw [tree_row_last] at h
  have hk := iterate_head_keeps (fun i => i = 399412) Prod.fst
    (tree_pixel 499 (layer_t 340 160 499) 188) 376 (-188) s _ s' (tree_pixel_first s) h
    (fun dx hd0 hd1 => keeps_tree_pixel _ 499 _ 188 dx (fun _ _ _ _ hc => by
      have hc2 : (499 * 800 + (400 + dx)).toNat = 399412 := hc
      omega))
    399412 rfl
  rw [hk]
  show Function.update s.1 399412 _ 399412 = _
  simp only [Function.update_same]

theorem layer_calls_values :
    layer_calls (120, 250, 70) = 9040 ∧ layer_calls (180, 330, 110) = 16400 ∧
      layer_calls (260, 410, 150) = 22488 ∧ rows_calls 340 160 190 340 159 = 29843 := by
  decide!

theorem rows_calls_succ (top_y height half_width lo : Int) (n : Nat) :
    rows_calls top_y height half_width lo (n + 1)
      = rows_calls top_y height half_width lo n + row_calls top_y height half_width (lo + n) := by
  unfold rows_calls
  rw [List.range_succ, List.map_append, List.sum_append]
  simp

theorem layer_calls_last : layer_calls (340, 500, 190) = 30220 := by
  have e : layer_calls (340, 500, 190) = rows_calls 340 160 190 340 (159 + 1) := by
    unfold layer_calls
    rfl
  rw [e, rows_calls_succ, layer_calls_values.2.2.2]
  unfold row_calls
  have e2 : (340 : Int) + ((159 : Nat) : Int) = 499 := by decide
  rw [e2, width_at_last_row]
  rfl

/-- The last layer: the colour of the target pixel survives the snow cap. -/
theorem tree_layer_target (s s' : Buffer × FVal) (h : tree_layer (340, 500, 190) s = some s') :
    s'.1 399412 = tree_pixel_color (layer_t 340 160 499) 188 (-188) (next_seed^[29843] s.2) := by
  unfold tree_layer at h
  simp only [Option.bind_eq_some, Option.map_eq_some'] at h
  obtain ⟨s1, hs1, b, hb, e⟩ := h
  unfold forExcl at hs1
  have e160 : ((500 : Int) - 340).toNat = 159 + 1 := by decide
  have e499 : (340 : Int) + ((159 : Nat) : Int) = 499 := by decide
  have e1 : (500 : Int) - 340 = 160 := by decide
  rw [e160, iterate_succ_last, e499, e1] at hs1
  simp only [Option.bind_eq_some] at hs1
  obtain ⟨s0, hs0, hrow⟩ := hs1
  have hseed := advances_rows 340 160 190 340 159 (by decide) (by decide) (by decide)
    (by decide) le_rfl (by decide) (by decide) (by decide) s s0 hs0
  rw [layer_calls_values.2.2.2] at hseed
  have ht := tree_row_target s0 s1 hrow
  rw [hseed] at ht
  rw [← e]
  have hsw : snow_width 190 = 15 := snow_width_values.2.2.2
  simp only [hsw] at hb
  have hk := keeps_snow_cap (fun i => i = 399412) (340 + 10) 15
    (fun dx dy _ _ _ _ _ _ _ _ hc => by
      have hc2 : ((340 + 10 + dy) * 800 + (400 + dx)).toNat = 399412 := hc
      omega) s1.1 b hb 399412 rfl
  have hk2 : b 399412 = s1.1 399412 := hk
  show b 399412 = _
  rw [hk2, ht]

theorem render_tree_target (L : Libc) (s s' : Buffer × FVal) (h : render_tree L s = some s') :
    s'.1 399412 = tree_pixel_color (layer_t 340 160 499) 188 (-188) (next_seed^[77771] s.2) ∧
      s'.2 = next_seed^[80698] s.2 := by
  have hadv := advances_render_tree L s s' h
  rw [layer_calls_values.1, layer_calls_values.2.1, layer_calls_values.2.2.1,
    layer_calls_last] at hadv
  refine ⟨?_, hadv⟩
  rw [render_tree_chain] at h
  simp only [Option.bind_eq_some] at h
  obtain ⟨s4, ⟨s3, ⟨s2, ⟨s1, h1, h2⟩, h3⟩, h4⟩, h5⟩ := h
  have a1 := advances_tree_layer _ (by decide) s s1 h1
  have a2 := advances_tree_layer _ (by decide) s1 s2 h2
  have a3 := advances_tree_layer _ (by decide) s2 s3 h3
  rw [layer_calls_values.1] at a1
  rw [layer_calls_values.2.1] at a2
  rw [layer_calls_values.2.2.1] at a3
  have ht := tree_layer_target s3 s4 h4
  have hk : s'.1 399412 = s4.1 399412 := keeps_trunk (fun i => i = 399412) L
    (fun y dx _ _ _ _ hc => by
      have hc2 : (y * 800 + (400 + dx)).toNat = 399412 := hc
      omega) s4 s' h5 399412 rfl
  rw [hk, ht, a3, a2, a1, ← Function.iterate_add_apply, ← Function.iterate_add_apply,
    ← Function.iterate_add_apply]

/-! ## Two renders of a state with a seed on a cycle of the generator -/

theorem iterate_period {α : Type} (f : α → α) (x : α) (p k r : Nat) (h : f^[p] x = x) :
    f^[p * k + r] x = f^[r] x := by
  rw [Nat.add_comm, Function.iterate_add_apply, Function.iterate_mul,
    Function.iterate_fixed h]

/-- Six seeds that the generator maps to one another in a cycle. -/
theorem next_seed_cycle :
    next_seed (.fin 738458624) = .fin 1551531008 ∧
    next_seed (.fin 1551531008) = .fin 435092480 ∧
    next_seed (.fin 435092480) = .fin 1133083712 ∧
    next_seed (.fin 1133083712) = .fin 2128975616 ∧
    next_seed (.fin 2128975616) = .fin 1170439168 ∧
    next_seed (.fin 1170439168) = .fin 738458624 := by
  decide!

theorem next_seed_period : next_seed^[6] (.fin 738458624) = .fin 738458624 := by
  obtain ⟨a, b, c, d, e, f⟩ := next_seed_cycle
  simp only [Function.iterate_succ_apply, Function.iterate_zero_apply, a, b, c, d, e, f]

theorem next_seed_first : next_seed^[141771] (.fin 738458624) = .fin 1133083712 := by
  obtain ⟨a, b, c, _, _, _⟩ := next_seed_cycle
  rw [show 141771 = 6 * 23628 + 3 by norm_num, iterate_period _ _ _ _ _ next_seed_period]
  simp only [Function.iterate_succ_apply, Function.iterate_zero_apply, a, b, c]

theorem next_seed_second :
    next_seed^[141771] (next_seed^[144698] (.fin 738458624)) = .fin 1170439168 := by
  obtain ⟨a, b, c, d, e, _⟩ := next_seed_cycle
  rw [← Function.iterate_add_apply, show 141771 + 144698 = 6 * 47744 + 5 by norm_num,
    iterate_period _ _ _ _ _ next_seed_period]
  simp only [Function.iterate_succ_apply, Function.iterate_zero_apply, a, b, c, d, e]

theorem target_colors :
    tree_pixel_color (layer_t 340 160 499) 188 (-188) (.fin 1133083712) = 0xFF041F08 ∧
    tree_pixel_color (layer_t 340 160 499) 188 (-188) (.fin 1170439168) = 0xFF06270A := by
  decide!

/-! ## The counterexample to frame stability and the amended statement -/

theorem tame_offscreen (b : Buffer) (s : FVal) : Tame (offscreen_engine b s) := by
  constructor
  · intro i _
    show (0 : Int) < 2147483647
    decide
  · intro i _
    show wrap32 (0 * 3) < 2147483647
    decide

/-- A frame of the off-screen state under the flat library: the pixel `(212, 499)`
holds the colour that the tree body gave it, and the generator has been called
144698 times. -/
theorem render_offscreen (b : Buffer) (s : FVal) (e1 : Engine)
    (h : render_frame flat_libc (offscreen_engine b s) = some e1) :
    e1.shm_data 399412
        = tree_pixel_color (layer_t 340 160 499) 188 (-188) (next_seed^[141771] s) ∧
      e1 = offscreen_engine e1.shm_data (next_seed^[144698] s) := by
  obtain ⟨b1, s2, s3, b4, b5, b6, b7, p1, p2, p3, p4, p5, p6, p7, p8⟩ :=
    render_frame_stages flat_libc (offscreen_engine b s) e1 h
  have p2' : render_ground (b1, s) = some s2 := p2
  have p4' : render_ornaments flat_libc (fun _ => ⟨-100, -100, 0, 0xFFFFFFFF, .fin 0⟩) s3.1
      = some b4 := p4
  have p5' : render_lights flat_libc 0 (fun _ => ⟨-100, -100, 0, 0xFFFFFFFF, 0⟩) b4
      = some b5 := p5
  have p6' : render_star flat_libc 0 b5 = some b6 := p6
  have p7' : render_snow (fun _ => ⟨.fin (-100), .fin (-100), .fin 1, .fin 0, 1⟩) b6
      = some b7 := p7
  have p8' : e1 = offscreen_engine b7 s3.2 := p8
  have g : s2.2 = next_seed^[64000] s := advances_render_ground (b1, s) s2 p2'
  obtain ⟨t1, t2⟩ := render_tree_target flat_libc s2 s3 p3
  rw [g, ← Function.iterate_add_apply] at t1 t2
  rw [show 77771 + 64000 = 141771 by norm_num] at t1
  rw [show 80698 + 64000 = 144698 by norm_num] at t2
  have k4 : b4 399412 = s3.1 399412 :=
    keeps_ornaments_off (fun i => i = 399412) flat_libc 0xFFFFFFFF (.fin 0) s3.1 b4 p4' 399412 rfl
  have k5 : b5 399412 = b4 399412 :=
    keeps_lights_off (fun i => i = 399412) flat_libc 0 0xFFFFFFFF 0 b4 b5 p5' 399412 rfl
  have k6 : b6 399412 = b5 399412 :=
    keeps_render_star (fun i => i = 399412) (fun i (hi : i = 399412) => by omega) 0 b5 b6 p6'
      399412 rfl
  have k7 : b7 399412 = b6 399412 :=
    keeps_snow_off (fun i => i = 399412) (.fin 1) (.fin 0) b6 b7 p7' 399412 rfl
  have hcell : e1.shm_data 399412 = b7 399412 := by rw [p8']; rfl
  refine ⟨?_, ?_⟩
  · rw [hcell, k7, k6, k5, k4]
    exact t1
  · have hbuf : e1.shm_data = b7 := by rw [p8']; rfl
    rw [hbuf, p8', t2]

theorem bind_map_pair {α : Type} (o : Option α) (f : α → Option α) (g : α → Nat) (a b : α)
    (x y : Nat) (h1 : o = some a) (h2 : f a = some b) (hx : g a = x) (hy : g b = y) :
    o.bind (fun a => (f a).map (fun b => (g a, g b))) = some (x, y) := by
  subst h1
  simp [h2, hx, hy]

/-- C13, counterexample: the state with every entity off the screen and the seed
`738458624`, rendered twice under the flat library.  The pixel `(212, 499)`, the
first of the last body row of the tree and outside the ground rows, is darkened
by the speckle in the first render (`0xFF041F08`) and not in the second
(`0xFF06270A`). -/
theorem render_twice_tree_differs :
    ((0 : ℚ) ≤ 738458624 ∧ (738458624 : ℚ) < 2147483648) ∧
    (499 * 800 + 212 = 399412 ∧ ¬ (520 ≤ 499 ∧ 499 < 600)) ∧
    (render_frame flat_libc (offscreen_engine (fun _ => 0) (.fin 738458624))).bind
      (fun e1 => (render_frame flat_libc e1).map
        (fun e2 => (e1.shm_data 399412, e2.shm_data 399412)))
      = some (0xFF041F08, 0xFF06270A) := by
  refine ⟨by norm_num, by decide, ?_⟩
  obtain ⟨e1, he1, _⟩ := render_frame_ok flat_libc _ (tame_offscreen (fun _ => 0) (.fin 738458624))
  obtain ⟨c1, q1⟩ := render_offscreen _ _ e1 he1
  obtain ⟨e2, he2, _⟩ := render_frame_ok flat_libc _
    (tame_offscreen e1.shm_data (next_seed^[144698] (.fin 738458624)))
  obtain ⟨c2, _⟩ := render_offscreen _ _ e2 he2
  rw [next_seed_first, target_colors.1] at c1
  rw [next_seed_second, target_colors.2] at c2
  have h2 : render_frame flat_libc e1 = some e2 := q1 ▸ he2
  exact bind_map_pair (render_frame flat_libc (offscreen_engine (fun _ => 0) (.fin 738458624)))
    (render_frame flat_libc) (fun e => e.shm_data 399412) e1 e2 _ _ he1 h2 c1 c2

theorem stable_of_untextured (x y : Nat) (hx : x < 800) (hy : y < 520)
    (hb : on_tree_body (x : Int) (y : Int) = false) (ht : ¬ (480 ≤ y ∧ 375 ≤ x ∧ x ≤ 425)) :
    Stable (y * 800 + x) := by
  have e1 : (y * 800 + x) / 800 = y := by omega
  have e2 : (y * 800 + x) % 800 = x := by omega
  refine ⟨by omega, ?_⟩
  unfold textured
  rw [e1, e2, hb]
  simp only [Bool.or_false, Bool.false_or, Bool.or_eq_false_iff, decide_eq_false_iff_not]
  exact ⟨by omega, ht⟩

/-- C13, amended. For every entity state, frame counter, seed and library, two
calls of `render_frame` in succession that return leave the same colour in every
cell `(x, y)` above the ground rows, `y < 520`, that `render_tree` does not store
into: `(x, y)` is no body pixel (no layer holds row `y` with
`|x - 400| <= width_at_y`) and no trunk pixel (rows `480 .. 519`, columns
`375 .. 425`).  Both calls return when the radii are tame. -/
theorem render_frame_twice (L : Libc) (e : Engine) :
    (Tame e → ∃ e1 e2, render_frame L e = some e1 ∧ render_frame L e1 = some e2) ∧
    ∀ e1 e2, render_frame L e = some e1 → render_frame L e1 = some e2 →
      ∀ x y : Nat, x < 800 → y < 520 → on_tree_body (x : Int) (y : Int) = false →
        ¬ (480 ≤ y ∧ 375 ≤ x ∧ x ≤ 425) →
        e1.shm_data (y * 800 + x) = e2.shm_data (y * 800 + x) := by
  constructor
  · intro ht
    obtain ⟨e1, he1, _⟩ := render_frame_ok L e ht
    obtain ⟨b1, s2, s3, b4, b5, b6, b7, p1, p2, p3, p4, p5, p6, p7, p8⟩ :=
      render_frame_stages L e e1 he1
    have ht1 : Tame e1 := by rw [p8]; exact ht
    obtain ⟨e2, he2, _⟩ := render_frame_ok L e1 ht1
    exact ⟨e1, e2, he1, he2⟩
  · intro e1 e2 he1 he2 x y hx hy hb ht
    exact render_twice_agree L e e1 e2 he1 he2 _ (stable_of_untextured x y hx hy hb ht)

theorem render_frame_twice_witness :
    Tame (offscreen_engine (fun _ => 0) (.fin 738458624)) ∧
    ((Tame (offscreen_engine (fun _ => 0) (.fin 738458624)) →
      ∃ e1 e2, render_frame flat_libc (offscreen_engine (fun _ => 0) (.fin 738458624)) = some e1 ∧
        render_frame flat_libc e1 = some e2) ∧
    ∀ e1 e2, render_frame flat_libc (offscreen_engine (fun _ => 0) (.fin 738458624)) = some e1 →
      render_frame flat_libc e1 = some e2 →
      ∀ x y : Nat, x < 800 → y < 520 → on_tree_body (x : Int) (y : Int) = false →
        ¬ (480 ≤ y ∧ 375 ≤ x ∧ x ≤ 425) →
        e1.shm_data (y * 800 + x) = e2.shm_data (y * 800 + x)) :=
  ⟨tame_offscreen _ _,
    render_frame_twice flat_libc (offscreen_engine (fun _ => 0) (.fin 738458624))⟩

/-! ## Opacity of every frame that returns -/

theorem of_ok {α : Type} {P : α → Prop} {o : Option α} (h : ∃ a, o = some a ∧ P a) (a' : α)
    (h' : o = some a') : P a' := by
  obtain ⟨a, ha, pa⟩ := h
  rw [ha] at h'
  cases h'
  exact pa

theorem iterate_pres {σ : Type} (P : σ → Prop) (body : Int → σ → Option σ)
    (hb : ∀ j s s', P s → body j s = some s' → P s') (n : Nat) (i : Int) (s s' : σ) (hs : P s)
    (h : iterate body n i s = some s') : P s' := by
  induction n generalizing i s with
  | zero =>
    rw [iterate] at h
    cases h
    exact hs
  | succ k ih =>
    rw [iterate] at h
    obtain ⟨s1, h1, h2⟩ := Option.bind_eq_some.mp h
    exact ih (i + 1) s1 (hb i s s1 hs h1) h2

theorem forExcl_pres {σ : Type} (P : σ → Prop) (body : Int → σ → Option σ)
    (hb : ∀ j s s', P s → body j s = some s' → P s') (lo hi : Int) (s s' : σ) (hs : P s)
    (h : forExcl lo hi body s = some s') : P s' :=
  iterate_pres P body hb _ lo s s' hs h

/-- A loop `for (i = lo; i <= hi; i++)` that ends has its bound below `INT_MAX`. -/
theorem forIncl_some_lt {σ : Type} (lo hi : Int) (body : Int → σ → Option σ) (s s' : σ)
    (h : forIncl lo hi body s = some s') : hi < 2147483647 := by
  by_contra hc
  unfold forIncl at h
  rw [if_pos (by omega)] at h
  cases h

theorem draw_3d_sphere_pres (L : Libc) (b : Buffer) (cx cy radius : Int) (c : Nat) (b' : Buffer)
    (hb : AllOpaque b) (h : draw_3d_sphere L b cx cy radius c = some b') : AllOpaque b' := by
  have hr : radius < 2147483647 := by
    have h2 := h
    unfold draw_3d_sphere at h2
    exact forIncl_some_lt _ _ _ _ _ h2
  exact of_ok (draw_3d_sphere_ok L b cx cy radius c hr hb) b' h

theorem draw_glow_some_lt (L : Libc) (b : Buffer) (cx cy radius : Int) (c : Nat)
    (intensity : FVal) (b' : Buffer) (h : draw_glow L b cx cy radius c intensity = some b') :
    wrap32 (radius * 3) < 2147483647 := by
  unfold draw_glow at h
  simp only [] at h
  exact forIncl_some_lt _ _ _ _ _ h

theorem render_ornaments_pres (L : Libc) (ornaments : Nat → Ornament) (b b' : Buffer)
    (hb : AllOpaque b) (h : render_ornaments L ornaments b = some b') : AllOpaque b' := by
  unfold render_ornaments at h
  refine forExcl_pres AllOpaque _ ?_ _ _ b b' hb h
  intro j s s' hs hj
  obtain ⟨s1, h1, h2⟩ := Option.bind_eq_some.mp hj
  have p1 := draw_3d_sphere_pres L s _ _ _ _ s1 hs h1
  refine of_ok (forExcl_inv AllOpaque _ _ _ s1 p1 ?_) s' h2
  intro dy s2 _ _ hs2
  unfold string_pixel
  exact put_pixel_ok _ _ _ _ (or_isOpaque 0x444444) hs2

theorem render_light_pres (L : Libc) (fc : Nat) (l : TreeLight) (b b' : Buffer)
    (hb : AllOpaque b) (h : render_light L fc l b = some b') : AllOpaque b' := by
  by_cases hr : wrap32 (l.radius * 3) < 2147483647
  · exact of_ok (render_light_ok L fc l b hr hb) b' h
  · unfold render_light at h
    simp only [] at h
    split_ifs at h with hc
    · obtain ⟨b1, h1, _⟩ := Option.bind_eq_some.mp h
      exact absurd (draw_glow_some_lt L b _ _ _ _ _ b1 h1) hr
    · cases h
      exact hb

theorem render_lights_pres (L : Libc) (fc : Nat) (lights : Nat → TreeLight) (b b' : Buffer)
    (hb : AllOpaque b) (h : render_lights L fc lights b = some b') : AllOpaque b' := by
  unfold render_lights at h
  exact forExcl_pres AllOpaque _ (fun j s s' hs hj => render_light_pres L fc _ s s' hs hj)
    _ _ b b' hb h

/-- Whatever the state, a frame that returns has every cell opaque. -/
theorem render_frame_opaque (L : Libc) (e e' : Engine) (h : render_frame L e = some e') :
    AllOpaque e'.shm_data := by
  obtain ⟨b1, s2, s3, b4, b5, b6, b7, p1, p2, p3, p4, p5, p6, p7, p8⟩ :=
    render_frame_stages L e e' h
  have q1 : AllOpaque b1 := of_ok (render_sky_ok L e.frame_count e.shm_data) b1 p1
  have q2 : AllOpaque s2.1 :=
    of_ok (P := fun s : Buffer × FVal => AllOpaque s.1) (render_ground_ok (b1, e.random_seed) q1)
      s2 p2
  have q3 : AllOpaque s3.1 :=
    of_ok (P := fun s : Buffer × FVal => AllOpaque s.1) (render_tree_ok L s2 q2) s3 p3
  have q4 := render_ornaments_pres L e.ornaments s3.1 b4 q3 p4
  have q5 := render_lights_pres L e.frame_count e.lights b4 b5 q4 p5
  have q6 : AllOpaque b6 := of_ok (render_star_ok L e.frame_count b5 q5) b6 p6
  have q7 : AllOpaque b7 := of_ok (render_snow_ok e.snowflakes b6 q6) b7 p7
  rw [p8]
  exact q7

theorem pow2_32 : pow2 32 = 4294967296 := by rw [pow2_eq]; norm_num

theorem pow2_33 : pow2 33 = 8589934592 := by rw [pow2_eq]; norm_num

/-- The argument of `sinf` in the star field is a finite value: `frame_count` is a
`uint32_t` and the star index is below 100. -/
theorem star_arg_finite (fc : Nat) (hfc : fc < 4294967296) (i : Int) (hi0 : 0 ≤ i)
    (hi1 : i < 100) :
    ∃ q : ℚ, F32.add (F32.mul (F32.ofInt fc) (F32.lit (1 / 10)))
      (F32.mul (F32.ofInt i) (.fin (1 / 2))) = .fin q := by
  have hB := pow2_127_ge
  have hB32 : pow2 32 ≤ pow2 127 := pow2_le_pow2 (by norm_num)
  have hB33 : pow2 33 ≤ pow2 127 := pow2_le_pow2 (by norm_num)
  have p32 := pow2_32
  have p33 := pow2_33
  -- (float)frame_count
  have hfq0 : (0 : ℚ) ≤ ((fc : Int) : ℚ) := by positivity
  have hfq1 : (((fc : Int) : ℚ)) ≤ pow2 32 := by
    rw [p32]
    have : (fc : ℚ) ≤ 4294967296 := by exact_mod_cast (le_of_lt hfc)
    simpa using this
  have ha0 : 0 ≤ binary32.rq ((fc : Int) : ℚ) := binary32.rq_nonneg hfq0
  have ha1 : binary32.rq ((fc : Int) : ℚ) ≤ pow2 32 := rq32_le_pow2 32 (by norm_num) hfq1
  have hf : F32.ofInt (fc : Int) = .fin (binary32.rq ((fc : Int) : ℚ)) := by
    unfold F32.ofInt Fmt.ofInt
    exact round32_fin _ (by rw [abs_of_nonneg hfq0]; linarith)
  rw [hf]
  set a := binary32.rq ((fc : Int) : ℚ)
  -- 0.1f
  obtain ⟨c0, c1⟩ := rq32_range (x := (1 / 10 : ℚ)) 1 (by norm_num) (by norm_num)
    (by push_cast; norm_num)
  push_cast at c1
  have hl : F32.lit (1 / 10) = .fin (binary32.rq (1 / 10)) := by
    unfold F32.lit
    exact round32_fin _ (by rw [abs_of_nonneg (by norm_num)]; linarith)
  rw [hl]
  set c := binary32.rq (1 / 10)
  -- frame_count * 0.1f
  have hm0 : 0 ≤ a * c := mul_nonneg ha0 c0
  have hm1 : a * c ≤ pow2 32 := by nlinarith
  have hmul : F32.mul (.fin a) (.fin c) = .fin (binary32.rq (a * c)) := by
    simp only [F32.mul, Fmt.mul]
    exact round32_fin _ (by rw [abs_of_nonneg hm0]; linarith)
  rw [hmul]
  have m0 : 0 ≤ binary32.rq (a * c) := binary32.rq_nonneg hm0
  have m1 : binary32.rq (a * c) ≤ pow2 32 := rq32_le_pow2 32 (by norm_num) hm1
  set m := binary32.rq (a * c)
  -- i * 0.5f
  obtain ⟨n, hn⟩ := Int.eq_ofNat_of_zero_le hi0
  subst hn
  have hn1 : n < 100 := by omega
  rw [F32_ofInt_nat n (by omega)]
  have hnq : (n : ℚ) ≤ 100 := by exact_mod_cast (le_of_lt hn1)
  have hh0 : (0 : ℚ) ≤ (n : ℚ) * (1 / 2) := by positivity
  obtain ⟨k0, k1⟩ := rq32_range (x := (n : ℚ) * (1 / 2)) 50 (by norm_num) hh0
    (by push_cast; linarith)
  push_cast at k1
  have hhalf : F32.mul (.fin (n : ℚ)) (.fin (1 / 2)) = .fin (binary32.rq ((n : ℚ) * (1 / 2))) := by
    simp only [F32.mul, Fmt.mul]
    exact round32_fin _ (by rw [abs_of_nonneg hh0]; linarith)
  rw [hhalf]
  set k := binary32.rq ((n : ℚ) * (1 / 2))
  -- the sum
  refine ⟨binary32.rq (m + k), ?_⟩
  simp only [F32.add, Fmt.add]
  exact round32_fin _ (by rw [abs_of_nonneg (by linarith)]; linarith)

/-- C5. For every initial buffer contents, entity state, frame counter, seed and
library, every call of `render_frame` that returns leaves alpha byte `0xFF` in
every one of the `800 * 600` cells, and the call returns whenever the radii are
tame (as those of `init_lights` and `init_ornaments` are).  The star-field
brightness `200 + 55 * twinkle` never exceeds 255 for a `uint32_t` frame counter,
`sinf` mapping finite arguments into `[-1, 1]`. -/
theorem render_frame_alpha (L : Libc) (e : Engine) :
    (∀ e', render_frame L e = some e' →
      ∀ i : Nat, i < 480000 → ((e'.shm_data i) >>> 24) &&& 0xFF = 0xFF) ∧
    (Tame e → ∃ e', render_frame L e = some e') ∧
    (e.frame_count < 4294967296 →
      (∀ q : ℚ, ∃ r : ℚ, L.sinf (.fin q) = .fin r ∧ -1 ≤ r ∧ r ≤ 1) →
      ∀ i : Int, 0 ≤ i → i < 100 → star_brightness (star_twinkle L e.frame_count i) ≤ 255) := by
  refine ⟨fun e' h i hi => render_frame_opaque L e e' h i hi, ?_, ?_⟩
  · intro ht
    obtain ⟨e', he', _⟩ := render_frame_ok L e ht
    exact ⟨e', he'⟩
  · intro hfc hsin i hi0 hi1
    obtain ⟨q, hq⟩ := star_arg_finite e.frame_count hfc i hi0 hi1
    obtain ⟨r, hr, r0, r1⟩ := hsin q
    exact star_brightness_of_sin L e.frame_count i r (by rw [hq]; exact hr) r0 r1

theorem render_frame_alpha_witness :
    (Tame (offscreen_engine (fun _ => 0) (.fin 12345)) ∧
      (offscreen_engine (fun _ => 0) (.fin 12345)).frame_count < 4294967296 ∧
      ∀ q : ℚ, ∃ r : ℚ, clamp_libc.sinf (.fin q) = .fin r ∧ -1 ≤ r ∧ r ≤ 1) ∧
    ((∀ e', render_frame clamp_libc (offscreen_engine (fun _ => 0) (.fin 12345)) = some e' →
      ∀ i : Nat, i < 480000 → ((e'.shm_data i) >>> 24) &&& 0xFF = 0xFF) ∧
    (Tame (offscreen_engine (fun _ => 0) (.fin 12345)) →
      ∃ e', render_frame clamp_libc (offscreen_engine (fun _ => 0) (.fin 12345)) = some e') ∧
    ((offscreen_engine (fun _ => 0) (.fin 12345)).frame_count < 4294967296 →
      (∀ q : ℚ, ∃ r : ℚ, clamp_libc.sinf (.fin q) = .fin r ∧ -1 ≤ r ∧ r ≤ 1) →
      ∀ i : Int, 0 ≤ i → i < 100 →
        star_brightness
          (star_twinkle clamp_libc (offscreen_engine (fun _ => 0) (.fin 12345)).frame_count i)
            ≤ 255)) :=
  ⟨⟨tame_offscreen _ _, by show (0 : Nat) < 4294967296; decide,
      fun q => ⟨max (-1) (min 1 q), rfl, le_max_left _ _, max_le (by norm_num) (min_le_left _ _)⟩⟩,
    render_frame_alpha clamp_libc (offscreen_engine (fun _ => 0) (.fin 12345))⟩

end XmasTree
